import Mathlib

/-! myMVVM: the dependency-tracking core of `src/myMVVM.js`

A shallow embedding of `defineReactive`, `observe`, `Dep`, `Watcher` and
`getVMVal`, with the JavaScript heap made explicit.

Modelling decisions (each one is local to the definition it is stated at):

* a JavaScript value is `Val`; objects live in a heap indexed by address, and an
  object is the ordered list of its own properties, in the order `Object.keys`
  enumerates them;
* every call of `defineReactive` creates one closure holding the variables `val`
  and `dep`; the closures live in `State.cells`, and the accessor property the call
  installs refers to its closure by index;
* `Dep` and `Watcher` objects live in `State.deps` and `State.watchers`;
  `State.depId` is the global counter `depId`, `State.target` is `Dep.target`;
* a `TypeError` is the result `Res.throw`, which carries the state at the
  moment the error was raised (the source has no `try`, so the error ends the
  running operation and leaves the state as it is);
* the `console.log` of line 30 converts the old and the new value of a cell to
  a string before the assignment: the conversion of an object reads
  properties, through the accessors where they are reactive, and raises a
  `TypeError` for an object without a string conversion (`toStr`);
* the callback of a `Watcher` is the recording callback: it appends the pair
  `(value, oldValue)` to `State.trace` and touches nothing else (the callback
  built in `compileText` writes a DOM text node only);
* reads that JavaScript answers from a prototype or from a primitive value, and
  the conversion of an object or a function to a string, are given by the
  parameter `Builtins`; every theorem that names a `B : Builtins` holds for
  all of them. `jsBuiltins` is the environment of the examples.
-/

namespace MyMVVM

/-- A JavaScript value. `func` stands for any function value, `obj` for a
reference to the heap object at that address (plain objects and arrays alike:
an array is an object whose keys are its indices). -/
inductive Val where
  | undefined
  | null
  | bool (b : Bool)
  | num (n : Int)
  | str (s : String)
  | func (n : Nat)
  | obj (a : Nat)
  deriving DecidableEq, Repr

/-- An own property of an object: a data property with its value and its
`enumerable` flag, or the accessor property installed by `defineReactive`
(line 20), identified by the index of its closure. -/
inductive Slot where
  | data (v : Val) (enumerable : Bool)
  | accessor (c : Nat)
  deriving DecidableEq, Repr

/-- A heap object: its own properties in `Object.keys` order. -/
structure Obj where
  props : List (String × Slot)
  deriving DecidableEq, Repr

/-- The closure of one `defineReactive` call: the captured variable `val`
and the `dep` created on line 17 (a reference into `State.deps`). -/
structure Cell where
  val : Val
  dep : Nat
  deriving DecidableEq, Repr

/-- A `Dep` object (lines 168-171): `id` and the array `watchers`
(references into `State.watchers`). -/
structure Dep where
  id : Nat
  watchers : List Nat
  deriving DecidableEq, Repr

/-- A `Watcher` object (lines 199-206). `depIds` is the object used as a map
from a dep id to the `Dep` stored under it; `value` is `undefined` until the
constructor's `get()` has returned. -/
structure Watcher where
  vm : Val
  exp : String
  depIds : List (Nat × Nat)
  value : Val
  deriving DecidableEq, Repr

/-- What the program does that is visible from outside the data: a call of
the accessor `get` of a cell, a call of `Watcher.update`, and a call of a
watcher's callback `cb(value, oldValue)`. -/
inductive Event where
  | read (c : Nat)
  | update (w : Nat)
  | callback (w : Nat) (value oldValue : Val)
  deriving DecidableEq, Repr

/-- The whole program state. -/
structure State where
  objs : Nat → Obj
  cells : Nat → Cell
  deps : Nat → Dep
  watchers : Nat → Watcher
  nextCell : Nat
  nextDep : Nat
  nextWatcher : Nat
  depId : Nat
  target : Option Nat
  trace : List Event

/-- The outcome of an operation: it returned `a` in state `s`, or it raised an
error (a `TypeError`) in state `s`. -/
inductive Res (α : Type) where
  | ok (a : α) (s : State)
  | throw (s : State)

/-- The state an operation ends in, whether it returned or raised. -/
def Res.state {α : Type} : Res α → State
  | .ok _ s => s
  | .throw s => s

/-- Whether the operation returned. -/
def Res.isOk {α : Type} : Res α → Bool
  | .ok _ _ => true
  | .throw _ => false

/-- What JavaScript answers without the program's own data.

`inherited a k` is what `o[k]` yields when the object at address `a` has no own
property `k` (the lookup goes to its prototype), and `primitive v k` is `v[k]`
for a boolean, number, string or function `v`; `none` is a read that raises a
`TypeError` (`f.caller` of an arrow function, a getter of a prototype called
on the wrong kind of object). Neither has a side effect.

`conversion objs cells v` is the conversion of the object or function `v` to a
string, as a template literal does it, given the objects and the values held
by the closures: the own properties of objects it reads, in order (the
`toString` and `valueOf` of an object, the elements of an array), and whether
it then yields a string (`true`) or raises a `TypeError` (`false`). A
`toString` or `valueOf` supplied by the data may read properties; it is taken
not to write any, to call `observe` or to construct a `Watcher`. -/
structure Builtins where
  inherited : Nat → String → Option Val
  primitive : Val → String → Option Val
  conversion : (Nat → Obj) → (Nat → Cell) → Val → List (Nat × String) × Bool

/-- JavaScript truthiness (`!data` on line 41 is its negation). -/
def truthy : Val → Bool
  | .undefined => false
  | .null => false
  | .bool b => b
  | .num n => n != 0
  | .str s => s != ""
  | .func _ => true
  | .obj _ => true

/-- The `typeof` operator. -/
def typeOf : Val → String
  | .undefined => "undefined"
  | .null => "object"
  | .bool _ => "boolean"
  | .num _ => "number"
  | .str _ => "string"
  | .func _ => "function"
  | .obj _ => "object"

/-- Own-property lookup. -/
def lookup (k : String) : List (String × Slot) → Option Slot
  | [] => none
  | (k', sl) :: ps => if k' = k then some sl else lookup k ps

/-- Replace the slot of own property `k`, keeping its position; a key that is
not present is added at the end. -/
def setSlot (k : String) (sl : Slot) : List (String × Slot) → List (String × Slot)
  | [] => [(k, sl)]
  | (k', sl') :: ps => if k' = k then (k', sl) :: ps else (k', sl') :: setSlot k sl ps

/-- `Object.keys`: the own enumerable keys (an accessor installed by
`defineReactive` has `enumerable: true`, line 23). -/
def keys : List (String × Slot) → List String
  | [] => []
  | (k, .data _ e) :: ps => if e then k :: keys ps else keys ps
  | (k, .accessor _) :: ps => k :: keys ps

/-- The value of the own property `k` of the object at address `a`, as a read
would yield it, without the read: a data property's value, or the value held
by the closure of an accessor. -/
def ownValue (objs : Nat → Obj) (cells : Nat → Cell) (a : Nat) (k : String) : Option Val :=
  match lookup k (objs a).props with
  | some (.data x _) => some x
  | some (.accessor c) => some (cells c).val
  | none => none

/-- String conversion in a JavaScript engine, for data built from object and
array literals; `isArray a` says that the object at address `a` is an array.

`ToPrimitive` reads `toString`: an own property that is a function is called
(it is taken to return a string); one that is not callable makes the
conversion go on to `valueOf`, where an own function is called, and anything
else raises a `TypeError` (`Object.prototype.valueOf` returns the object
itself, which is not a primitive value). Without an own `toString`, a plain
object is converted by `Object.prototype.toString`, which reads no string
key, and an array by `Array.prototype.toString`: `join` reads `length` and
each element, and converts each element that is not `undefined` or `null`.
An array that is being joined already yields the empty string (the engine's
cycle detection). The first argument bounds the nesting of the conversions;
beyond it the engine raises an error (its stack is exhausted). -/
def jsConversion (isArray : Nat → Bool) (objs : Nat → Obj) (cells : Nat → Cell) :
    Nat → List Nat → Val → List (Nat × String) × Bool
  | 0, _, .obj _ => ([], false)
  | fuel + 1, visiting, .obj a =>
    match ownValue objs cells a "toString" with
    | some (.func _) => ([(a, "toString")], true)
    | some _ =>
      match ownValue objs cells a "valueOf" with
      | some (.func _) => ([(a, "toString"), (a, "valueOf")], true)
      | some _ => ([(a, "toString"), (a, "valueOf")], false)
      | none => ([(a, "toString")], false)
    | none =>
      if isArray a then
        match ownValue objs cells a "join" with
        | some _ => ([(a, "join")], true)
        | none =>
          if visiting.contains a then ([], true)
          else
            let len := match ownValue objs cells a "length" with
              | some (.num n) => n.toNat
              | _ => 0
            (List.range len).foldl
              (fun acc i =>
                if acc.2 then
                  match ownValue objs cells a (toString i) with
                  | none => acc
                  | some .undefined => (acc.1 ++ [(a, toString i)], true)
                  | some .null => (acc.1 ++ [(a, toString i)], true)
                  | some e =>
                    let r := jsConversion isArray objs cells fuel (a :: visiting) e
                    (acc.1 ++ (a, toString i) :: r.1, r.2)
                else acc)
              ([(a, "length")], true)
      else ([], true)
  | _, _, _ => ([], true)

/-- The environment of the examples: a JavaScript engine that allows sixteen
nested conversions, running a program whose paths name no prototype property
(a read that goes to a prototype yields `undefined`) and whose arrays are the
objects `isArray` names. -/
def jsBuiltins (isArray : Nat → Bool) : Builtins :=
  { inherited := fun _ _ => some Val.undefined
    primitive := fun _ _ => some Val.undefined
    conversion := fun objs cells v => jsConversion isArray objs cells 16 [] v }

/-- The environment of a program without arrays whose paths name no prototype
property. -/
def noBuiltins : Builtins := jsBuiltins (fun _ => false)

/-- The environment of a program whose only array is the object at address 1. -/
def listBuiltins : Builtins := jsBuiltins (fun a => a == 1)

/-- Splitting a list of characters at every `'.'`, empty pieces included. -/
def splitOnDot : List Char → List (List Char)
  | [] => [[]]
  | c :: cs =>
    if c = '.' then [] :: splitOnDot cs
    else match splitOnDot cs with
      | [] => [[c]]
      | seg :: rest => (c :: seg) :: rest

/-- `exp.split(".")` (line 292). -/
def split (exp : String) : List String :=
  (splitOnDot exp.toList).map String.mk

/-- The assignment `Dep.target = t` (lines 239 and 241). -/
abbrev setTarget (s : State) (t : Option Nat) : State :=
  { s with target := t }

/-- Recording an event at the end of the trace. -/
abbrev log (s : State) (e : Event) : State :=
  { s with trace := s.trace ++ [e] }

/-- `Dep.prototype.addSub` (lines 177-179): `this.watchers.push(watcher)`. -/
def addSub (s : State) (d w : Nat) : State :=
  { s with
    deps := Function.update s.deps d ({ s.deps d with watchers := (s.deps d).watchers ++ [w] }) }

/-- `this.depIds.hasOwnProperty(dep.id)` (line 224). -/
def hasOwnProperty (depIds : List (Nat × Nat)) (id : Nat) : Bool :=
  depIds.any (fun p => p.1 == id)

/-- `Watcher.prototype.addDep` (lines 223-228), for the watcher `w` and the
dep `d`. The assignment `this.depIds[dep.id] = dep` runs only when the key is
absent, so it adds the key. -/
def addDep (s : State) (w d : Nat) : State :=
  if hasOwnProperty (s.watchers w).depIds (s.deps d).id then s
  else
    let s1 := addSub s d w
    { s1 with
      watchers := Function.update s1.watchers w
        ({ s1.watchers w with depIds := (s1.watchers w).depIds ++ [((s1.deps d).id, d)] }) }

/-- The accessor `get()` of a cell (lines 25-28):
`Dep.target && Dep.target.addDep(dep); return val`. -/
def reactiveGet (s : State) (c : Nat) : Val × State :=
  let s0 := log s (Event.read c)
  let s1 := match s0.target with
    | some w => addDep s0 w (s0.cells c).dep
    | none => s0
  ((s1.cells c).val, s1)

/-- The property read `v[k]`. Reading a property of `undefined` or `null`
raises a `TypeError`; an own data property yields its value, an accessor
installed by `defineReactive` runs `reactiveGet`; a read that goes to a
prototype or to a primitive value yields what `Builtins` says, which may be a
`TypeError`. -/
def getProp (B : Builtins) (s : State) (v : Val) (k : String) : Res Val :=
  match v with
  | .undefined => .throw s
  | .null => .throw s
  | .obj a =>
    match lookup k (s.objs a).props with
    | some (.data x _) => .ok x s
    | some (.accessor c) => .ok (reactiveGet s c).1 (reactiveGet s c).2
    | none =>
      match B.inherited a k with
      | some x => .ok x s
      | none => .throw s
  | p =>
    match B.primitive p k with
    | some x => .ok x s
    | none => .throw s

/-- Whether the read `v[k]` is one that `Builtins` answers with a `TypeError`:
`v` is an object without an own property `k` whose prototype raises, or a
boolean, number, string or function on which the read raises. -/
def builtinRaises (B : Builtins) (s : State) (v : Val) (k : String) : Bool :=
  match v with
  | .undefined => false
  | .null => false
  | .obj a =>
    match lookup k (s.objs a).props with
    | none => (B.inherited a k).isNone
    | some _ => false
  | p => (B.primitive p k).isNone

/-- The loop `exp.forEach((k) => val = val[k])` of `getVMVal` (line 293). -/
def resolve (B : Builtins) : State → Val → List String → Res Val
  | s, val, [] => .ok val s
  | s, val, k :: ks =>
    match getProp B s val k with
    | .ok v s1 => resolve B s1 v ks
    | .throw s1 => .throw s1

/-- `getVMVal(vm, exp)` (lines 290-295). -/
def getVMVal (B : Builtins) (s : State) (vm : Val) (exp : String) : Res Val :=
  resolve B s vm (split exp)

/-- `Watcher.prototype.get` (lines 238-243). -/
def Watcher.get (B : Builtins) (s : State) (w : Nat) : Res Val :=
  let s1 := setTarget s (some w)
  match getVMVal B s1 (s1.watchers w).vm (s1.watchers w).exp with
  | .ok value s2 => .ok value (setTarget s2 none)
  | .throw s2 => .throw s2

/-- `Watcher.prototype.run` (lines 231-235): `this.value` is read and passed
to the callback; it is not assigned. -/
def Watcher.run (B : Builtins) (s : State) (w : Nat) : Res Unit :=
  match Watcher.get B s w with
  | .ok value s1 =>
    let oldValue := (s1.watchers w).value
    .ok () (log s1 (Event.callback w value oldValue))
  | .throw s1 => .throw s1

/-- `Watcher.prototype.update` (lines 212-214). -/
def Watcher.update (B : Builtins) (s : State) (w : Nat) : Res Unit :=
  Watcher.run B (log s (Event.update w)) w

/-- The `forEach` of `notify` (lines 185-187) over the elements it visits.
`forEach` fixes its range when it starts and the array only ever grows, at its
end, so the elements visited are those present at the start. -/
def notifyLoop (B : Builtins) : State → List Nat → Res Unit
  | s, [] => .ok () s
  | s, w :: ws =>
    match Watcher.update B s w with
    | .ok _ s1 => notifyLoop B s1 ws
    | .throw s1 => .throw s1

/-- `Dep.prototype.notify` (lines 183-188). The `console.log(this.watchers)` of
line 184 prints the array; printing an object calls no accessor and converts
nothing, so it is left out. -/
def notify (B : Builtins) (s : State) (d : Nat) : Res Unit :=
  notifyLoop B s (s.deps d).watchers

/-- The assignment `val = newVal` (line 31) in the closure `c`. -/
abbrev setVal (s : State) (c : Nat) (newVal : Val) : State :=
  { s with cells := Function.update s.cells c ({ s.cells c with val := newVal }) }

/-- The property reads of a string conversion, one after the other; the
values read are not kept. -/
def readAll (B : Builtins) : State → List (Nat × String) → Res Unit
  | s, [] => .ok () s
  | s, (a, k) :: rs =>
    match getProp B s (.obj a) k with
    | .ok _ s1 => readAll B s1 rs
    | .throw s1 => .throw s1

/-- The conversion of the object or function `v` to a string: the property
reads `Builtins.conversion` lists, through the accessors where the properties
are reactive, and then a string or a `TypeError`. -/
def convert (B : Builtins) (s : State) (v : Val) : Res Unit :=
  match readAll B s (B.conversion s.objs s.cells v).1 with
  | .ok _ s1 => if (B.conversion s.objs s.cells v).2 then .ok () s1 else .throw s1
  | .throw s1 => .throw s1

/-- The conversion of `v` to a string in a template literal. `undefined`,
`null`, booleans, numbers and strings convert without reading anything and
without an error; objects and functions are converted by `convert`. -/
def toStr (B : Builtins) (s : State) (v : Val) : Res Unit :=
  match v with
  | .obj a => convert B s (.obj a)
  | .func n => convert B s (.func n)
  | _ => .ok () s

/-- Whether a value is `undefined`, `null`, a boolean, a number or a string. -/
def Val.isPrimitive : Val → Bool
  | .obj _ => false
  | .func _ => false
  | _ => true

/-- Line 30 of the accessor `set`, in the closure `c`: the template literal
converts `val`, then `newVal`, to a string, and `console.log` prints the
result. -/
def logChange (B : Builtins) (s : State) (c : Nat) (newVal : Val) : Res Unit :=
  match toStr B s (s.cells c).val with
  | .ok _ s1 => toStr B s1 newVal
  | .throw s1 => .throw s1

/-- The accessor `set(newVal)` of a cell (lines 29-33): the `console.log` of
line 30, then `val = newVal; dep.notify()`. An error raised on line 30 ends
the call before the assignment. The new value is not passed to `observe`. -/
def reactiveSet (B : Builtins) (s : State) (c : Nat) (newVal : Val) : Res Unit :=
  match logChange B s c newVal with
  | .ok _ s1 => notify B (setVal s1 c newVal) (s1.cells c).dep
  | .throw s1 => .throw s1

/-- The assignment `v[k] = x`. Assigning to a property of `undefined` or
`null` raises a `TypeError`; on an object an accessor runs `reactiveSet`, a data
property is overwritten, and a missing key is added as an enumerable data
property; on another primitive the assignment is ignored (the source is not
in strict mode). -/
def setProp (B : Builtins) (s : State) (v : Val) (k : String) (x : Val) : Res Unit :=
  match v with
  | .undefined => .throw s
  | .null => .throw s
  | .obj a =>
    match lookup k (s.objs a).props with
    | some (.accessor c) => reactiveSet B s c x
    | some (.data _ e) =>
      .ok () { s with
        objs := Function.update s.objs a ({ props := setSlot k (.data x e) (s.objs a).props }) }
    | none =>
      .ok () { s with
        objs := Function.update s.objs a ({ props := setSlot k (.data x true) (s.objs a).props }) }
  | _ => .ok () s

/-- `new Dep()` (lines 168-171): `this.id = depId ++; this.watchers = []`. -/
def newDep (s : State) : Nat × State :=
  (s.nextDep,
   { s with
      deps := Function.update s.deps s.nextDep ({ id := s.depId, watchers := [] })
      nextDep := s.nextDep + 1
      depId := s.depId + 1 })

/-- `Object.defineProperty(data, key, { enumerable: true, configurable: true, get, set })`
of line 20, with a new closure holding `val` and `dep`. -/
def defineAccessor (s : State) (a : Nat) (key : String) (val : Val) (dep : Nat) : State :=
  { s with
    cells := Function.update s.cells s.nextCell ({ val := val, dep := dep })
    nextCell := s.nextCell + 1
    objs := Function.update s.objs a
      ({ props := setSlot key (.accessor s.nextCell) (s.objs a).props }) }

mutual
/-- `observe(data)` (lines 40-46). The first argument bounds the number of
nested calls; `none` means the bound was reached (on a cyclic object the
source recurses until the stack is exhausted). -/
def observe (B : Builtins) : Nat → State → Val → Option (Res Unit)
  | 0, _, _ => none
  | fuel + 1, s, data =>
    if !truthy data || typeOf data != "object" then some (.ok () s)
    else match data with
      | .obj a => observeKeys B fuel s a (keys (s.objs a).props)
      | _ => some (.ok () s)
/-- The `forEach` of line 43 over the keys `Object.keys(data)` returned:
`defineReactive(data, key, data[key])` for each. -/
def observeKeys (B : Builtins) : Nat → State → Nat → List String → Option (Res Unit)
  | 0, _, _, _ => none
  | _ + 1, s, _, [] => some (.ok () s)
  | fuel + 1, s, a, key :: ks =>
    match getProp B s (.obj a) key with
    | .throw s1 => some (.throw s1)
    | .ok val s1 =>
      match defineReactive B fuel s1 a key val with
      | some (.ok _ s2) => observeKeys B fuel s2 a ks
      | r => r
/-- `defineReactive(data, key, val)` (lines 15-35), `data` being the object
at address `a`. -/
def defineReactive (B : Builtins) : Nat → State → Nat → String → Val → Option (Res Unit)
  | 0, _, _, _, _ => none
  | fuel + 1, s, a, key, val =>
    let (dep, s1) := newDep s
    match observe B fuel s1 val with
    | some (.ok _ s2) => some (.ok () (defineAccessor s2 a key val dep))
    | r => r
end

/-- The assignment `this.value = value` of the constructor (line 205). -/
abbrev setValue (s : State) (w : Nat) (value : Val) : State :=
  { s with watchers := Function.update s.watchers w ({ s.watchers w with value := value }) }

/-- The object `new Watcher(vm, exp, cb)` creates, with the assignments of lines
200-203 done and `this.get()` not yet called. -/
abbrev allocWatcher (s : State) (vm : Val) (exp : String) : State :=
  { s with
    watchers := Function.update s.watchers s.nextWatcher
      ({ vm := vm, exp := exp, depIds := [], value := .undefined })
    nextWatcher := s.nextWatcher + 1 }

/-- `new Watcher(vm, exp, cb)` (lines 199-206) with the recording callback:
the object is created with `depIds = {}`, then `this.value = this.get()`. -/
def newWatcher (B : Builtins) (s : State) (vm : Val) (exp : String) : Res Nat :=
  let w := s.nextWatcher
  match Watcher.get B (allocWatcher s vm exp) w with
  | .ok value s2 => .ok w (setValue s2 w value)
  | .throw s2 => .throw s2

/-- The state of a program that has loaded the source and built the plain
objects `objs`: `depId = 0` (line 167), `Dep.target = null` (line 281). -/
def initState (objs : Nat → Obj) : State :=
  { objs := objs
    cells := fun _ => { val := .undefined, dep := 0 }
    deps := fun _ => { id := 0, watchers := [] }
    watchers := fun _ => { vm := .undefined, exp := "", depIds := [], value := .undefined }
    nextCell := 0
    nextDep := 0
    nextWatcher := 0
    depId := 0
    target := none
    trace := [] }

/-- The callbacks recorded in a trace, as `(watcher, value, oldValue)`. -/
def callbacks : List Event → List (Nat × Val × Val)
  | [] => []
  | .callback w v o :: es => (w, v, o) :: callbacks es
  | _ :: es => callbacks es


/-- The value an operation returned, if it returned. -/
def Res.val? {α : Type} : Res α → Option α
  | .ok a _ => some a
  | .throw _ => none

/-- The outcome of an operation with its return value dropped. -/
def Res.void {α : Type} : Res α → Res Unit
  | .ok _ s => .ok () s
  | .throw s => .throw s

/-- The watcher an event belongs to, for the events that have one. -/
def Event.watcher? : Event → Option Nat
  | .read _ => none
  | .update w => some w
  | .callback w _ _ => some w

/-- How many times the callback of watcher `w` has been called in a trace. -/
def cbCount (w : Nat) (es : List Event) : Nat :=
  ((callbacks es).map Prod.fst).count w

/-- What path resolution and notification leave alone, and how the
subscription lists may change under them: they only grow at the end. -/
structure Frame (s s' : State) : Prop where
  objs : s'.objs = s.objs
  cells : s'.cells = s.cells
  nextCell : s'.nextCell = s.nextCell
  nextDep : s'.nextDep = s.nextDep
  nextWatcher : s'.nextWatcher = s.nextWatcher
  depId : s'.depId = s.depId
  depIdOf : ∀ d, (s'.deps d).id = (s.deps d).id
  vm : ∀ w, (s'.watchers w).vm = (s.watchers w).vm
  exp : ∀ w, (s'.watchers w).exp = (s.watchers w).exp
  value : ∀ w, (s'.watchers w).value = (s.watchers w).value
  subs : ∀ d, (s.deps d).watchers <+: (s'.deps d).watchers
  ids : ∀ w, (s.watchers w).depIds <+: (s'.watchers w).depIds
  trace : s.trace <+: s'.trace

/-- An operation of a program that uses the library: `observe(data)`,
`new Watcher(vm, exp, cb)` with a recording callback, the read `v[k]` and the
assignment `v[k] = x`. -/
inductive Op where
  | observe (fuel : Nat) (data : Val)
  | watch (vm : Val) (exp : String)
  | read (v : Val) (k : String)
  | write (v : Val) (k : String) (x : Val)

/-- The outcome of one operation (`none`: `observe` did not end within its
bound). -/
def outcome (B : Builtins) (s : State) : Op → Option (Res Unit)
  | .observe fuel data => observe B fuel s data
  | .watch vm exp => some (newWatcher B s vm exp).void
  | .read v k => some (getProp B s v k).void
  | .write v k x => some (setProp B s v k x)

/-- The state after one operation, whether it returned or raised. -/
def exec (B : Builtins) (s : State) (op : Op) : Option State :=
  (outcome B s op).map Res.state

/-- The state after a sequence of operations; an operation that raises leaves
its state to the next one (the caller caught the error). -/
def execAll (B : Builtins) : State → List Op → Option State
  | s, [] => some s
  | s, op :: ops => (exec B s op).bind (fun s1 => execAll B s1 ops)

/-- The state after a sequence of operations none of which raised. -/
def execAllOk (B : Builtins) : State → List Op → Option State
  | s, [] => some s
  | s, op :: ops =>
    match outcome B s op with
    | some (.ok _ s1) => execAllOk B s1 ops
    | _ => none

/-- A heap of plain objects: every property is a data property. -/
def Plain (objs : Nat → Obj) : Prop :=
  ∀ a k c, lookup k (objs a).props ≠ some (.accessor c)

/-- The states a program can be in: it starts from plain objects and the
freshly loaded library, and performs operations. -/
def Reachable (B : Builtins) (s : State) : Prop :=
  ∃ objs ops, Plain objs ∧ execAll B (initState objs) ops = some s

/-- The state after the operations `ops` on the plain objects `objs`. -/
def final (B : Builtins) (objs : Nat → Obj) (ops : List Op) : State :=
  (execAll B (initState objs) ops).getD (initState objs)

/-- The heap with no property at all: every address holds `{}`. -/
def heapEmpty : Nat → Obj := fun _ => { props := [] }

/-- The heap whose object 0 is `{ msg: "hi" }`. -/
def heapMsg : Nat → Obj := fun a =>
  if a = 0 then { props := [("msg", .data (.str "hi") true)] } else { props := [] }

/-- The heap whose object 0 is `{ a: 1 }`. -/
def heapA : Nat → Obj := fun a =>
  if a = 0 then { props := [("a", .data (.num 1) true)] } else { props := [] }

/-- The heap with object 0 `{ a: o1 }`, object 1 `o1 = { b: 1 }` and a
further object 2 `{ b: 5 }` that no property refers to yet. -/
def heapNested : Nat → Obj := fun a =>
  if a = 0 then { props := [("a", .data (.obj 1) true)] }
  else if a = 1 then { props := [("b", .data (.num 1) true)] }
  else if a = 2 then { props := [("b", .data (.num 5) true)] }
  else { props := [] }

/-- Consistency of the subscriptions: an Observer in the list of a Subject has
that Subject's id among its `depIds`, no list holds an Observer twice, and
every Observer named in a list, in `Dep.target` or in the trace has been
constructed. -/
structure SubsOk (s : State) : Prop where
  known : ∀ d w, w ∈ (s.deps d).watchers →
    hasOwnProperty (s.watchers w).depIds (s.deps d).id = true
  nodup : ∀ d, (s.deps d).watchers.Nodup
  subsLt : ∀ d w, w ∈ (s.deps d).watchers → w < s.nextWatcher
  targetLt : ∀ t, s.target = some t → t < s.nextWatcher
  traceLt : ∀ e ∈ s.trace, ∀ w, e.watcher? = some w → w < s.nextWatcher

/-- The Observer `w` has been constructed, is not installed in `Dep.target`, is
in no Subject's list, and neither its `update` nor its callback occurs in the
trace. -/
structure Unsubscribed (w : Nat) (s : State) : Prop where
  lt : w < s.nextWatcher
  notTarget : s.target ≠ some w
  notIn : ∀ d, w ∉ (s.deps d).watchers
  silent : ∀ e ∈ s.trace, e.watcher? ≠ some w

/-- Consistency of the references: an accessor refers to a closure that
exists, a closure to a `Dep` that exists, distinct `Dep`s have distinct ids
below the counter `depId`, and each entry of an Observer's `depIds` is a `Dep`
stored under its own id, whose list holds that Observer. -/
structure HeapOk (s : State) : Prop where
  slotLt : ∀ a k c, lookup k (s.objs a).props = some (.accessor c) → c < s.nextCell
  cellDepLt : ∀ c, c < s.nextCell → (s.cells c).dep < s.nextDep
  idLt : ∀ d, d < s.nextDep → (s.deps d).id < s.depId
  idInj : ∀ d d', d < s.nextDep → d' < s.nextDep → (s.deps d).id = (s.deps d').id → d = d'
  idsOk : ∀ w p, p ∈ (s.watchers w).depIds →
    p.2 < s.nextDep ∧ (s.deps p.2).id = p.1 ∧ w ∈ (s.deps p.2).watchers

/-- Constructing `n` Observers one after the other on the same root and path:
the Observers in construction order, or the `TypeError` of the first
construction that raises. -/
def newWatchers (B : Builtins) (s : State) (vm : Val) (exp : String) : Nat → Res (List Nat)
  | 0 => .ok [] s
  | n + 1 =>
    match newWatcher B s vm exp with
    | .ok w s1 =>
      match newWatchers B s1 vm exp n with
      | .ok ws s2 => .ok (w :: ws) s2
      | .throw s2 => .throw s2
    | .throw s1 => .throw s1

/-- The calls of `Watcher.update` recorded in a trace: the watcher of each. -/
def updates : List Event → List Nat
  | [] => []
  | .update w :: es => w :: updates es
  | _ :: es => updates es

/-- The value `depIds[id]`: the `Dep` stored under the key `id`, if there is
one. -/
def depAt (depIds : List (Nat × Nat)) (id : Nat) : Option Nat :=
  (depIds.find? (fun p => p.1 == id)).map Prod.snd

/-- Whether an operation is a call of `observe`. -/
def Op.isObserve : Op → Bool
  | .observe _ _ => true
  | _ => false

mutual
/-- A finite tree of plain data, as an object literal builds it: a value that
is not an object, or an object at an address with its properties. -/
inductive Tree where
  | leaf (v : Val)
  | node (a : Nat) (ps : Props)
/-- The properties of an object of a `Tree`, in `Object.keys` order: an
enumerable data property whose value is a tree, or a data property that is
not enumerable (the `length` of an array) with any value. -/
inductive Props where
  | nil
  | prop (k : String) (t : Tree) (rest : Props)
  | hidden (k : String) (v : Val) (rest : Props)
end

/-- The value of the root of a tree. -/
def Tree.val : Tree → Val
  | .leaf v => v
  | .node a _ => .obj a

/-- The property list of an object with the properties `ps`. -/
def Props.slots : Props → List (String × Slot)
  | .nil => []
  | .prop k t rest => (k, .data t.val true) :: rest.slots
  | .hidden k v rest => (k, .data v false) :: rest.slots

/-- Every key of `ps`. -/
def Props.allKeys : Props → List String
  | .nil => []
  | .prop k _ rest => k :: rest.allKeys
  | .hidden k _ rest => k :: rest.allKeys

/-- The enumerable keys of `ps`. -/
def Props.enumKeys : Props → List String
  | .nil => []
  | .prop k _ rest => k :: rest.enumKeys
  | .hidden _ _ rest => rest.enumKeys

mutual
/-- The addresses of the objects of a tree. -/
def Tree.addrs : Tree → List Nat
  | .leaf _ => []
  | .node a ps => a :: ps.addrs
/-- The addresses of the objects below the properties `ps`. -/
def Props.addrs : Props → List Nat
  | .nil => []
  | .prop _ t rest => t.addrs ++ rest.addrs
  | .hidden _ _ rest => rest.addrs
end

mutual
/-- A bound on the nested calls `observe` makes on a tree. -/
def Tree.size : Tree → Nat
  | .leaf _ => 1
  | .node _ ps => ps.size + 1
/-- A bound on the nested calls `observeKeys` makes on the properties `ps`. -/
def Props.size : Props → Nat
  | .nil => 1
  | .prop _ t rest => t.size + rest.size + 2
  | .hidden _ _ rest => rest.size
end

mutual
/-- The heap `objs` holds the tree: each object of the tree has exactly the
tree's properties, under distinct keys, and a leaf is not an object. -/
def Tree.Holds (objs : Nat → Obj) : Tree → Prop
  | .leaf v => ∀ a, v ≠ .obj a
  | .node a ps => (objs a).props = ps.slots ∧ ps.allKeys.Nodup ∧ ps.Holds objs
/-- The heap holds every tree below the properties `ps`. -/
def Props.Holds (objs : Nat → Obj) : Props → Prop
  | .nil => True
  | .prop _ t rest => t.Holds objs ∧ rest.Holds objs
  | .hidden _ _ rest => rest.Holds objs
end

mutual
/-- The properties of all objects of a tree: address of the object, key,
value and `enumerable` flag; those below a property that is not enumerable
are left out. -/
def Tree.entries : Tree → List (Nat × String × Val × Bool)
  | .leaf _ => []
  | .node a ps => ps.entriesAt a
/-- The properties `ps` of the object at address `a`, and those below them. -/
def Props.entriesAt (a : Nat) : Props → List (Nat × String × Val × Bool)
  | .nil => []
  | .prop k t rest => (a, k, t.val, true) :: (t.entries ++ rest.entriesAt a)
  | .hidden k v rest => (a, k, v, false) :: rest.entriesAt a
end

/-- The properties `ps` themselves: key, value and `enumerable` flag. -/
def Props.own : Props → List (String × Val × Bool)
  | .nil => []
  | .prop k t rest => (k, t.val, true) :: rest.own
  | .hidden k v rest => (k, v, false) :: rest.own

/-- What a run of `observe` over plain data does to the library state: no
Observer, `Dep.target` and trace are touched; closures and `Dep`s are only
added; each new closure holds a new `Dep` of its own, whose list is empty. -/
structure Grows (s s1 : State) : Prop where
  watchers : s1.watchers = s.watchers
  target : s1.target = s.target
  trace : s1.trace = s.trace
  nextWatcher : s1.nextWatcher = s.nextWatcher
  nextCell : s.nextCell ≤ s1.nextCell
  nextDep : s.nextDep ≤ s1.nextDep
  oldCells : ∀ c, c < s.nextCell → s1.cells c = s.cells c
  oldDeps : ∀ d, d < s.nextDep → s1.deps d = s.deps d
  newCellDep : ∀ c, s.nextCell ≤ c → c < s1.nextCell →
    s.nextDep ≤ (s1.cells c).dep ∧ (s1.cells c).dep < s1.nextDep
  ownDep : ∀ c c1, s.nextCell ≤ c → c < s1.nextCell → s.nextCell ≤ c1 → c1 < s1.nextCell →
    (s1.cells c).dep = (s1.cells c1).dep → c = c1
  newDepEmpty : ∀ d, s.nextDep ≤ d → d < s1.nextDep → (s1.deps d).watchers = []

/-- The properties listed in `E` have been instrumented between `s` and `s1`:
each enumerable one is an accessor with a closure created in between that
holds the listed value, distinct properties have distinct closures, and each
property that is not enumerable is the data property it was. -/
structure Instr (s s1 : State) (E : List (Nat × String × Val × Bool)) : Prop where
  cell : ∀ a k v, (a, k, v, true) ∈ E → ∃ c, s.nextCell ≤ c ∧ c < s1.nextCell ∧
    lookup k (s1.objs a).props = some (.accessor c) ∧ (s1.cells c).val = v
  plain : ∀ a k v, (a, k, v, false) ∈ E → lookup k (s1.objs a).props = some (.data v false)
  distinct : ∀ a k v a1 k1 v1 c, (a, k, v, true) ∈ E → (a1, k1, v1, true) ∈ E →
    lookup k (s1.objs a).props = some (.accessor c) →
    lookup k1 (s1.objs a1).props = some (.accessor c) → a = a1 ∧ k = k1

/-- The tree of `heapNested`: `{ a: { b: 1 } }` at address 0. -/
def treeNested : Tree :=
  .node 0 (.prop "a" (.node 1 (.prop "b" (.leaf (.num 1)) .nil)) .nil)

/-- The heap whose object 0 is `{ list: o1 }` with `o1` the array `[10, 20]`:
its elements under the keys `"0"` and `"1"`, and its `length`, which is not
enumerable. -/
def heapList : Nat → Obj := fun a =>
  if a = 0 then { props := [("list", .data (.obj 1) true)] }
  else if a = 1 then
    { props := [("0", .data (.num 10) true), ("1", .data (.num 20) true),
        ("length", .data (.num 2) false)] }
  else { props := [] }

/-- The tree of `heapList`: `{ list: [10, 20] }` at address 0. -/
def treeList : Tree :=
  .node 0 (.prop "list" (.node 1 (.prop "0" (.leaf (.num 10)) (.prop "1" (.leaf (.num 20))
    (.hidden "length" (.num 2) .nil)))) .nil)

/-- The heap `objs` with the object `{ toString: 1 }` at address `b`: an object
without a conversion to a string (its `toString` is not a function, and
`Object.prototype.valueOf` returns the object itself). -/
def withNoString (objs : Nat → Obj) (b : Nat) : Nat → Obj := fun a =>
  if a = b then { props := [("toString", .data (.num 1) true)] } else objs a

/-- The heap whose object 0 is `{ a: o1 }` with `o1 = { toString: 1 }`. -/
def heapNoString : Nat → Obj := fun a =>
  if a = 0 then { props := [("a", .data (.obj 1) true)] }
  else if a = 1 then { props := [("toString", .data (.num 1) true)] }
  else { props := [] }

/-- The heap whose object 0 is `{ "a.b": "hi" }`: one key, which holds a dot. -/
def heapDot : Nat → Obj := fun a =>
  if a = 0 then { props := [("a.b", .data (.str "hi") true)] } else { props := [] }

/-- The heap whose object 0 is `{ f: () => 1 }`. -/
def heapFn : Nat → Obj := fun a =>
  if a = 0 then { props := [("f", .data (.func 0) true)] } else { props := [] }

/-- The environment `noBuiltins` with the one prototype property the example
on `heapFn` names: reading `caller` of a function raises a `TypeError`, as it
does for an arrow function. -/
def strictBuiltins : Builtins :=
  { inherited := fun _ _ => some Val.undefined
    primitive := fun v k =>
      match v with
      | .func _ => if k = "caller" then none else some Val.undefined
      | _ => some Val.undefined
    conversion := noBuiltins.conversion }

/-! ## Lemmas -/

/-! ## Path resolution and notification leave the data alone -/
theorem Frame.refl (s : State) : Frame s s :=
  ⟨rfl, rfl, rfl, rfl, rfl, rfl, fun _ => rfl, fun _ => rfl, fun _ => rfl, fun _ => rfl,
    fun _ => List.prefix_refl _, fun _ => List.prefix_refl _, List.prefix_refl _⟩

theorem Frame.trans {s s1 s2 : State} (h1 : Frame s s1) (h2 : Frame s1 s2) : Frame s s2 where
  objs := h2.objs.trans h1.objs
  cells := h2.cells.trans h1.cells
  nextCell := h2.nextCell.trans h1.nextCell
  nextDep := h2.nextDep.trans h1.nextDep
  nextWatcher := h2.nextWatcher.trans h1.nextWatcher
  depId := h2.depId.trans h1.depId
  depIdOf := fun d => (h2.depIdOf d).trans (h1.depIdOf d)
  vm := fun w => (h2.vm w).trans (h1.vm w)
  exp := fun w => (h2.exp w).trans (h1.exp w)
  value := fun w => (h2.value w).trans (h1.value w)
  subs := fun d => (h1.subs d).trans (h2.subs d)
  ids := fun w => (h1.ids w).trans (h2.ids w)
  trace := h1.trace.trans h2.trace

theorem addDep_frame (s : State) (w d : Nat) : Frame s (addDep s w d) := by
  unfold addDep
  split
  · exact Frame.refl s
  · constructor <;> simp only [addSub] <;> intros <;>
      simp [Function.update_apply] <;> split <;> simp_all

theorem addDep_target (s : State) (w d : Nat) : (addDep s w d).target = s.target := by
  unfold addDep
  split <;> rfl



theorem reactiveGet_frame (s : State) (c : Nat) : Frame s (reactiveGet s c).2 := by
  have h0 : Frame s (log s (Event.read c)) :=
    { Frame.refl s with trace := List.prefix_append _ _ }
  unfold reactiveGet
  cases ht : s.target with
  | none => simpa [ht] using h0
  | some w => simpa [ht] using h0.trans (addDep_frame _ w _)

theorem reactiveGet_target (s : State) (c : Nat) : (reactiveGet s c).2.target = s.target := by
  unfold reactiveGet
  cases ht : s.target with
  | none => simp [ht]
  | some w => simp [ht, addDep_target]

theorem reactiveGet_val (s : State) (c : Nat) : (reactiveGet s c).1 = (s.cells c).val := by
  have h := (reactiveGet_frame s c).cells
  unfold reactiveGet at h ⊢
  simp only at h ⊢
  rw [h]

theorem getProp_frame (B : Builtins) (s : State) (v : Val) (k : String) :
    Frame s (getProp B s v k).state := by
  unfold getProp
  split
  · exact Frame.refl s
  · exact Frame.refl s
  · split
    · exact Frame.refl s
    · exact reactiveGet_frame s _
    · split <;> exact Frame.refl s
  · split <;> exact Frame.refl s

theorem getProp_target (B : Builtins) (s : State) (v : Val) (k : String) :
    (getProp B s v k).state.target = s.target := by
  unfold getProp
  split
  · rfl
  · rfl
  · split
    · rfl
    · exact reactiveGet_target s _
    · split <;> rfl
  · split <;> rfl

theorem resolve_frame (B : Builtins) (s : State) (v : Val) (ks : List String) :
    Frame s (resolve B s v ks).state := by
  induction ks generalizing s v with
  | nil => exact Frame.refl s
  | cons k ks ih =>
    have h := getProp_frame B s v k
    unfold resolve
    cases hg : getProp B s v k with
    | ok x s1 =>
      rw [hg] at h
      exact h.trans (ih s1 x)
    | throw s1 =>
      rw [hg] at h
      exact h

theorem resolve_target (B : Builtins) (s : State) (v : Val) (ks : List String) :
    (resolve B s v ks).state.target = s.target := by
  induction ks generalizing s v with
  | nil => rfl
  | cons k ks ih =>
    have h := getProp_target B s v k
    unfold resolve
    cases hg : getProp B s v k with
    | ok x s1 =>
      rw [hg] at h
      exact (ih s1 x).trans h
    | throw s1 =>
      rw [hg] at h
      exact h

/-! ### The string conversions of line 30 are property reads -/
theorem readAll_preserves (B : Builtins) (P : State → Prop)
    (hP : ∀ t v k, P t → P (getProp B t v k).state) (s : State) (rs : List (Nat × String))
    (h : P s) : P (readAll B s rs).state := by
  induction rs generalizing s with
  | nil => exact h
  | cons r rs ih =>
    obtain ⟨a, k⟩ := r
    have h1 := hP s (.obj a) k h
    simp only [readAll]
    cases hg : getProp B s (.obj a) k with
    | ok y s1 => rw [hg] at h1; exact ih s1 h1
    | throw s1 => rw [hg] at h1; exact h1

theorem convert_preserves (B : Builtins) (P : State → Prop)
    (hP : ∀ t v k, P t → P (getProp B t v k).state) (s : State) (v : Val)
    (h : P s) : P (convert B s v).state := by
  have h1 := readAll_preserves B P hP s (B.conversion s.objs s.cells v).1 h
  unfold convert
  cases hr : readAll B s (B.conversion s.objs s.cells v).1 with
  | ok u s1 =>
    rw [hr] at h1
    simp only []
    split <;> exact h1
  | throw s1 => rw [hr] at h1; exact h1

theorem toStr_preserves (B : Builtins) (P : State → Prop)
    (hP : ∀ t v k, P t → P (getProp B t v k).state) (s : State) (v : Val)
    (h : P s) : P (toStr B s v).state := by
  cases v with
  | obj a => exact convert_preserves B P hP s _ h
  | func n => exact convert_preserves B P hP s _ h
  | _ => exact h

theorem logChange_preserves (B : Builtins) (P : State → Prop)
    (hP : ∀ t v k, P t → P (getProp B t v k).state) (s : State) (c : Nat) (x : Val)
    (h : P s) : P (logChange B s c x).state := by
  have h1 := toStr_preserves B P hP s (s.cells c).val h
  unfold logChange
  cases ht : toStr B s (s.cells c).val with
  | ok u s1 => rw [ht] at h1; exact toStr_preserves B P hP s1 x h1
  | throw s1 => rw [ht] at h1; exact h1

theorem toStr_primitive (B : Builtins) (s : State) (v : Val) (h : v.isPrimitive = true) :
    toStr B s v = .ok () s := by
  cases v <;> first | rfl | cases h

theorem logChange_primitive (B : Builtins) (s : State) (c : Nat) (x : Val)
    (h0 : (s.cells c).val.isPrimitive = true) (hx : x.isPrimitive = true) :
    logChange B s c x = .ok () s := by
  unfold logChange
  rw [toStr_primitive B s _ h0]
  exact toStr_primitive B s x hx

theorem logChange_frame (B : Builtins) (s : State) (c : Nat) (x : Val) :
    Frame s (logChange B s c x).state :=
  logChange_preserves B (Frame s) (fun t v k h => h.trans (getProp_frame B t v k)) s c x
    (Frame.refl s)

theorem logChange_target (B : Builtins) (s : State) (c : Nat) (x : Val) :
    (logChange B s c x).state.target = s.target :=
  logChange_preserves B (fun t => t.target = s.target)
    (fun t v k h => (getProp_target B t v k).trans h) s c x rfl

theorem reactiveSet_ok (B : Builtins) (s : State) (c : Nat) (x : Val) (s1 : State)
    (h : logChange B s c x = .ok () s1) :
    reactiveSet B s c x = notify B (setVal s1 c x) (s.cells c).dep := by
  have hf := logChange_frame B s c x
  rw [h] at hf
  simp only [reactiveSet, h]
  have hc : s1.cells = s.cells := hf.cells
  rw [hc]

theorem reactiveSet_preserves (B : Builtins) (P : State → Prop)
    (hP : ∀ t v k, P t → P (getProp B t v k).state)
    (hN : ∀ t c x, P t → P (notify B (setVal t c x) (t.cells c).dep).state)
    (s : State) (c : Nat) (x : Val) (h : P s) : P (reactiveSet B s c x).state := by
  have h1 := logChange_preserves B P hP s c x h
  unfold reactiveSet
  cases hl : logChange B s c x with
  | ok u s1 => rw [hl] at h1; exact hN s1 c x h1
  | throw s1 => rw [hl] at h1; exact h1

theorem reactiveSet_throw (B : Builtins) (s : State) (c : Nat) (x : Val) (s1 : State)
    (h : logChange B s c x = .throw s1) : reactiveSet B s c x = .throw s1 := by
  simp only [reactiveSet, h]

theorem frame_setTarget (s : State) (t : Option Nat) : Frame s (setTarget s t) :=
  ⟨rfl, rfl, rfl, rfl, rfl, rfl, fun _ => rfl, fun _ => rfl, fun _ => rfl, fun _ => rfl,
    fun _ => List.prefix_refl _, fun _ => List.prefix_refl _, List.prefix_refl _⟩

theorem get_frame (B : Builtins) (s : State) (w : Nat) : Frame s (Watcher.get B s w).state := by
  have h := resolve_frame B (setTarget s (some w)) (s.watchers w).vm (split (s.watchers w).exp)
  have h0 : Frame s (setTarget s (some w)) := frame_setTarget s _
  unfold Watcher.get getVMVal
  simp only
  cases hr : resolve B (setTarget s (some w)) (s.watchers w).vm (split (s.watchers w).exp) with
  | ok x s1 =>
    rw [hr] at h
    exact h0.trans (h.trans (frame_setTarget s1 none))
  | throw s1 =>
    rw [hr] at h
    exact h0.trans h

theorem run_frame (B : Builtins) (s : State) (w : Nat) : Frame s (Watcher.run B s w).state := by
  have h := get_frame B s w
  unfold Watcher.run
  cases hg : Watcher.get B s w with
  | ok x s1 =>
    rw [hg] at h
    exact h.trans { Frame.refl s1 with trace := List.prefix_append _ _ }
  | throw s1 =>
    rw [hg] at h
    exact h

theorem update_frame (B : Builtins) (s : State) (w : Nat) :
    Frame s (Watcher.update B s w).state := by
  have h0 : Frame s (log s (Event.update w)) :=
    { Frame.refl s with trace := List.prefix_append _ _ }
  exact h0.trans (run_frame B _ w)

theorem notifyLoop_frame (B : Builtins) (s : State) (ws : List Nat) :
    Frame s (notifyLoop B s ws).state := by
  induction ws generalizing s with
  | nil => exact Frame.refl s
  | cons w ws ih =>
    have h := update_frame B s w
    unfold notifyLoop
    cases hu : Watcher.update B s w with
    | ok x s1 =>
      rw [hu] at h
      exact h.trans (ih s1)
    | throw s1 =>
      rw [hu] at h
      exact h

theorem notify_frame (B : Builtins) (s : State) (d : Nat) : Frame s (notify B s d).state :=
  notifyLoop_frame B s _

theorem splitOnDot_of_not_mem (cs : List Char) (h : '.' ∉ cs) : splitOnDot cs = [cs] := by
  induction cs with
  | nil => rfl
  | cons c cs ih =>
    have hc : c ≠ '.' := fun e => h (by simp [e])
    have hcs : '.' ∉ cs := fun e => h (by simp [e])
    simp [splitOnDot, hc, ih hcs]

theorem split_of_not_mem (k : String) (h : '.' ∉ k.toList) : split k = [k] := by
  have h2 : splitOnDot k.data = [k.data] := splitOnDot_of_not_mem _ h
  simp [split, h2]

theorem getProp_accessor (B : Builtins) (s : State) (a c : Nat) (k : String)
    (h : lookup k (s.objs a).props = some (.accessor c)) :
    getProp B s (.obj a) k = .ok (s.cells c).val (reactiveGet s c).2 := by
  simp [getProp, h, reactiveGet_val]

theorem notify_single (B : Builtins) (s : State) (a c w : Nat) (k : String) (v : Val)
    (hk : '.' ∉ k.toList)
    (hslot : lookup k (s.objs a).props = some (.accessor c))
    (hws : (s.deps (s.cells c).dep).watchers = [w])
    (hvm : (s.watchers w).vm = .obj a) (hexp : (s.watchers w).exp = k)
    (hid : hasOwnProperty (s.watchers w).depIds (s.deps (s.cells c).dep).id = true) :
    ∃ s2, notify B (setVal s c v) (s.cells c).dep = .ok () s2 ∧
      s2.trace = s.trace ++ [Event.update w, Event.read c, Event.callback w v (s.watchers w).value] := by
  have hg := getProp_accessor B (setTarget (log (setVal s c v) (Event.update w)) (some w))
    a c k hslot
  unfold notify
  rw [show ((setVal s c v).deps (s.cells c).dep).watchers = [w] from hws]
  simp only [notifyLoop, Watcher.update, Watcher.run, Watcher.get, getVMVal, hvm, hexp,
    split_of_not_mem k hk, resolve, hg]
  simp [reactiveGet, addDep, hid]



theorem newWatcher_single (B : Builtins) (s : State) (a c : Nat) (k : String)
    (hk : '.' ∉ k.toList)
    (hslot : lookup k (s.objs a).props = some (.accessor c)) :
    ∃ s1, newWatcher B s (.obj a) k = .ok s.nextWatcher s1 ∧
      s1.objs = s.objs ∧ s1.cells = s.cells ∧
      (s1.deps (s.cells c).dep).watchers = (s.deps (s.cells c).dep).watchers ++ [s.nextWatcher] ∧
      (s1.deps (s.cells c).dep).id = (s.deps (s.cells c).dep).id ∧
      s1.watchers s.nextWatcher =
        { vm := .obj a, exp := k, depIds := [((s.deps (s.cells c).dep).id, (s.cells c).dep)],
          value := (s.cells c).val } ∧
      s1.trace = s.trace ++ [Event.read c] ∧ s1.target = none := by
  simp only [newWatcher, Watcher.get, getVMVal, Function.update_same, split_of_not_mem k hk,
    resolve, getProp, hslot, reactiveGet, addDep, hasOwnProperty, List.any_nil, addSub]
  simp

theorem setProp_accessor (B : Builtins) (s : State) (a c : Nat) (k : String) (x : Val)
    (h : lookup k (s.objs a).props = some (.accessor c)) :
    setProp B s (.obj a) k x = reactiveSet B s c x := by
  simp [setProp, h]

theorem setProp_primitive (B : Builtins) (s : State) (a c : Nat) (k : String) (x : Val)
    (h : lookup k (s.objs a).props = some (.accessor c))
    (h0 : (s.cells c).val.isPrimitive = true) (hx : x.isPrimitive = true) :
    setProp B s (.obj a) k x = notify B (setVal s c x) (s.cells c).dep := by
  rw [setProp_accessor B s a c k x h,
    reactiveSet_ok B s c x s (logChange_primitive B s c x h0 hx)]

theorem resolve_append (B : Builtins) (s : State) (v : Val) (ks : List String) (k : String) :
    resolve B s v (ks ++ [k]) =
      match resolve B s v ks with
      | .ok x s1 => getProp B s1 x k
      | .throw s1 => .throw s1 := by
  induction ks generalizing s v with
  | nil =>
    simp only [List.nil_append, resolve]
    cases getProp B s v k <;> rfl
  | cons k' ks ih =>
    simp only [List.cons_append, resolve]
    cases getProp B s v k' with
    | ok x s1 => exact ih s1 x
    | throw s1 => rfl

theorem getProp_isOk (B : Builtins) (s : State) (v : Val) (k : String) :
    (getProp B s v k).isOk = true ↔
      v ≠ .undefined ∧ v ≠ .null ∧ builtinRaises B s v k = false := by
  cases v with
  | undefined => simp [getProp, Res.isOk]
  | null => simp [getProp, Res.isOk]
  | obj a =>
    simp only [getProp, builtinRaises]
    cases lookup k (s.objs a).props with
    | none => cases B.inherited a k <;> simp [Res.isOk]
    | some sl => cases sl <;> simp [Res.isOk]
  | bool b => simp only [getProp, builtinRaises]; cases B.primitive (.bool b) k <;> simp [Res.isOk]
  | num n => simp only [getProp, builtinRaises]; cases B.primitive (.num n) k <;> simp [Res.isOk]
  | str x => simp only [getProp, builtinRaises]; cases B.primitive (.str x) k <;> simp [Res.isOk]
  | func n => simp only [getProp, builtinRaises]; cases B.primitive (.func n) k <;> simp [Res.isOk]

theorem splitOnDot_ne_nil (cs : List Char) : splitOnDot cs ≠ [] := by
  cases cs with
  | nil => simp [splitOnDot]
  | cons c cs =>
    unfold splitOnDot
    split
    · simp
    · split <;> simp

theorem split_eq_prefix_last (exp : String) :
    split exp = (split exp).dropLast ++ [(split exp).getLastD ""] := by
  have h : split exp ≠ [] := by simp [split, splitOnDot_ne_nil]
  cases hs : split exp with
  | nil => exact absurd hs h
  | cons a t => exact (List.dropLast_append_getLast (List.cons_ne_nil a t)).symm

@[simp] theorem Res.state_ok {α : Type} (a : α) (s : State) : (Res.ok a s).state = s := rfl

@[simp] theorem Res.state_throw {α : Type} (s : State) : (Res.throw s : Res α).state = s := rfl

@[simp] theorem Res.isOk_ok {α : Type} (a : α) (s : State) : (Res.ok a s).isOk = true := rfl

@[simp] theorem Res.isOk_throw {α : Type} (s : State) : (Res.throw s : Res α).isOk = false := rfl

theorem observe_preserves (B : Builtins) (P : State → Prop)
    (hget : ∀ s v k, P s → P (getProp B s v k).state)
    (hdep : ∀ s, P s → P (newDep s).2)
    (hdef : ∀ s a key val dep, P s → dep < s.nextDep → P (defineAccessor s a key val dep)) :
    ∀ fuel,
      (∀ s data r, P s → observe B fuel s data = some r →
        P r.state ∧ s.nextDep ≤ r.state.nextDep) ∧
      (∀ s a ks r, P s → observeKeys B fuel s a ks = some r →
        P r.state ∧ s.nextDep ≤ r.state.nextDep) ∧
      (∀ s a key val r, P s → defineReactive B fuel s a key val = some r →
        P r.state ∧ s.nextDep ≤ r.state.nextDep) := by
  intro fuel
  induction fuel with
  | zero =>
    refine ⟨?_, ?_, ?_⟩ <;> intros <;> simp_all [observe, observeKeys, defineReactive]
  | succ n ih =>
    obtain ⟨ihO, ihK, ihD⟩ := ih
    refine ⟨?_, ?_, ?_⟩
    · intro s data r hP h
      unfold observe at h
      split at h
      · cases h; exact ⟨hP, Nat.le_refl _⟩
      · split at h
        · exact ihK _ _ _ _ hP h
        · cases h; exact ⟨hP, Nat.le_refl _⟩
    · intro s a ks r hP h
      cases ks with
      | nil =>
        simp only [observeKeys] at h
        cases h; exact ⟨hP, Nat.le_refl _⟩
      | cons key ks =>
        simp only [observeKeys] at h
        have hg := hget s (.obj a) key hP
        have hgf := (getProp_frame B s (.obj a) key).nextDep
        cases hgp : getProp B s (.obj a) key with
        | throw s1 =>
          rw [hgp] at h hg hgf
          cases h
          exact ⟨hg, by simp only [Res.state_ok, Res.state_throw] at hgf ⊢; omega⟩
        | ok val s1 =>
          rw [hgp] at h hg hgf
          simp only [Res.state_ok, Res.state_throw] at hg hgf
          dsimp only at h
          cases hd : defineReactive B n s1 a key val with
          | none => rw [hd] at h; cases h
          | some r1 =>
            obtain ⟨hP1, hle1⟩ := ihD _ _ _ _ _ hg hd
            rw [hd] at h
            cases r1 with
            | ok u s2 =>
              obtain ⟨hP2, hle2⟩ := ihK _ _ _ _ hP1 h
              simp only [Res.state_ok, Res.state_throw] at hle1 hle2
              exact ⟨hP2, by omega⟩
            | throw s2 =>
              cases h
              exact ⟨hP1, by omega⟩
    · intro s a key val r hP h
      simp only [defineReactive] at h
      have hP1 := hdep s hP
      cases ho : observe B n (newDep s).2 val with
      | none => rw [ho] at h; cases h
      | some r1 =>
        obtain ⟨hP2, hle⟩ := ihO _ _ _ hP1 ho
        rw [ho] at h
        have hn : (newDep s).2.nextDep = s.nextDep + 1 := rfl
        cases r1 with
        | ok u s2 =>
          cases h
          simp only [Res.state_ok, Res.state_throw] at hle hP2 ⊢
          refine ⟨hdef _ _ _ _ _ hP2 (by simp only [newDep] at hle ⊢; omega), ?_⟩
          simp only [defineAccessor]; omega
        | throw s2 =>
          cases h
          exact ⟨hP2, by omega⟩

theorem observe_target (B : Builtins) (fuel : Nat) (s : State) (data : Val) (r : Res Unit)
    (h : observe B fuel s data = some r) : r.state.target = s.target :=
  ((observe_preserves B (fun t => t.target = s.target)
    (fun t v k ht => (getProp_target B t v k).trans ht)
    (fun _ ht => ht) (fun _ _ _ _ _ ht _ => ht) fuel).1 s data r rfl h).1

theorem get_ok_target (B : Builtins) (s : State) (w : Nat) (v : Val) (s1 : State)
    (h : Watcher.get B s w = .ok v s1) : s1.target = none := by
  unfold Watcher.get at h
  simp only at h
  split at h
  · cases h; rfl
  · cases h

theorem run_ok_target (B : Builtins) (s : State) (w : Nat) (s1 : State)
    (h : Watcher.run B s w = .ok () s1) : s1.target = none := by
  unfold Watcher.run at h
  cases hg : Watcher.get B s w with
  | ok v s2 =>
    rw [hg] at h
    cases h
    exact get_ok_target B s w v s2 hg
  | throw s2 => rw [hg] at h; cases h

theorem update_ok_target (B : Builtins) (s : State) (w : Nat) (s1 : State)
    (h : Watcher.update B s w = .ok () s1) : s1.target = none :=
  run_ok_target B _ w s1 h

theorem notifyLoop_ok_target (B : Builtins) (s : State) (ws : List Nat) (s1 : State)
    (ht : s.target = none) (h : notifyLoop B s ws = .ok () s1) : s1.target = none := by
  induction ws generalizing s with
  | nil => cases h; exact ht
  | cons w ws ih =>
    unfold notifyLoop at h
    cases hu : Watcher.update B s w with
    | ok u s2 =>
      rw [hu] at h
      exact ih s2 (update_ok_target B s w s2 hu) h
    | throw s2 => rw [hu] at h; cases h

theorem setProp_ok_target (B : Builtins) (s : State) (v : Val) (k : String) (x : Val)
    (s1 : State) (ht : s.target = none) (h : setProp B s v k x = .ok () s1) :
    s1.target = none := by
  unfold setProp at h
  split at h
  · cases h
  · cases h
  · split at h
    · rename_i c _
      unfold reactiveSet at h
      have hlt := logChange_target B s c x
      cases hl : logChange B s c x with
      | ok u s0 =>
        rw [hl] at h hlt
        exact notifyLoop_ok_target B (setVal s0 c x) _ s1 (hlt.trans ht) h
      | throw s0 => rw [hl] at h; cases h
    · cases h; exact ht
    · cases h; exact ht
  · cases h; exact ht

theorem newWatcher_ok_target (B : Builtins) (s : State) (vm : Val) (exp : String) (w : Nat)
    (s1 : State) (h : newWatcher B s vm exp = .ok w s1) : s1.target = none := by
  unfold newWatcher at h
  simp only at h
  split at h
  · rename_i value s2 hg
    cases h
    show s2.target = none
    exact get_ok_target B _ _ _ _ hg
  · cases h

theorem outcome_ok_target (B : Builtins) (s : State) (op : Op) (s1 : State)
    (ht : s.target = none) (h : outcome B s op = some (.ok () s1)) : s1.target = none := by
  cases op with
  | observe fuel data => exact (observe_target B fuel s data _ h).trans ht
  | watch vm exp =>
    simp only [outcome, Option.some.injEq] at h
    cases hn : newWatcher B s vm exp with
    | ok w s2 =>
      rw [hn] at h
      cases h
      exact newWatcher_ok_target B s vm exp w _ hn
    | throw s2 => rw [hn] at h; cases h
  | read v k =>
    simp only [outcome, Option.some.injEq] at h
    have hg := getProp_target B s v k
    cases hn : getProp B s v k with
    | ok w s2 =>
      rw [hn] at h hg
      cases h
      exact hg.trans ht
    | throw s2 => rw [hn] at h; cases h
  | write v k x =>
    simp only [outcome, Option.some.injEq] at h
    exact setProp_ok_target B s v k x s1 ht h

theorem execAllOk_target (B : Builtins) (s : State) (ops : List Op) (s1 : State)
    (ht : s.target = none) (h : execAllOk B s ops = some s1) : s1.target = none := by
  induction ops generalizing s with
  | nil => cases h; exact ht
  | cons op ops ih =>
    unfold execAllOk at h
    split at h
    · rename_i u s2 ho
      exact ih s2 (outcome_ok_target B s op s2 ht ho) h
    · cases h

theorem getProp_no_target (B : Builtins) (s : State) (v : Val) (k : String)
    (ht : s.target = none) :
    (getProp B s v k).state.deps = s.deps ∧ (getProp B s v k).state.watchers = s.watchers := by
  unfold getProp
  split
  · exact ⟨rfl, rfl⟩
  · exact ⟨rfl, rfl⟩
  · split
    · exact ⟨rfl, rfl⟩
    · simp [reactiveGet, ht]
    · split <;> exact ⟨rfl, rfl⟩
  · split <;> exact ⟨rfl, rfl⟩

/-! ### Consistency of the subscriptions in every reachable state -/
theorem hasOwnProperty_append (l : List (Nat × Nat)) (p : Nat × Nat) (j : Nat) :
    hasOwnProperty (l ++ [p]) j = (hasOwnProperty l j || p.1 == j) := by
  simp [hasOwnProperty, List.any_append]

theorem SubsOk.congr_subs {s s' : State} (h : SubsOk s) (hd : s'.deps = s.deps)
    (hw : s'.watchers = s.watchers) (hn : s'.nextWatcher = s.nextWatcher)
    (ht : s'.target = s.target) (htr : s'.trace = s.trace) : SubsOk s' := by
  constructor
  · rw [hd, hw]; exact h.known
  · rw [hd]; exact h.nodup
  · rw [hd, hn]; exact h.subsLt
  · rw [ht, hn]; exact h.targetLt
  · rw [htr, hn]; exact h.traceLt

theorem addDep_subsOk (s : State) (w d : Nat) (h : SubsOk s) (hw : w < s.nextWatcher) :
    SubsOk (addDep s w d) := by
  unfold addDep
  split
  · exact h
  · rename_i hno
    have hnot : w ∉ (s.deps d).watchers := fun hmem => hno (h.known d w hmem)
    constructor
    · intro d' w' hmem
      simp only [addSub, Function.update_apply] at hmem ⊢
      by_cases hd : d' = d
      · subst hd
        simp only [if_true, Function.update_same] at hmem ⊢
        by_cases hw' : w' = w
        · subst hw'
          simp [hasOwnProperty_append]
        · simp only [hw', if_false]
          rw [List.mem_append] at hmem
          rcases hmem with hmem | hmem
          · exact h.known _ w' hmem
          · simp at hmem; exact absurd hmem hw'
      · simp only [hd, if_false] at hmem ⊢
        by_cases hw' : w' = w
        · subst hw'
          simp only [if_true, hasOwnProperty_append, Bool.or_eq_true]
          exact Or.inl (h.known d' w' hmem)
        · simp only [hw', if_false]
          exact h.known d' w' hmem
    · intro d'
      simp only [addSub, Function.update_apply]
      by_cases hd : d' = d
      · subst hd
        simp only [if_true]
        exact List.Nodup.append (h.nodup d') (List.nodup_singleton w) (by simpa using hnot)
      · simp only [hd, if_false]
        exact h.nodup d'
    · intro d' w' hmem
      simp only [addSub, Function.update_apply] at hmem ⊢
      by_cases hd : d' = d
      · subst hd
        simp only [if_true] at hmem
        rw [List.mem_append] at hmem
        rcases hmem with hmem | hmem
        · exact h.subsLt _ w' hmem
        · simp at hmem; rw [hmem]; exact hw
      · simp only [hd, if_false] at hmem
        exact h.subsLt d' w' hmem
    · exact h.targetLt
    · exact h.traceLt



theorem SubsOk.log_subs {s : State} (h : SubsOk s) (e : Event)
    (he : ∀ w, e.watcher? = some w → w < s.nextWatcher) :
    SubsOk (log s e) := by
  constructor
  · exact h.known
  · exact h.nodup
  · exact h.subsLt
  · exact h.targetLt
  · intro e' hmem w hw
    simp only [List.mem_append, List.mem_singleton] at hmem
    rcases hmem with hmem | hmem
    · exact h.traceLt e' hmem w hw
    · subst hmem; exact he w hw

theorem SubsOk.target_subs {s : State} (h : SubsOk s) (t : Option Nat)
    (ht : ∀ w, t = some w → w < s.nextWatcher) : SubsOk (setTarget s t) :=
  ⟨h.known, h.nodup, h.subsLt, ht, h.traceLt⟩

theorem reactiveGet_subsOk (s : State) (c : Nat) (h : SubsOk s) : SubsOk (reactiveGet s c).2 := by
  have h0 : SubsOk (log s (Event.read c)) :=
    h.log_subs _ (by intro w hw; cases hw)
  unfold reactiveGet
  cases ht : s.target with
  | none => simpa [ht] using h0
  | some w => simpa [ht] using addDep_subsOk _ w _ h0 (h.targetLt w ht)

theorem getProp_subsOk (B : Builtins) (s : State) (v : Val) (k : String) (h : SubsOk s) :
    SubsOk (getProp B s v k).state := by
  unfold getProp
  split
  · exact h
  · exact h
  · split
    · exact h
    · exact reactiveGet_subsOk s _ h
    · split <;> exact h
  · split <;> exact h

theorem resolve_subsOk (B : Builtins) (s : State) (v : Val) (ks : List String) (h : SubsOk s) :
    SubsOk (resolve B s v ks).state := by
  induction ks generalizing s v with
  | nil => exact h
  | cons k ks ih =>
    have hg := getProp_subsOk B s v k h
    unfold resolve
    cases hgp : getProp B s v k with
    | ok x s1 =>
      rw [hgp] at hg
      exact ih s1 x hg
    | throw s1 =>
      rw [hgp] at hg
      exact hg

theorem get_subsOk (B : Builtins) (s : State) (w : Nat) (h : SubsOk s)
    (hw : w < s.nextWatcher) : SubsOk (Watcher.get B s w).state := by
  have h0 : SubsOk (setTarget s (some w)) :=
    h.target_subs _ (by intro w' hw'; cases hw'; exact hw)
  have hr := resolve_subsOk B _ (s.watchers w).vm (split (s.watchers w).exp) h0
  unfold Watcher.get getVMVal
  simp only
  cases hres : resolve B (setTarget s (some w)) (s.watchers w).vm
      (split (s.watchers w).exp) with
  | ok x s1 =>
    rw [hres] at hr
    exact hr.target_subs none (by intro w' hw'; cases hw')
  | throw s1 =>
    rw [hres] at hr
    exact hr

theorem run_subsOk (B : Builtins) (s : State) (w : Nat) (h : SubsOk s)
    (hw : w < s.nextWatcher) : SubsOk (Watcher.run B s w).state := by
  have hg := get_subsOk B s w h hw
  have hf := (get_frame B s w).nextWatcher
  unfold Watcher.run
  cases hget : Watcher.get B s w with
  | ok x s1 =>
    rw [hget] at hg hf
    exact hg.log_subs _ (by
      intro w' hw'
      cases hw'
      simp only [Res.state_ok] at hf ⊢
      omega)
  | throw s1 =>
    rw [hget] at hg
    exact hg

theorem update_subsOk (B : Builtins) (s : State) (w : Nat) (h : SubsOk s)
    (hw : w < s.nextWatcher) : SubsOk (Watcher.update B s w).state :=
  run_subsOk B _ w (h.log_subs _ (by intro w' hw'; cases hw'; exact hw)) hw

theorem notifyLoop_subsOk (B : Builtins) (s : State) (ws : List Nat) (h : SubsOk s)
    (hws : ∀ w ∈ ws, w < s.nextWatcher) : SubsOk (notifyLoop B s ws).state := by
  induction ws generalizing s with
  | nil => exact h
  | cons w ws ih =>
    have hu := update_subsOk B s w h (hws w (List.mem_cons_self _ _))
    have hf := (update_frame B s w).nextWatcher
    unfold notifyLoop
    cases hup : Watcher.update B s w with
    | ok x s1 =>
      rw [hup] at hu hf
      simp only [Res.state_ok] at hf
      exact ih s1 hu (fun w' hw' => by rw [hf]; exact hws w' (List.mem_cons_of_mem _ hw'))
    | throw s1 =>
      rw [hup] at hu
      exact hu

theorem setProp_subsOk (B : Builtins) (s : State) (v : Val) (k : String) (x : Val)
    (h : SubsOk s) : SubsOk (setProp B s v k x).state := by
  unfold setProp
  split
  · exact h
  · exact h
  · split
    · rename_i c _
      exact reactiveSet_preserves B SubsOk (fun t v k ht => getProp_subsOk B t v k ht)
        (fun t c x ht => notifyLoop_subsOk B (setVal t c x) _ (ht.congr_subs rfl rfl rfl rfl rfl)
          (fun w hw => ht.subsLt _ w hw)) s c x h
    · exact h.congr_subs rfl rfl rfl rfl rfl
    · exact h.congr_subs rfl rfl rfl rfl rfl
  · exact h

theorem newDep_subsOk (s : State) (h : SubsOk s) : SubsOk (newDep s).2 := by
  constructor
  · intro d w hmem
    simp only [newDep, Function.update_apply] at hmem ⊢
    by_cases hd : d = s.nextDep
    · simp [hd] at hmem
    · simp only [hd, if_false] at hmem ⊢
      exact h.known d w hmem
  · intro d
    simp only [newDep, Function.update_apply]
    by_cases hd : d = s.nextDep
    · simp [hd]
    · simp only [hd, if_false]
      exact h.nodup d
  · intro d w hmem
    simp only [newDep, Function.update_apply] at hmem ⊢
    by_cases hd : d = s.nextDep
    · simp [hd] at hmem
    · simp only [hd, if_false] at hmem
      exact h.subsLt d w hmem
  · exact h.targetLt
  · exact h.traceLt

theorem observe_subsOk (B : Builtins) (fuel : Nat) (s : State) (data : Val) (r : Res Unit)
    (h : SubsOk s) (ho : observe B fuel s data = some r) : SubsOk r.state :=
  ((observe_preserves B SubsOk (fun t v k ht => getProp_subsOk B t v k ht)
    (fun t ht => newDep_subsOk t ht)
    (fun _ _ _ _ _ ht _ => ht.congr_subs rfl rfl rfl rfl rfl) fuel).1 s data r h ho).1

theorem newWatcher_subsOk (B : Builtins) (s : State) (vm : Val) (exp : String) (h : SubsOk s) :
    SubsOk (newWatcher B s vm exp).state := by
  have h1 : SubsOk (allocWatcher s vm exp) := by
    constructor
    · intro d w hmem
      have hlt := h.subsLt d w hmem
      have hne : w ≠ s.nextWatcher := by omega
      simp only [Function.update_apply, hne, if_false]
      exact h.known d w hmem
    · exact h.nodup
    · intro d w hmem
      exact Nat.lt_succ_of_lt (h.subsLt d w hmem)
    · intro t ht
      exact Nat.lt_succ_of_lt (h.targetLt t ht)
    · intro e he w hw
      exact Nat.lt_succ_of_lt (h.traceLt e he w hw)
  have hg := get_subsOk B _ s.nextWatcher h1 (Nat.lt_succ_self _)
  unfold newWatcher
  simp only
  split
  · rename_i value s2 hget
    rw [hget] at hg
    simp only [Res.state_ok] at hg ⊢
    constructor
    · intro d w hmem
      have hk := hg.known d w hmem
      simp only [Function.update_apply]
      split
      · rename_i hw; subst hw; exact hk
      · exact hk
    · exact hg.nodup
    · exact hg.subsLt
    · exact hg.targetLt
    · exact hg.traceLt
  · rename_i s2 hget
    rw [hget] at hg
    exact hg

theorem initState_subsOk (objs : Nat → Obj) : SubsOk (initState objs) := by
  constructor <;> intros <;> simp_all [initState]

theorem exec_subsOk (B : Builtins) (s : State) (op : Op) (s1 : State) (h : SubsOk s)
    (he : exec B s op = some s1) : SubsOk s1 := by
  cases op with
  | observe fuel data =>
    simp only [exec, outcome, Option.map_eq_some'] at he
    obtain ⟨r, hr, rfl⟩ := he
    exact observe_subsOk B fuel s data r h hr
  | watch vm exp =>
    simp only [exec, outcome, Option.map_some', Option.some.injEq] at he
    subst he
    have := newWatcher_subsOk B s vm exp h
    cases hn : newWatcher B s vm exp <;> rw [hn] at this <;> exact this
  | read v k =>
    simp only [exec, outcome, Option.map_some', Option.some.injEq] at he
    subst he
    have := getProp_subsOk B s v k h
    cases hn : getProp B s v k <;> rw [hn] at this <;> exact this
  | write v k x =>
    simp only [exec, outcome, Option.map_some', Option.some.injEq] at he
    subst he
    exact setProp_subsOk B s v k x h

theorem execAll_subsOk (B : Builtins) (s : State) (ops : List Op) (s1 : State) (h : SubsOk s)
    (he : execAll B s ops = some s1) : SubsOk s1 := by
  induction ops generalizing s with
  | nil => cases he; exact h
  | cons op ops ih =>
    simp only [execAll, Option.bind_eq_some] at he
    obtain ⟨s2, h2, h3⟩ := he
    exact ih s2 (exec_subsOk B s op s2 h h2) h3

theorem Reachable.subsOk {B : Builtins} {s : State} (h : Reachable B s) : SubsOk s := by
  obtain ⟨objs, ops, -, he⟩ := h
  exact execAll_subsOk B _ ops s (initState_subsOk objs) he

/-! ### The callbacks a notification adds to the trace -/
theorem callbacks_append (a b : List Event) : callbacks (a ++ b) = callbacks a ++ callbacks b := by
  induction a with
  | nil => rfl
  | cons e a ih => cases e <;> simp [callbacks, ih]

theorem addDep_trace (s : State) (w d : Nat) : (addDep s w d).trace = s.trace := by
  unfold addDep
  split <;> rfl

theorem reactiveGet_trace (s : State) (c : Nat) :
    (reactiveGet s c).2.trace = s.trace ++ [Event.read c] := by
  unfold reactiveGet
  cases ht : s.target with
  | none => simp [ht]
  | some w => simp [ht, addDep_trace]

theorem getProp_callbacks (B : Builtins) (s : State) (v : Val) (k : String) :
    callbacks (getProp B s v k).state.trace = callbacks s.trace := by
  unfold getProp
  split
  · rfl
  · rfl
  · split
    · rfl
    · simp [reactiveGet_trace, callbacks_append, callbacks]
    · split <;> rfl
  · split <;> rfl

theorem resolve_callbacks (B : Builtins) (s : State) (v : Val) (ks : List String) :
    callbacks (resolve B s v ks).state.trace = callbacks s.trace := by
  induction ks generalizing s v with
  | nil => rfl
  | cons k ks ih =>
    have hg := getProp_callbacks B s v k
    unfold resolve
    cases hgp : getProp B s v k with
    | ok x s1 =>
      rw [hgp] at hg
      exact (ih s1 x).trans hg
    | throw s1 =>
      rw [hgp] at hg
      exact hg

theorem get_callbacks (B : Builtins) (s : State) (w : Nat) :
    callbacks (Watcher.get B s w).state.trace = callbacks s.trace := by
  have hr := resolve_callbacks B (setTarget s (some w)) (s.watchers w).vm
    (split (s.watchers w).exp)
  unfold Watcher.get getVMVal
  simp only
  cases hres : resolve B (setTarget s (some w)) (s.watchers w).vm
      (split (s.watchers w).exp) with
  | ok x s1 =>
    rw [hres] at hr
    exact hr
  | throw s1 =>
    rw [hres] at hr
    exact hr

theorem update_callbacks (B : Builtins) (s : State) (w : Nat) :
    ∃ L, callbacks (Watcher.update B s w).state.trace = callbacks s.trace ++ L ∧
      ((Watcher.update B s w).isOk = true → L.map Prod.fst = [w]) ∧
      ((Watcher.update B s w).isOk = false → L = []) := by
  have hg := get_callbacks B (log s (Event.update w)) w
  unfold Watcher.update Watcher.run
  cases hget : Watcher.get B (log s (Event.update w)) w with
  | ok x s1 =>
    rw [hget] at hg
    simp only [Res.state_ok, callbacks_append, callbacks, List.append_nil] at hg
    refine ⟨[(w, x, (s1.watchers w).value)], ?_, ?_, ?_⟩
    · simp [callbacks_append, callbacks, hg]
    · intro _; rfl
    · intro h; simp at h
  | throw s1 =>
    rw [hget] at hg
    simp only [Res.state_throw, callbacks_append, callbacks, List.append_nil] at hg
    exact ⟨[], by simp [hg], by intro h; simp at h, fun _ => rfl⟩

theorem notifyLoop_callbacks (B : Builtins) (s : State) (ws : List Nat) :
    ∃ L, callbacks (notifyLoop B s ws).state.trace = callbacks s.trace ++ L ∧
      L.map Prod.fst <+: ws ∧
      ((notifyLoop B s ws).isOk = true → L.map Prod.fst = ws) := by
  induction ws generalizing s with
  | nil => exact ⟨[], by simp [notifyLoop], by simp, fun _ => rfl⟩
  | cons w ws ih =>
    obtain ⟨L1, h1, hok, hthrow⟩ := update_callbacks B s w
    unfold notifyLoop
    cases hup : Watcher.update B s w with
    | ok u s1 =>
      rw [hup] at h1 hok
      simp only [Res.state_ok, Res.isOk_ok, forall_const] at h1 hok
      obtain ⟨L2, h2, hpre, hall⟩ := ih s1
      refine ⟨L1 ++ L2, ?_, ?_, ?_⟩
      · simp only
        rw [h2, h1, List.append_assoc]
      · rw [List.map_append, hok]
        exact (List.prefix_cons_inj w).2 hpre
      · intro hk
        rw [List.map_append, hok, hall hk]
        rfl
    | throw s1 =>
      rw [hup] at h1 hthrow
      simp only [Res.state_throw, Res.isOk_throw, forall_const] at h1 hthrow
      subst hthrow
      exact ⟨[], by simpa using h1, by simp, by intro h; simp at h⟩

theorem cbCount_of_callbacks (w : Nat) (t t' : List Event) (L : List (Nat × Val × Val))
    (h : callbacks t' = callbacks t ++ L) :
    cbCount w t' = cbCount w t + (L.map Prod.fst).count w := by
  simp [cbCount, h, List.count_append]

theorem heapEmpty_plain : Plain heapEmpty := by
  intro a k c
  simp [heapEmpty, lookup]

theorem heapMsg_plain : Plain heapMsg := by
  intro a k c
  unfold heapMsg
  split <;> simp only [lookup] <;> (try split) <;> simp

theorem heapA_plain : Plain heapA := by
  intro a k c
  unfold heapA
  split <;> simp only [lookup] <;> (try split) <;> simp

theorem heapNested_plain : Plain heapNested := by
  intro a k c
  unfold heapNested
  repeat' split
  all_goals simp only [lookup]
  all_goals (try split)
  all_goals simp

theorem logChange_callbacks (B : Builtins) (s : State) (c : Nat) (x : Val) :
    callbacks (logChange B s c x).state.trace = callbacks s.trace :=
  logChange_preserves B (fun t => callbacks t.trace = callbacks s.trace)
    (fun t v k h => (getProp_callbacks B t v k).trans h) s c x rfl

theorem logChange_no_target (B : Builtins) (s : State) (c : Nat) (x : Val)
    (ht : s.target = none) :
    (logChange B s c x).state.deps = s.deps ∧ (logChange B s c x).state.watchers = s.watchers :=
  (logChange_preserves B
    (fun t => t.target = none ∧ t.deps = s.deps ∧ t.watchers = s.watchers)
    (fun t v k h => ⟨(getProp_target B t v k).trans h.1,
      (getProp_no_target B t v k h.1).1.trans h.2.1,
      (getProp_no_target B t v k h.1).2.trans h.2.2⟩) s c x ⟨ht, rfl, rfl⟩).2

/-- The callbacks of a write: those of the Observers in the list of the
cell's Subject as it is when line 30 has been run. -/
theorem setProp_callbacks (B : Builtins) (s : State) (a c : Nat) (k : String) (x : Val)
    (hslot : lookup k (s.objs a).props = some (.accessor c)) :
    ∃ L, callbacks (setProp B s (.obj a) k x).state.trace = callbacks s.trace ++ L ∧
      L.map Prod.fst <+: ((logChange B s c x).state.deps (s.cells c).dep).watchers ∧
      ((setProp B s (.obj a) k x).isOk = true →
        L.map Prod.fst = ((logChange B s c x).state.deps (s.cells c).dep).watchers) := by
  rw [setProp_accessor B s a c k x hslot]
  have hcb := logChange_callbacks B s c x
  cases hl : logChange B s c x with
  | ok u s1 =>
    rw [hl] at hcb
    rw [reactiveSet_ok B s c x s1 hl, ← hcb]
    exact notifyLoop_callbacks B (setVal s1 c x) _
  | throw s1 =>
    rw [hl] at hcb
    rw [reactiveSet_throw B s c x s1 hl]
    exact ⟨[], by simpa using hcb, List.nil_prefix, fun h => by cases h⟩

/-! ### An Observer that is in no list stays out of every list -/
theorem addDep_mem (s : State) (w d d' x : Nat) (h : x ∈ ((addDep s w d).deps d').watchers) :
    x ∈ (s.deps d').watchers ∨ x = w := by
  unfold addDep at h
  split at h
  · exact Or.inl h
  · simp only [addSub, Function.update_apply] at h
    split at h
    · rename_i hd
      subst hd
      simp only [List.mem_append, List.mem_singleton] at h
      exact h
    · exact Or.inl h

theorem Unsubscribed.congr_unsub {w : Nat} {s s' : State} (h : Unsubscribed w s)
    (hd : s'.deps = s.deps) (hn : s'.nextWatcher = s.nextWatcher)
    (ht : s'.target = s.target) (htr : s'.trace = s.trace) : Unsubscribed w s' := by
  constructor
  · rw [hn]; exact h.lt
  · rw [ht]; exact h.notTarget
  · rw [hd]; exact h.notIn
  · rw [htr]; exact h.silent

theorem Unsubscribed.log_unsub {w : Nat} {s : State} (h : Unsubscribed w s) (e : Event)
    (he : e.watcher? ≠ some w) : Unsubscribed w (log s e) := by
  refine ⟨h.lt, h.notTarget, h.notIn, ?_⟩
  intro e' hmem
  simp only [List.mem_append, List.mem_singleton] at hmem
  rcases hmem with hmem | hmem
  · exact h.silent e' hmem
  · subst hmem; exact he

theorem Unsubscribed.target_unsub {w : Nat} {s : State} (h : Unsubscribed w s) (t : Option Nat)
    (ht : t ≠ some w) : Unsubscribed w (setTarget s t) :=
  ⟨h.lt, ht, h.notIn, h.silent⟩

theorem addDep_unsubscribed (w : Nat) (s : State) (t d : Nat) (h : Unsubscribed w s)
    (ht : t ≠ w) : Unsubscribed w (addDep s t d) := by
  have hf := addDep_frame s t d
  refine ⟨by rw [hf.nextWatcher]; exact h.lt, by rw [addDep_target]; exact h.notTarget, ?_,
    by rw [addDep_trace]; exact h.silent⟩
  intro d' hmem
  rcases addDep_mem s t d d' w hmem with h1 | h1
  · exact h.notIn d' h1
  · exact ht h1.symm

theorem reactiveGet_unsubscribed (w : Nat) (s : State) (c : Nat) (h : Unsubscribed w s) :
    Unsubscribed w (reactiveGet s c).2 := by
  have h0 : Unsubscribed w (log s (Event.read c)) :=
    h.log_unsub _ (by simp [Event.watcher?])
  unfold reactiveGet
  cases ht : s.target with
  | none => simpa [ht] using h0
  | some t =>
    have hne : t ≠ w := fun e => h.notTarget (by rw [ht, e])
    simpa [ht] using addDep_unsubscribed w _ t _ h0 hne

theorem getProp_unsubscribed (B : Builtins) (w : Nat) (s : State) (v : Val) (k : String)
    (h : Unsubscribed w s) : Unsubscribed w (getProp B s v k).state := by
  unfold getProp
  split
  · exact h
  · exact h
  · split
    · exact h
    · exact reactiveGet_unsubscribed w s _ h
    · split <;> exact h
  · split <;> exact h

theorem resolve_unsubscribed (B : Builtins) (w : Nat) (s : State) (v : Val) (ks : List String)
    (h : Unsubscribed w s) : Unsubscribed w (resolve B s v ks).state := by
  induction ks generalizing s v with
  | nil => exact h
  | cons k ks ih =>
    have hg := getProp_unsubscribed B w s v k h
    unfold resolve
    cases hgp : getProp B s v k with
    | ok x s1 =>
      rw [hgp] at hg
      exact ih s1 x hg
    | throw s1 =>
      rw [hgp] at hg
      exact hg

theorem get_unsubscribed (B : Builtins) (w : Nat) (s : State) (t : Nat)
    (h : Unsubscribed w s) (ht : t ≠ w) : Unsubscribed w (Watcher.get B s t).state := by
  have h0 : Unsubscribed w (setTarget s (some t)) :=
    h.target_unsub _ (by intro e; cases e; exact ht rfl)
  have hr := resolve_unsubscribed B w _ (s.watchers t).vm (split (s.watchers t).exp) h0
  unfold Watcher.get getVMVal
  simp only
  cases hres : resolve B (setTarget s (some t)) (s.watchers t).vm
      (split (s.watchers t).exp) with
  | ok x s1 =>
    rw [hres] at hr
    exact hr.target_unsub none (by simp)
  | throw s1 =>
    rw [hres] at hr
    exact hr

theorem update_unsubscribed (B : Builtins) (w : Nat) (s : State) (t : Nat)
    (h : Unsubscribed w s) (ht : t ≠ w) : Unsubscribed w (Watcher.update B s t).state := by
  have hne : some t ≠ some w := by intro e; cases e; exact ht rfl
  have h0 : Unsubscribed w (log s (Event.update t)) :=
    h.log_unsub _ (by simpa [Event.watcher?] using ht)
  have hg := get_unsubscribed B w _ t h0 ht
  unfold Watcher.update Watcher.run
  cases hget : Watcher.get B (log s (Event.update t)) t with
  | ok x s1 =>
    rw [hget] at hg
    exact hg.log_unsub _ (by simpa [Event.watcher?] using ht)
  | throw s1 =>
    rw [hget] at hg
    exact hg

theorem notifyLoop_unsubscribed (B : Builtins) (w : Nat) (s : State) (ws : List Nat)
    (h : Unsubscribed w s) (hws : w ∉ ws) : Unsubscribed w (notifyLoop B s ws).state := by
  induction ws generalizing s with
  | nil => exact h
  | cons t ws ih =>
    have ht : t ≠ w := fun e => hws (by simp [e])
    have hu := update_unsubscribed B w s t h ht
    unfold notifyLoop
    cases hup : Watcher.update B s t with
    | ok x s1 =>
      rw [hup] at hu
      exact ih s1 hu (fun hm => hws (List.mem_cons_of_mem _ hm))
    | throw s1 =>
      rw [hup] at hu
      exact hu

theorem setProp_unsubscribed (B : Builtins) (w : Nat) (s : State) (v : Val) (k : String)
    (x : Val) (h : Unsubscribed w s) : Unsubscribed w (setProp B s v k x).state := by
  unfold setProp
  split
  · exact h
  · exact h
  · split
    · rename_i c _
      exact reactiveSet_preserves B (Unsubscribed w)
        (fun t v k ht => getProp_unsubscribed B w t v k ht)
        (fun t c x ht => notifyLoop_unsubscribed B w (setVal t c x) _
          (ht.congr_unsub rfl rfl rfl rfl) (ht.notIn _)) s c x h
    · exact h.congr_unsub rfl rfl rfl rfl
    · exact h.congr_unsub rfl rfl rfl rfl
  · exact h

theorem newDep_unsubscribed (w : Nat) (s : State) (h : Unsubscribed w s) :
    Unsubscribed w (newDep s).2 := by
  refine ⟨h.lt, h.notTarget, ?_, h.silent⟩
  intro d
  simp only [newDep, Function.update_apply]
  split
  · simp
  · exact h.notIn d

theorem observe_unsubscribed (B : Builtins) (w fuel : Nat) (s : State) (data : Val)
    (r : Res Unit) (h : Unsubscribed w s) (ho : observe B fuel s data = some r) :
    Unsubscribed w r.state :=
  ((observe_preserves B (Unsubscribed w) (fun t v k ht => getProp_unsubscribed B w t v k ht)
    (fun t ht => newDep_unsubscribed w t ht)
    (fun _ _ _ _ _ ht _ => ht.congr_unsub rfl rfl rfl rfl) fuel).1 s data r h ho).1

theorem newWatcher_unsubscribed (B : Builtins) (w : Nat) (s : State) (vm : Val) (exp : String)
    (h : Unsubscribed w s) : Unsubscribed w (newWatcher B s vm exp).state := by
  have h1 : Unsubscribed w (allocWatcher s vm exp) :=
    ⟨Nat.lt_succ_of_lt h.lt, h.notTarget, h.notIn, h.silent⟩
  have hg := get_unsubscribed B w _ s.nextWatcher h1 (Nat.ne_of_gt h.lt)
  unfold newWatcher
  simp only
  split
  · rename_i value s2 hget
    rw [hget] at hg
    exact hg.congr_unsub rfl rfl rfl rfl
  · rename_i s2 hget
    rw [hget] at hg
    exact hg

theorem exec_unsubscribed (B : Builtins) (w : Nat) (s : State) (op : Op) (s1 : State)
    (h : Unsubscribed w s) (he : exec B s op = some s1) : Unsubscribed w s1 := by
  cases op with
  | observe fuel data =>
    simp only [exec, outcome, Option.map_eq_some'] at he
    obtain ⟨r, hr, rfl⟩ := he
    exact observe_unsubscribed B w fuel s data r h hr
  | watch vm exp =>
    simp only [exec, outcome, Option.map_some', Option.some.injEq] at he
    subst he
    have := newWatcher_unsubscribed B w s vm exp h
    cases hn : newWatcher B s vm exp <;> rw [hn] at this <;> exact this
  | read v k =>
    simp only [exec, outcome, Option.map_some', Option.some.injEq] at he
    subst he
    have := getProp_unsubscribed B w s v k h
    cases hn : getProp B s v k <;> rw [hn] at this <;> exact this
  | write v k x =>
    simp only [exec, outcome, Option.map_some', Option.some.injEq] at he
    subst he
    exact setProp_unsubscribed B w s v k x h

theorem execAll_unsubscribed (B : Builtins) (w : Nat) (s : State) (ops : List Op) (s1 : State)
    (h : Unsubscribed w s) (he : execAll B s ops = some s1) : Unsubscribed w s1 := by
  induction ops generalizing s with
  | nil => cases he; exact h
  | cons op ops ih =>
    simp only [execAll, Option.bind_eq_some] at he
    obtain ⟨s2, h2, h3⟩ := he
    exact ih s2 (exec_unsubscribed B w s op s2 h h2) h3



theorem getProp_reads (B : Builtins) (s : State) (v : Val) (k : String) :
    (getProp B s v k).state = s ∨
      ∃ c, (getProp B s v k).state.trace = s.trace ++ [Event.read c] := by
  unfold getProp
  split
  · exact Or.inl rfl
  · exact Or.inl rfl
  · split
    · exact Or.inl rfl
    · exact Or.inr ⟨_, reactiveGet_trace s _⟩
    · split <;> exact Or.inl rfl
  · split <;> exact Or.inl rfl

theorem resolve_reads (B : Builtins) (s : State) (v : Val) (ks : List String) :
    ∃ t, (resolve B s v ks).state.trace = s.trace ++ t ∧ (∀ e ∈ t, ∃ c, e = Event.read c) ∧
      (t = [] → (resolve B s v ks).state = s) := by
  induction ks generalizing s v with
  | nil => exact ⟨[], by simp [resolve], by simp, fun _ => rfl⟩
  | cons k ks ih =>
    have hg := getProp_reads B s v k
    unfold resolve
    cases hgp : getProp B s v k with
    | ok x s1 =>
      rw [hgp] at hg
      simp only [Res.state_ok] at hg
      obtain ⟨t, ht, hall, hnil⟩ := ih s1 x
      rcases hg with hg | ⟨c, hc⟩
      · subst hg
        exact ⟨t, ht, hall, hnil⟩
      · refine ⟨Event.read c :: t, ?_, ?_, ?_⟩
        · simp only
          rw [ht, hc]
          simp
        · intro e he
          simp only [List.mem_cons] at he
          rcases he with he | he
          · exact ⟨c, he⟩
          · exact hall e he
        · intro h; cases h
    | throw s1 =>
      rw [hgp] at hg
      simp only [Res.state_throw] at hg
      rcases hg with hg | ⟨c, hc⟩
      · subst hg
        exact ⟨[], by simp, by simp, fun _ => rfl⟩
      · exact ⟨[Event.read c], hc, by simp, by intro h; cases h⟩

theorem newWatcher_reads (B : Builtins) (s : State) (vm : Val) (exp : String) (w : Nat)
    (s1 : State) (h : newWatcher B s vm exp = .ok w s1) :
    w = s.nextWatcher ∧ s1.nextWatcher = s.nextWatcher + 1 ∧ s1.target = none ∧
    ∃ t, s1.trace = s.trace ++ t ∧ (∀ e ∈ t, ∃ c, e = Event.read c) ∧
      (t = [] → s1.deps = s.deps) := by
  have ht := newWatcher_ok_target B s vm exp w s1 h
  unfold newWatcher Watcher.get getVMVal at h
  simp only [Function.update_same] at h
  obtain ⟨t, htr, hall, hnil⟩ := resolve_reads B
    (setTarget (allocWatcher s vm exp) (some s.nextWatcher)) vm (split exp)
  have hf := resolve_frame B
    (setTarget (allocWatcher s vm exp) (some s.nextWatcher)) vm (split exp)
  cases hres : resolve B
    (setTarget (allocWatcher s vm exp) (some s.nextWatcher)) vm (split exp) with
  | ok x s2 =>
    rw [hres] at h htr hnil hf
    simp only [Res.state_ok] at htr hnil hf
    simp only [Res.ok.injEq] at h
    obtain ⟨hw, hs1⟩ := h
    subst hs1
    refine ⟨hw.symm, hf.nextWatcher, ht, t, htr, hall, ?_⟩
    intro hnl
    rw [hnil hnl]
  | throw s2 =>
    rw [hres] at h
    cases h

/-! ### Consistency of the references in every reachable state -/
theorem lookup_setSlot (k k' : String) (sl : Slot) (ps : List (String × Slot)) :
    lookup k' (setSlot k sl ps) = if k' = k then some sl else lookup k' ps := by
  induction ps with
  | nil =>
    simp only [setSlot, lookup]
    by_cases h : k = k'
    · simp [h]
    · have h' : ¬ k' = k := fun e => h e.symm
      simp [h, h']
  | cons p ps ih =>
    obtain ⟨k1, sl1⟩ := p
    simp only [setSlot]
    by_cases h1 : k1 = k
    · subst h1
      simp only [if_true, lookup]
      by_cases h : k1 = k'
      · simp [h]
      · have h' : ¬ k' = k1 := fun e => h e.symm
        simp [h, h']
    · simp only [h1, if_false, lookup, ih]
      by_cases h : k1 = k'
      · subst h
        simp [h1]
      · simp [h]

theorem HeapOk.congr_heap {s s' : State} (h : HeapOk s) (ho : s'.objs = s.objs)
    (hc : s'.cells = s.cells) (hd : s'.deps = s.deps) (hw : s'.watchers = s.watchers)
    (hnc : s'.nextCell = s.nextCell) (hnd : s'.nextDep = s.nextDep)
    (hid : s'.depId = s.depId) : HeapOk s' := by
  constructor
  · rw [ho, hnc]; exact h.slotLt
  · rw [hc, hnc, hnd]; exact h.cellDepLt
  · rw [hd, hnd, hid]; exact h.idLt
  · rw [hd, hnd]; exact h.idInj
  · rw [hd, hw, hnd]; exact h.idsOk

theorem addDep_ids_mem (s : State) (w d w' : Nat) (p : Nat × Nat)
    (hp : p ∈ ((addDep s w d).watchers w').depIds) :
    p ∈ (s.watchers w').depIds ∨
      (w' = w ∧ p = ((s.deps d).id, d) ∧ w ∈ ((addDep s w d).deps d).watchers) := by
  unfold addDep at hp ⊢
  split at hp
  · exact Or.inl hp
  · rename_i hown
    simp only [hown]
    simp only [addSub, Function.update_apply] at hp ⊢
    by_cases hw' : w' = w
    · subst hw'
      simp only [if_true, List.mem_append, List.mem_singleton] at hp
      rcases hp with hp | hp
      · exact Or.inl hp
      · exact Or.inr ⟨rfl, hp, by simp⟩
    · simp only [hw', if_false] at hp
      exact Or.inl hp

theorem addDep_heapOk (s : State) (w d : Nat) (h : HeapOk s) (hd : d < s.nextDep) :
    HeapOk (addDep s w d) := by
  have hf := addDep_frame s w d
  constructor
  · rw [hf.objs, hf.nextCell]; exact h.slotLt
  · rw [hf.cells, hf.nextCell, hf.nextDep]; exact h.cellDepLt
  · intro d' hd'
    rw [hf.depIdOf, hf.depId]
    rw [hf.nextDep] at hd'
    exact h.idLt d' hd'
  · intro d1 d2 h1 h2
    rw [hf.depIdOf, hf.depIdOf]
    rw [hf.nextDep] at h1 h2
    exact h.idInj d1 d2 h1 h2
  · intro w' p hp
    rw [hf.nextDep, hf.depIdOf]
    rcases addDep_ids_mem s w d w' p hp with hp | ⟨hw', hpe, hmem⟩
    · obtain ⟨a1, a2, a3⟩ := h.idsOk w' p hp
      exact ⟨a1, a2, (hf.subs p.2).subset a3⟩
    · subst hw' hpe
      exact ⟨hd, rfl, hmem⟩



theorem HeapOk.log_heap {s : State} (h : HeapOk s) (e : Event) :
    HeapOk (log s e) :=
  h.congr_heap rfl rfl rfl rfl rfl rfl rfl

theorem HeapOk.target_heap {s : State} (h : HeapOk s) (t : Option Nat) :
    HeapOk (setTarget s t) :=
  h.congr_heap rfl rfl rfl rfl rfl rfl rfl

theorem reactiveGet_heapOk (s : State) (c : Nat) (h : HeapOk s) (hc : c < s.nextCell) :
    HeapOk (reactiveGet s c).2 := by
  have h0 : HeapOk (log s (Event.read c)) := h.log_heap _
  unfold reactiveGet
  cases ht : s.target with
  | none => simpa [ht] using h0
  | some w => simpa [ht] using addDep_heapOk _ w _ h0 (h.cellDepLt c hc)

theorem getProp_heapOk (B : Builtins) (s : State) (v : Val) (k : String) (h : HeapOk s) :
    HeapOk (getProp B s v k).state := by
  cases v with
  | obj a =>
    simp only [getProp]
    cases hl : lookup k (s.objs a).props with
    | none => simp only []; cases B.inherited a k <;> exact h
    | some sl =>
      cases sl with
      | data x e => exact h
      | accessor c => exact reactiveGet_heapOk s c h (h.slotLt a k c hl)
  | _ => first | exact h | (simp only [getProp]; split <;> exact h)

theorem resolve_heapOk (B : Builtins) (s : State) (v : Val) (ks : List String) (h : HeapOk s) :
    HeapOk (resolve B s v ks).state := by
  induction ks generalizing s v with
  | nil => exact h
  | cons k ks ih =>
    have hg := getProp_heapOk B s v k h
    unfold resolve
    cases hgp : getProp B s v k with
    | ok x s1 =>
      rw [hgp] at hg
      exact ih s1 x hg
    | throw s1 =>
      rw [hgp] at hg
      exact hg

theorem get_heapOk (B : Builtins) (s : State) (w : Nat) (h : HeapOk s) :
    HeapOk (Watcher.get B s w).state := by
  have hr := resolve_heapOk B _ (s.watchers w).vm (split (s.watchers w).exp)
    (h.target_heap (some w))
  unfold Watcher.get getVMVal
  simp only
  cases hres : resolve B (setTarget s (some w)) (s.watchers w).vm
      (split (s.watchers w).exp) with
  | ok x s1 =>
    rw [hres] at hr
    exact hr.target_heap none
  | throw s1 =>
    rw [hres] at hr
    exact hr

theorem update_heapOk (B : Builtins) (s : State) (w : Nat) (h : HeapOk s) :
    HeapOk (Watcher.update B s w).state := by
  have hg := get_heapOk B _ w (h.log_heap (Event.update w))
  unfold Watcher.update Watcher.run
  cases hget : Watcher.get B (log s (Event.update w)) w with
  | ok x s1 =>
    rw [hget] at hg
    exact hg.log_heap _
  | throw s1 =>
    rw [hget] at hg
    exact hg

theorem notifyLoop_heapOk (B : Builtins) (s : State) (ws : List Nat) (h : HeapOk s) :
    HeapOk (notifyLoop B s ws).state := by
  induction ws generalizing s with
  | nil => exact h
  | cons w ws ih =>
    have hu := update_heapOk B s w h
    unfold notifyLoop
    cases hup : Watcher.update B s w with
    | ok x s1 =>
      rw [hup] at hu
      exact ih s1 hu
    | throw s1 =>
      rw [hup] at hu
      exact hu

theorem setVal_heapOk (s : State) (c : Nat) (x : Val) (h : HeapOk s) : HeapOk (setVal s c x) := by
  refine ⟨h.slotLt, ?_, h.idLt, h.idInj, h.idsOk⟩
  intro c' hc'
  simp only [setVal, Function.update_apply]
  split
  · rename_i e; subst e; exact h.cellDepLt c' hc'
  · exact h.cellDepLt c' hc'

theorem setData_heapOk (s : State) (a : Nat) (k : String) (x : Val) (e : Bool) (h : HeapOk s) :
    HeapOk { s with
      objs := Function.update s.objs a ({ props := setSlot k (.data x e) (s.objs a).props }) } := by
  refine ⟨?_, h.cellDepLt, h.idLt, h.idInj, h.idsOk⟩
  intro a' k' c hl
  simp only [Function.update_apply] at hl
  split at hl
  · rename_i ha
    subst ha
    simp only [lookup_setSlot] at hl
    split at hl
    · cases hl
    · exact h.slotLt a' k' c hl
  · exact h.slotLt a' k' c hl

theorem setProp_heapOk (B : Builtins) (s : State) (v : Val) (k : String) (x : Val)
    (h : HeapOk s) : HeapOk (setProp B s v k x).state := by
  unfold setProp
  split
  · exact h
  · exact h
  · split
    · rename_i c _
      exact reactiveSet_preserves B HeapOk (fun t v k ht => getProp_heapOk B t v k ht)
        (fun t c x ht => notifyLoop_heapOk B (setVal t c x) _ (setVal_heapOk t c x ht)) s c x h
    · exact setData_heapOk s _ k x _ h
    · exact setData_heapOk s _ k x true h
  · exact h

theorem newDep_heapOk (s : State) (h : HeapOk s) : HeapOk (newDep s).2 := by
  constructor
  · exact h.slotLt
  · intro c hc
    exact Nat.lt_succ_of_lt (h.cellDepLt c hc)
  · intro d hd
    simp only [newDep, Function.update_apply] at hd ⊢
    split
    · exact Nat.lt_succ_self _
    · rename_i hne
      exact Nat.lt_succ_of_lt (h.idLt d (by omega))
  · intro d1 d2 h1 h2 he
    simp only [newDep, Function.update_apply] at h1 h2 he
    by_cases e1 : d1 = s.nextDep <;> by_cases e2 : d2 = s.nextDep
    · rw [e1, e2]
    · simp only [e1, e2, if_true, if_false] at he
      have := h.idLt d2 (by omega)
      omega
    · simp only [e1, e2, if_true, if_false] at he
      have := h.idLt d1 (by omega)
      omega
    · simp only [e1, e2, if_false] at he
      exact h.idInj d1 d2 (by omega) (by omega) he
  · intro w p hp
    obtain ⟨a1, a2, a3⟩ := h.idsOk w p hp
    have hne : p.2 ≠ s.nextDep := by omega
    simp only [newDep, Function.update_apply, hne, if_false]
    exact ⟨Nat.lt_succ_of_lt a1, a2, a3⟩

theorem defineAccessor_heapOk (s : State) (a : Nat) (key : String) (val : Val) (dep : Nat)
    (h : HeapOk s) (hd : dep < s.nextDep) : HeapOk (defineAccessor s a key val dep) := by
  refine ⟨?_, ?_, h.idLt, h.idInj, h.idsOk⟩
  · intro a' k' c hl
    simp only [defineAccessor, Function.update_apply] at hl ⊢
    split at hl
    · rename_i ha
      subst ha
      simp only [lookup_setSlot] at hl
      split at hl
      · cases hl
        exact Nat.lt_succ_self _
      · exact Nat.lt_succ_of_lt (h.slotLt a' k' c hl)
    · exact Nat.lt_succ_of_lt (h.slotLt a' k' c hl)
  · intro c hc
    simp only [defineAccessor, Function.update_apply] at hc ⊢
    split
    · exact hd
    · exact h.cellDepLt c (by omega)

theorem observe_heapOk (B : Builtins) (fuel : Nat) (s : State) (data : Val) (r : Res Unit)
    (h : HeapOk s) (ho : observe B fuel s data = some r) : HeapOk r.state :=
  ((observe_preserves B HeapOk (fun t v k ht => getProp_heapOk B t v k ht)
    (fun t ht => newDep_heapOk t ht)
    (fun t a key val dep ht hd => defineAccessor_heapOk t a key val dep ht hd)
    fuel).1 s data r h ho).1

theorem newWatcher_heapOk (B : Builtins) (s : State) (vm : Val) (exp : String) (h : HeapOk s) :
    HeapOk (newWatcher B s vm exp).state := by
  have h1 : HeapOk (allocWatcher s vm exp) := by
    refine ⟨h.slotLt, h.cellDepLt, h.idLt, h.idInj, ?_⟩
    intro w p hp
    simp only [Function.update_apply] at hp
    split at hp
    · simp at hp
    · exact h.idsOk w p hp
  have hg := get_heapOk B _ s.nextWatcher h1
  unfold newWatcher
  simp only
  split
  · rename_i value s2 hget
    rw [hget] at hg
    simp only [Res.state_ok] at hg ⊢
    refine ⟨hg.slotLt, hg.cellDepLt, hg.idLt, hg.idInj, ?_⟩
    intro w p hp
    simp only [Function.update_apply] at hp
    split at hp
    · rename_i e; subst e; exact hg.idsOk _ p hp
    · exact hg.idsOk w p hp
  · rename_i s2 hget
    rw [hget] at hg
    exact hg

theorem initState_heapOk (objs : Nat → Obj) (hp : Plain objs) : HeapOk (initState objs) := by
  constructor
  · intro a k c hl
    exact absurd hl (hp a k c)
  · intro c hc
    simp [initState] at hc
  · intro d hd
    simp [initState] at hd
  · intro d d' hd
    simp [initState] at hd
  · intro w p hp
    simp [initState] at hp

theorem exec_heapOk (B : Builtins) (s : State) (op : Op) (s1 : State) (h : HeapOk s)
    (he : exec B s op = some s1) : HeapOk s1 := by
  cases op with
  | observe fuel data =>
    simp only [exec, outcome, Option.map_eq_some'] at he
    obtain ⟨r, hr, rfl⟩ := he
    exact observe_heapOk B fuel s data r h hr
  | watch vm exp =>
    simp only [exec, outcome, Option.map_some', Option.some.injEq] at he
    subst he
    have := newWatcher_heapOk B s vm exp h
    cases hn : newWatcher B s vm exp <;> rw [hn] at this <;> exact this
  | read v k =>
    simp only [exec, outcome, Option.map_some', Option.some.injEq] at he
    subst he
    have := getProp_heapOk B s v k h
    cases hn : getProp B s v k <;> rw [hn] at this <;> exact this
  | write v k x =>
    simp only [exec, outcome, Option.map_some', Option.some.injEq] at he
    subst he
    exact setProp_heapOk B s v k x h

theorem execAll_heapOk (B : Builtins) (s : State) (ops : List Op) (s1 : State) (h : HeapOk s)
    (he : execAll B s ops = some s1) : HeapOk s1 := by
  induction ops generalizing s with
  | nil => cases he; exact h
  | cons op ops ih =>
    simp only [execAll, Option.bind_eq_some] at he
    obtain ⟨s2, h2, h3⟩ := he
    exact ih s2 (exec_heapOk B s op s2 h h2) h3

theorem Reachable.heapOk {B : Builtins} {s : State} (h : Reachable B s) : HeapOk s := by
  obtain ⟨objs, ops, hp, he⟩ := h
  exact execAll_heapOk B _ ops s (initState_heapOk objs hp) he

/-! ### Construction subscribes the new Observer to every cell on its path -/
theorem hasOwnProperty_iff (l : List (Nat × Nat)) (i : Nat) :
    hasOwnProperty l i = true ↔ ∃ p ∈ l, p.1 = i := by
  simp [hasOwnProperty, List.any_eq_true]

theorem addDep_subscribes (s : State) (w d : Nat) (h : HeapOk s) (hd : d < s.nextDep) :
    w ∈ ((addDep s w d).deps d).watchers := by
  unfold addDep
  split
  · rename_i hown
    obtain ⟨p, hp, hid⟩ := (hasOwnProperty_iff _ _).1 hown
    obtain ⟨a1, a2, a3⟩ := h.idsOk w p hp
    have : p.2 = d := h.idInj p.2 d a1 hd (a2.trans hid)
    rw [this] at a3
    exact a3
  · simp [addSub]

theorem reactiveGet_subscribes (s : State) (c w : Nat) (h : HeapOk s) (hc : c < s.nextCell)
    (ht : s.target = some w) : w ∈ ((reactiveGet s c).2.deps (s.cells c).dep).watchers := by
  have h0 : HeapOk (log s (Event.read c)) := h.log_heap _
  have := addDep_subscribes _ w (s.cells c).dep h0 (h.cellDepLt c hc)
  unfold reactiveGet
  simpa [ht] using this

theorem reactiveGet_mem (s : State) (c w d x : Nat) (ht : s.target = some w)
    (hx : x ∈ ((reactiveGet s c).2.deps d).watchers) : x ∈ (s.deps d).watchers ∨ x = w := by
  unfold reactiveGet at hx
  simp only [ht] at hx
  have h2 := addDep_mem _ w _ d x hx
  exact h2

theorem getProp_mem (B : Builtins) (s : State) (v : Val) (k : String) (w d x : Nat)
    (ht : s.target = some w) (hx : x ∈ ((getProp B s v k).state.deps d).watchers) :
    x ∈ (s.deps d).watchers ∨ x = w := by
  cases v with
  | obj a =>
    simp only [getProp] at hx
    cases hl : lookup k (s.objs a).props with
    | none => rw [hl] at hx; simp only [] at hx; cases hi : B.inherited a k <;> rw [hi] at hx <;> exact Or.inl hx
    | some sl =>
      rw [hl] at hx
      cases sl with
      | data y e => exact Or.inl hx
      | accessor c => exact reactiveGet_mem s c w d x ht hx
  | _ => first | exact Or.inl hx | (simp only [getProp] at hx; split at hx <;> exact Or.inl hx)

theorem resolve_mem (B : Builtins) (s : State) (v : Val) (ks : List String) (w d x : Nat)
    (ht : s.target = some w) (hx : x ∈ ((resolve B s v ks).state.deps d).watchers) :
    x ∈ (s.deps d).watchers ∨ x = w := by
  induction ks generalizing s v with
  | nil => exact Or.inl hx
  | cons k ks ih =>
    have hg := getProp_mem B s v k w d
    have hgt := getProp_target B s v k
    unfold resolve at hx
    cases hgp : getProp B s v k with
    | ok y s1 =>
      rw [hgp] at hx hg hgt
      simp only [Res.state_ok] at hg hgt
      rcases ih s1 y (hgt.trans ht) hx with h1 | h1
      · exact hg x ht h1
      · exact Or.inr h1
    | throw s1 =>
      rw [hgp] at hx hg
      exact hg x ht hx

theorem getProp_val_congr (B : Builtins) (s t : State) (v : Val) (k : String)
    (ho : s.objs = t.objs) (hc : s.cells = t.cells) :
    (getProp B s v k).val? = (getProp B t v k).val? := by
  cases v with
  | obj a =>
    simp only [getProp, ← ho]
    cases lookup k (s.objs a).props with
    | none => simp only []; cases B.inherited a k <;> rfl
    | some sl =>
      cases sl with
      | data y e => rfl
      | accessor c => simp [Res.val?, reactiveGet_val, hc]
  | _ => first | rfl | (simp only [getProp]; split <;> rfl)

theorem resolve_val_congr (B : Builtins) (s t : State) (v : Val) (ks : List String)
    (ho : s.objs = t.objs) (hc : s.cells = t.cells) :
    (resolve B s v ks).val? = (resolve B t v ks).val? := by
  induction ks generalizing s t v with
  | nil => rfl
  | cons k ks ih =>
    have hv := getProp_val_congr B s t v k ho hc
    have hfs := getProp_frame B s v k
    have hft := getProp_frame B t v k
    unfold resolve
    cases hs : getProp B s v k with
    | ok y s1 =>
      cases ht : getProp B t v k with
      | ok z t1 =>
        rw [hs, ht] at hv
        rw [hs] at hfs
        rw [ht] at hft
        simp only [Res.state_ok] at hfs hft
        simp only [Res.val?, Option.some.injEq] at hv
        subst hv
        exact ih s1 t1 y (by rw [hfs.objs, hft.objs, ho]) (by rw [hfs.cells, hft.cells, hc])
      | throw t1 =>
        rw [hs, ht] at hv
        simp [Res.val?] at hv
    | throw s1 =>
      cases ht : getProp B t v k with
      | ok z t1 =>
        rw [hs, ht] at hv
        simp [Res.val?] at hv
      | throw t1 => rfl

theorem resolve_append_list (B : Builtins) (s : State) (v : Val) (ks ks' : List String) :
    resolve B s v (ks ++ ks') =
      match resolve B s v ks with
      | .ok x s1 => resolve B s1 x ks'
      | .throw s1 => .throw s1 := by
  induction ks generalizing s v with
  | nil => rfl
  | cons k ks ih =>
    simp only [List.cons_append, resolve]
    cases getProp B s v k with
    | ok x s1 => exact ih s1 x
    | throw s1 => rfl

theorem val?_eq_some {α : Type} (r : Res α) (a : α) (h : r.val? = some a) :
    ∃ s, r = .ok a s := by
  cases r with
  | ok b s => simp only [Res.val?, Option.some.injEq] at h; subst h; exact ⟨s, rfl⟩
  | throw s => simp [Res.val?] at h

theorem resolve_subscribes (B : Builtins) (s : State) (v : Val) (pre post : List String)
    (k : String) (w a c : Nat) (x : Val) (s' : State) (h : HeapOk s) (ht : s.target = some w)
    (hpre : (resolve B s v pre).val? = some (.obj a))
    (hslot : lookup k (s.objs a).props = some (.accessor c))
    (hres : resolve B s v (pre ++ k :: post) = .ok x s') :
    w ∈ (s'.deps (s.cells c).dep).watchers := by
  obtain ⟨s0, hs0⟩ := val?_eq_some _ _ hpre
  have hf0 := resolve_frame B s v pre
  have ht0 := resolve_target B s v pre
  have hh0 := resolve_heapOk B s v pre h
  rw [hs0] at hf0 ht0 hh0
  simp only [Res.state_ok] at hf0 ht0 hh0
  rw [resolve_append_list, hs0] at hres
  simp only [resolve] at hres
  have hslot0 : lookup k (s0.objs a).props = some (.accessor c) := by rw [hf0.objs]; exact hslot
  rw [getProp_accessor B s0 a c k hslot0] at hres
  simp only at hres
  have hsub := reactiveGet_subscribes s0 c w hh0 (hh0.slotLt a k c hslot0) (ht0.trans ht)
  have hf1 := resolve_frame B (reactiveGet s0 c).2 (s0.cells c).val post
  rw [hres] at hf1
  simp only [Res.state_ok] at hf1
  rw [← hf0.cells]
  exact (hf1.subs _).subset hsub

theorem eq_singleton_of_nodup {w : Nat} {t : List Nat} (hnd : t.Nodup) (hall : ∀ x ∈ t, x = w)
    (hmem : w ∈ t) : t = [w] := by
  cases t with
  | nil => simp at hmem
  | cons a t =>
    have ha : a = w := hall a (List.mem_cons_self _ _)
    subst ha
    cases t with
    | nil => rfl
    | cons b t =>
      have hb : b = a := hall b (by simp)
      subst hb
      simp at hnd

theorem newWatcher_data (B : Builtins) (s : State) (vm : Val) (exp : String) :
    (newWatcher B s vm exp).state.objs = s.objs ∧
      (newWatcher B s vm exp).state.cells = s.cells := by
  have hf := get_frame B (allocWatcher s vm exp) s.nextWatcher
  unfold newWatcher
  simp only
  split
  · rename_i value s2 hget
    rw [hget] at hf
    exact ⟨hf.objs, hf.cells⟩
  · rename_i s2 hget
    rw [hget] at hf
    exact ⟨hf.objs, hf.cells⟩

theorem newWatcher_subscribes (B : Builtins) (s : State) (vm : Val) (exp : String)
    (w : Nat) (s1 : State) (pre post : List String) (k : String) (a c : Nat)
    (hs : SubsOk s) (hh : HeapOk s) (hnew : newWatcher B s vm exp = .ok w s1)
    (hpath : split exp = pre ++ k :: post)
    (hpre : (resolve B s vm pre).val? = some (.obj a))
    (hslot : lookup k (s.objs a).props = some (.accessor c)) :
    (s1.deps (s.cells c).dep).watchers = (s.deps (s.cells c).dep).watchers ++ [w] := by
  have hs1 : SubsOk s1 := by
    have := newWatcher_subsOk B s vm exp hs
    rw [hnew] at this
    exact this
  have hw : w = s.nextWatcher := (newWatcher_reads B s vm exp w s1 hnew).1
  -- the state in which the constructor calls `get`
  have hh0 : HeapOk (setTarget (allocWatcher s vm exp) (some s.nextWatcher)) := by
    have := newWatcher_heapOk B s vm exp hh
    refine ⟨hh.slotLt, hh.cellDepLt, hh.idLt, hh.idInj, ?_⟩
    intro w' p hp
    simp only [Function.update_apply] at hp
    split at hp
    · simp at hp
    · exact hh.idsOk w' p hp
  unfold newWatcher Watcher.get getVMVal at hnew
  simp only [Function.update_same] at hnew
  cases hres : resolve B
    (setTarget (allocWatcher s vm exp) (some s.nextWatcher)) vm (split exp) with
  | throw s2 => rw [hres] at hnew; cases hnew
  | ok x s2 =>
    rw [hres] at hnew
    simp only [Res.ok.injEq] at hnew
    obtain ⟨-, hs1e⟩ := hnew
    subst hs1e
    show (s2.deps (s.cells c).dep).watchers = _
    have hnd : (s2.deps (s.cells c).dep).watchers.Nodup := hs1.nodup _
    have hf := resolve_frame B
      (setTarget (allocWatcher s vm exp) (some s.nextWatcher)) vm (split exp)
    rw [hres] at hf
    simp only [Res.state_ok] at hf
    have hmem : s.nextWatcher ∈ (s2.deps (s.cells c).dep).watchers := by
      rw [hpath] at hres
      have hpre0 : (resolve B (setTarget (allocWatcher s vm exp) (some s.nextWatcher))
          vm pre).val? = some (.obj a) := by
        rw [← hpre]
        exact resolve_val_congr B _ s vm pre rfl rfl
      have hsub := resolve_subscribes B (setTarget (allocWatcher s vm exp) (some s.nextWatcher))
        vm pre post k s.nextWatcher a c x s2 hh0 rfl hpre0 hslot hres
      exact hsub
    have honly : ∀ y ∈ (s2.deps (s.cells c).dep).watchers,
        y ∈ (s.deps (s.cells c).dep).watchers ∨ y = s.nextWatcher := by
      intro y hy
      have := resolve_mem B
        (setTarget (allocWatcher s vm exp) (some s.nextWatcher)) vm (split exp) s.nextWatcher (s.cells c).dep y rfl
      rw [hres] at this
      exact this hy
    obtain ⟨t, ht⟩ := hf.subs (s.cells c).dep
    simp only at ht
    rw [← ht] at hnd hmem honly ⊢
    have hfresh : s.nextWatcher ∉ (s.deps (s.cells c).dep).watchers := by
      intro hm
      have := hs.subsLt _ _ hm
      omega
    have hdisj := List.disjoint_of_nodup_append hnd
    have ht1 : t = [s.nextWatcher] := by
      apply eq_singleton_of_nodup (List.Nodup.of_append_right hnd)
      · intro y hy
        rcases honly y (List.mem_append_right _ hy) with h1 | h1
        · exact absurd hy (hdisj h1)
        · exact h1
      · rcases List.mem_append.1 hmem with h1 | h1
        · exact absurd h1 hfresh
        · exact h1
    rw [ht1, hw]



theorem newWatchers_subscribe (B : Builtins) (vm : Val) (exp : String)
    (pre post : List String) (k : String) (a c : Nat) (hpath : split exp = pre ++ k :: post)
    (n : Nat) : ∀ (s : State) (ws : List Nat) (s1 : State), SubsOk s → HeapOk s →
      newWatchers B s vm exp n = .ok ws s1 →
      (resolve B s vm pre).val? = some (.obj a) →
      lookup k (s.objs a).props = some (.accessor c) →
      (s1.deps (s.cells c).dep).watchers = (s.deps (s.cells c).dep).watchers ++ ws ∧
        s1.objs = s.objs ∧ s1.cells = s.cells ∧ ws = List.range' s.nextWatcher n := by
  induction n with
  | zero =>
    intro s ws s1 _ _ hnew _ _
    simp only [newWatchers, Res.ok.injEq] at hnew
    obtain ⟨rfl, rfl⟩ := hnew
    simp
  | succ n ih =>
    intro s ws s1 hs hh hnew hpre hslot
    simp only [newWatchers] at hnew
    cases hw : newWatcher B s vm exp with
    | throw t => rw [hw] at hnew; cases hnew
    | ok w t =>
      rw [hw] at hnew
      simp only at hnew
      cases hrest : newWatchers B t vm exp n with
      | throw t2 => rw [hrest] at hnew; cases hnew
      | ok ws' t2 =>
        rw [hrest] at hnew
        simp only [Res.ok.injEq] at hnew
        obtain ⟨hws, hs1⟩ := hnew
        subst hs1
        subst hws
        have hst : SubsOk t := by
          have := newWatcher_subsOk B s vm exp hs
          rw [hw] at this
          exact this
        have hht : HeapOk t := by
          have := newWatcher_heapOk B s vm exp hh
          rw [hw] at this
          exact this
        obtain ⟨hobjs, hcells⟩ := newWatcher_data B s vm exp
        rw [hw] at hobjs hcells
        simp only [Res.state_ok] at hobjs hcells
        obtain ⟨hwn, hnext, -, -⟩ := newWatcher_reads B s vm exp w t hw
        have h1 := newWatcher_subscribes B s vm exp w t pre post k a c hs hh hw hpath hpre hslot
        have hpre' : (resolve B t vm pre).val? = some (.obj a) := by
          rw [← hpre]
          exact resolve_val_congr B t s vm pre hobjs hcells
        obtain ⟨h2, h3, h4, h5⟩ := ih t ws' t2 hst hht hrest hpre' (by rw [hobjs]; exact hslot)
        rw [hcells] at h2
        refine ⟨?_, h3.trans hobjs, h4.trans hcells, ?_⟩
        · rw [h2, h1, List.append_assoc]
          rfl
        · rw [h5, hnext, hwn]
          rfl

theorem addDep_cells (s : State) (w d : Nat) : (addDep s w d).cells = s.cells :=
  (addDep_frame s w d).cells

theorem addDep_other_dep (s : State) (w d d' : Nat) (h : d' ≠ d) :
    (addDep s w d).deps d' = s.deps d' := by
  unfold addDep
  split
  · rfl
  · simp [addSub, Function.update_apply, h]

theorem addDep_other_watcher (s : State) (w d w' : Nat) (h : w' ≠ w) :
    (addDep s w d).watchers w' = s.watchers w' := by
  unfold addDep
  split
  · rfl
  · simp [addSub, Function.update_apply, h]

theorem updates_append (a b : List Event) : updates (a ++ b) = updates a ++ updates b := by
  induction a with
  | nil => rfl
  | cons e a ih => cases e <;> simp [updates, ih]

theorem getProp_updates (B : Builtins) (s : State) (v : Val) (k : String) :
    updates (getProp B s v k).state.trace = updates s.trace := by
  rcases getProp_reads B s v k with h | ⟨c, h⟩
  · rw [h]
  · rw [h, updates_append]
    simp [updates]

theorem resolve_updates (B : Builtins) (s : State) (v : Val) (ks : List String) :
    updates (resolve B s v ks).state.trace = updates s.trace := by
  induction ks generalizing s v with
  | nil => rfl
  | cons k ks ih =>
    have hg := getProp_updates B s v k
    unfold resolve
    cases hgp : getProp B s v k with
    | ok x s1 =>
      rw [hgp] at hg
      exact (ih s1 x).trans hg
    | throw s1 =>
      rw [hgp] at hg
      exact hg

theorem get_updates (B : Builtins) (s : State) (w : Nat) :
    updates (Watcher.get B s w).state.trace = updates s.trace := by
  have hr := resolve_updates B (setTarget s (some w)) (s.watchers w).vm
    (split (s.watchers w).exp)
  unfold Watcher.get getVMVal
  simp only
  cases hres : resolve B (setTarget s (some w)) (s.watchers w).vm
      (split (s.watchers w).exp) with
  | ok x s1 =>
    rw [hres] at hr
    exact hr
  | throw s1 =>
    rw [hres] at hr
    exact hr

theorem update_updates (B : Builtins) (s : State) (w : Nat) :
    updates (Watcher.update B s w).state.trace = updates s.trace ++ [w] := by
  have hg := get_updates B (log s (Event.update w)) w
  unfold Watcher.update Watcher.run
  cases hget : Watcher.get B (log s (Event.update w)) w with
  | ok x s1 =>
    rw [hget] at hg
    simp only [Res.state_ok] at hg ⊢
    rw [updates_append, hg, updates_append]
    simp [updates]
  | throw s1 =>
    rw [hget] at hg
    simp only [Res.state_throw] at hg ⊢
    rw [hg, updates_append]
    simp [updates]

theorem notifyLoop_updates (B : Builtins) (s : State) (ws : List Nat) :
    ∃ U, updates (notifyLoop B s ws).state.trace = updates s.trace ++ U ∧ U <+: ws ∧
      ((notifyLoop B s ws).isOk = true → U = ws) ∧ (ws ≠ [] → U ≠ []) := by
  induction ws generalizing s with
  | nil => exact ⟨[], by simp [notifyLoop], by simp, fun _ => rfl, fun h => absurd rfl h⟩
  | cons w ws ih =>
    have hu := update_updates B s w
    unfold notifyLoop
    cases hup : Watcher.update B s w with
    | ok u s1 =>
      rw [hup] at hu
      simp only [Res.state_ok] at hu
      obtain ⟨U, hU, hpre, hall, -⟩ := ih s1
      refine ⟨w :: U, ?_, (List.prefix_cons_inj w).2 hpre, ?_, by simp⟩
      · simp only
        rw [hU, hu]
        simp
      · intro hk
        rw [hall hk]
    | throw s1 =>
      rw [hup] at hu
      simp only [Res.state_throw] at hu
      exact ⟨[w], hu, by simp [List.prefix_cons_inj, List.nil_prefix], by intro h; simp at h,
        by simp⟩

theorem depAt_eq_some (l : List (Nat × Nat)) (i d : Nat) (hown : hasOwnProperty l i = true)
    (hall : ∀ p ∈ l, p.1 = i → p.2 = d) : depAt l i = some d := by
  induction l with
  | nil => simp [hasOwnProperty] at hown
  | cons p l ih =>
    unfold depAt
    by_cases hp : p.1 = i
    · simp [List.find?, hp, hall p (List.mem_cons_self _ _) hp]
    · have hb : (p.1 == i) = false := by simpa using hp
      simp only [List.find?, hb]
      have hown' : hasOwnProperty l i = true := by
        simpa [hasOwnProperty, hb] using hown
      exact ih hown' (fun q hq => hall q (List.mem_cons_of_mem _ hq))

theorem setProp_nextDep (B : Builtins) (s : State) (v : Val) (k : String) (x : Val) :
    (setProp B s v k x).state.nextDep = s.nextDep ∧
      ∀ d, (s.deps d).watchers <+: ((setProp B s v k x).state.deps d).watchers := by
  unfold setProp
  split
  · exact ⟨rfl, fun _ => List.prefix_refl _⟩
  · exact ⟨rfl, fun _ => List.prefix_refl _⟩
  · split
    · rename_i c _
      exact reactiveSet_preserves B
        (fun t => t.nextDep = s.nextDep ∧ ∀ d, (s.deps d).watchers <+: (t.deps d).watchers)
        (fun t v k ht => ⟨(getProp_frame B t v k).nextDep.trans ht.1,
          fun d => (ht.2 d).trans ((getProp_frame B t v k).subs d)⟩)
        (fun t c x ht =>
          ⟨(notifyLoop_frame B (setVal t c x) _).nextDep.trans ht.1,
            fun d => (ht.2 d).trans ((notifyLoop_frame B (setVal t c x) _).subs d)⟩)
        s c x ⟨rfl, fun _ => List.prefix_refl _⟩
    · exact ⟨rfl, fun _ => List.prefix_refl _⟩
    · exact ⟨rfl, fun _ => List.prefix_refl _⟩
  · exact ⟨rfl, fun _ => List.prefix_refl _⟩

theorem newWatcher_nextDep (B : Builtins) (s : State) (vm : Val) (exp : String) :
    (newWatcher B s vm exp).state.nextDep = s.nextDep ∧
      ∀ d, (s.deps d).watchers <+: ((newWatcher B s vm exp).state.deps d).watchers := by
  have hf := get_frame B (allocWatcher s vm exp) s.nextWatcher
  unfold newWatcher
  simp only
  split
  · rename_i value s2 hget
    rw [hget] at hf
    exact ⟨hf.nextDep, hf.subs⟩
  · rename_i s2 hget
    rw [hget] at hf
    exact ⟨hf.nextDep, hf.subs⟩

theorem observe_retains (B : Builtins) (fuel : Nat) (s : State) (data : Val) (r : Res Unit)
    (ho : observe B fuel s data = some r) :
    s.nextDep ≤ r.state.nextDep ∧
      ∀ d, d < s.nextDep → (s.deps d).watchers <+: (r.state.deps d).watchers := by
  have h := (observe_preserves B
    (fun t => s.nextDep ≤ t.nextDep ∧
      ∀ d, d < s.nextDep → (s.deps d).watchers <+: (t.deps d).watchers)
    (fun t v k ht => by
      have hf := getProp_frame B t v k
      exact ⟨by rw [hf.nextDep]; exact ht.1, fun d hd => (ht.2 d hd).trans (hf.subs d)⟩)
    (fun t ht => by
      refine ⟨Nat.le_succ_of_le ht.1, fun d hd => ?_⟩
      have hne : d ≠ t.nextDep := by have := ht.1; omega
      simp only [newDep, Function.update_apply, hne, if_false]
      exact ht.2 d hd)
    (fun _ _ _ _ _ ht _ => ht) fuel).1 s data r ⟨Nat.le_refl _, fun _ _ => List.prefix_refl _⟩ ho
  exact h.1

theorem exec_retains (B : Builtins) (s : State) (op : Op) (s1 : State)
    (he : exec B s op = some s1) :
    s.nextDep ≤ s1.nextDep ∧
      ∀ d, d < s.nextDep → (s.deps d).watchers <+: (s1.deps d).watchers := by
  cases op with
  | observe fuel data =>
    simp only [exec, outcome, Option.map_eq_some'] at he
    obtain ⟨r, hr, rfl⟩ := he
    exact observe_retains B fuel s data r hr
  | watch vm exp =>
    simp only [exec, outcome, Option.map_some', Option.some.injEq] at he
    subst he
    have := newWatcher_nextDep B s vm exp
    cases hn : newWatcher B s vm exp <;> rw [hn] at this <;>
      exact ⟨Nat.le_of_eq this.1.symm, fun d _ => this.2 d⟩
  | read v k =>
    simp only [exec, outcome, Option.map_some', Option.some.injEq] at he
    subst he
    have hf := getProp_frame B s v k
    cases hn : getProp B s v k <;> rw [hn] at hf <;>
      exact ⟨Nat.le_of_eq hf.nextDep.symm, fun d _ => hf.subs d⟩
  | write v k x =>
    simp only [exec, outcome, Option.map_some', Option.some.injEq] at he
    subst he
    have := setProp_nextDep B s v k x
    exact ⟨Nat.le_of_eq this.1.symm, fun d _ => this.2 d⟩

theorem execAll_retains (B : Builtins) (s : State) (ops : List Op) (s1 : State)
    (he : execAll B s ops = some s1) :
    s.nextDep ≤ s1.nextDep ∧
      ∀ d, d < s.nextDep → (s.deps d).watchers <+: (s1.deps d).watchers := by
  induction ops generalizing s with
  | nil => cases he; exact ⟨Nat.le_refl _, fun _ _ => List.prefix_refl _⟩
  | cons op ops ih =>
    simp only [execAll, Option.bind_eq_some] at he
    obtain ⟨s2, h2, h3⟩ := he
    obtain ⟨a1, a2⟩ := exec_retains B s op s2 h2
    obtain ⟨b1, b2⟩ := ih s2 h3
    exact ⟨Nat.le_trans a1 b1, fun d hd => (a2 d hd).trans (b2 d (by omega))⟩

theorem setProp_keeps_accessor (B : Builtins) (s : State) (v : Val) (k1 : String) (x : Val)
    (a c : Nat) (k : String) (hslot : lookup k (s.objs a).props = some (.accessor c)) :
    lookup k ((setProp B s v k1 x).state.objs a).props = some (.accessor c) ∧
      ∀ c1, ((setProp B s v k1 x).state.cells c1).dep = (s.cells c1).dep := by
  cases v with
  | obj a1 =>
    simp only [setProp]
    cases hl : lookup k1 (s.objs a1).props with
    | none =>
      simp only [Res.state_ok, Function.update_apply]
      refine ⟨?_, fun _ => trivial⟩
      split
      · rename_i ha
        subst ha
        simp only [lookup_setSlot]
        split
        · rename_i hk
          rw [hk, hl] at hslot
          cases hslot
        · exact hslot
      · exact hslot
    | some sl =>
      cases sl with
      | data y e =>
        simp only [Res.state_ok, Function.update_apply]
        refine ⟨?_, fun _ => trivial⟩
        split
        · rename_i ha
          subst ha
          simp only [lookup_setSlot]
          split
          · rename_i hk
            rw [hk, hl] at hslot
            cases hslot
          · exact hslot
        · exact hslot
      | accessor c2 =>
        exact reactiveSet_preserves B
          (fun t => lookup k (t.objs a).props = some (.accessor c) ∧
            ∀ c1, (t.cells c1).dep = (s.cells c1).dep)
          (fun t v k2 ht => by
            have hf := getProp_frame B t v k2
            exact ⟨by rw [hf.objs]; exact ht.1, fun c1 => by rw [hf.cells]; exact ht.2 c1⟩)
          (fun t c3 x ht => by
            have hf := notify_frame B (setVal t c3 x) (t.cells c3).dep
            refine ⟨?_, fun c1 => ?_⟩
            · show lookup k ((notify B (setVal t c3 x) (t.cells c3).dep).state.objs a).props = _
              rw [hf.objs]
              exact ht.1
            · show ((notify B (setVal t c3 x) (t.cells c3).dep).state.cells c1).dep = _
              rw [hf.cells, ← ht.2 c1]
              simp only [setVal, Function.update_apply]
              split
              · rename_i e; rw [e]
              · rfl)
          s c2 x ⟨hslot, fun _ => rfl⟩
  | _ => exact ⟨hslot, fun _ => rfl⟩

theorem exec_keeps_accessor (B : Builtins) (s : State) (op : Op) (s1 : State)
    (hno : op.isObserve = false) (he : exec B s op = some s1) (a c : Nat) (k : String)
    (hslot : lookup k (s.objs a).props = some (.accessor c)) :
    lookup k (s1.objs a).props = some (.accessor c) ∧
      (∀ c1, (s1.cells c1).dep = (s.cells c1).dep) ∧
      ∀ d, (s.deps d).watchers <+: (s1.deps d).watchers := by
  cases op with
  | observe fuel data => simp [Op.isObserve] at hno
  | watch vm exp =>
    simp only [exec, outcome, Option.map_some', Option.some.injEq] at he
    subst he
    obtain ⟨h1, h2⟩ := newWatcher_data B s vm exp
    have h3 := (newWatcher_nextDep B s vm exp).2
    cases hn : newWatcher B s vm exp <;> rw [hn] at h1 h2 h3 <;>
      exact ⟨by simp only [Res.void, Res.state_ok, Res.state_throw] at h1 ⊢; rw [h1]; exact hslot,
        fun c1 => by simp only [Res.void, Res.state_ok, Res.state_throw] at h2 ⊢; rw [h2], h3⟩
  | read v k1 =>
    simp only [exec, outcome, Option.map_some', Option.some.injEq] at he
    subst he
    have hf := getProp_frame B s v k1
    cases hn : getProp B s v k1 <;> rw [hn] at hf <;>
      exact ⟨by simp only [Res.void, Res.state_ok, Res.state_throw] at hf ⊢; rw [hf.objs]; exact hslot,
        fun c1 => by simp only [Res.void, Res.state_ok, Res.state_throw] at hf ⊢; rw [hf.cells],
        hf.subs⟩
  | write v k1 x =>
    simp only [exec, outcome, Option.map_some', Option.some.injEq] at he
    subst he
    obtain ⟨h1, h2⟩ := setProp_keeps_accessor B s v k1 x a c k hslot
    exact ⟨h1, h2, (setProp_nextDep B s v k1 x).2⟩

theorem execAll_keeps_accessor (B : Builtins) (s : State) (ops : List Op) (s1 : State)
    (hno : ∀ op ∈ ops, op.isObserve = false) (he : execAll B s ops = some s1) (a c : Nat)
    (k : String) (hslot : lookup k (s.objs a).props = some (.accessor c)) :
    lookup k (s1.objs a).props = some (.accessor c) ∧
      (∀ c1, (s1.cells c1).dep = (s.cells c1).dep) ∧
      ∀ d, (s.deps d).watchers <+: (s1.deps d).watchers := by
  induction ops generalizing s with
  | nil => cases he; exact ⟨hslot, fun _ => rfl, fun _ => List.prefix_refl _⟩
  | cons op ops ih =>
    simp only [execAll, Option.bind_eq_some] at he
    obtain ⟨s2, h2, h3⟩ := he
    obtain ⟨a1, a2, a3⟩ := exec_keeps_accessor B s op s2 (hno op (List.mem_cons_self _ _)) h2
      a c k hslot
    obtain ⟨b1, b2, b3⟩ := ih s2 (fun o ho => hno o (List.mem_cons_of_mem _ ho)) h3 a1
    exact ⟨b1, fun c1 => (b2 c1).trans (a2 c1), fun d => (a3 d).trans (b3 d)⟩

theorem getProp_trace_congr (B : Builtins) (s t : State) (v : Val) (k : String)
    (ho : s.objs = t.objs) (htr : s.trace = t.trace) :
    (getProp B s v k).state.trace = (getProp B t v k).state.trace := by
  cases v with
  | obj a =>
    simp only [getProp, ← ho]
    cases lookup k (s.objs a).props with
    | none => simp only []; cases B.inherited a k <;> exact htr
    | some sl =>
      cases sl with
      | data y e => exact htr
      | accessor c => simp [reactiveGet_trace, htr]
  | _ => first | exact htr | (simp only [getProp]; split <;> exact htr)

theorem resolve_trace_congr (B : Builtins) (s t : State) (v : Val) (ks : List String)
    (ho : s.objs = t.objs) (hc : s.cells = t.cells) (htr : s.trace = t.trace) :
    (resolve B s v ks).state.trace = (resolve B t v ks).state.trace := by
  induction ks generalizing s t v with
  | nil => exact htr
  | cons k ks ih =>
    have hv := getProp_val_congr B s t v k ho hc
    have ht := getProp_trace_congr B s t v k ho htr
    have hfs := getProp_frame B s v k
    have hft := getProp_frame B t v k
    unfold resolve
    cases hs : getProp B s v k with
    | ok y s1 =>
      cases ht1 : getProp B t v k with
      | ok z t1 =>
        rw [hs, ht1] at hv ht
        rw [hs] at hfs
        rw [ht1] at hft
        simp only [Res.state_ok] at hfs hft ht
        simp only [Res.val?, Option.some.injEq] at hv
        subst hv
        exact ih s1 t1 y (by rw [hfs.objs, hft.objs, ho]) (by rw [hfs.cells, hft.cells, hc]) ht
      | throw t1 =>
        rw [hs, ht1] at hv
        simp [Res.val?] at hv
    | throw s1 =>
      cases ht1 : getProp B t v k with
      | ok z t1 =>
        rw [hs, ht1] at hv
        simp [Res.val?] at hv
      | throw t1 =>
        rw [hs, ht1] at ht
        exact ht

theorem getProp_changed (B : Builtins) (s : State) (v : Val) (k : String) (d : Nat)
    (h : ((getProp B s v k).state.deps d).watchers ≠ (s.deps d).watchers) :
    ∃ a c, v = .obj a ∧ lookup k (s.objs a).props = some (.accessor c) ∧
      (s.cells c).dep = d := by
  cases v with
  | obj a =>
    simp only [getProp] at h
    cases hl : lookup k (s.objs a).props with
    | none => rw [hl] at h; simp only [] at h; cases hi : B.inherited a k <;> rw [hi] at h <;> exact absurd rfl h
    | some sl =>
      rw [hl] at h
      cases sl with
      | data y e => exact absurd rfl h
      | accessor c =>
        refine ⟨a, c, rfl, hl, ?_⟩
        by_contra hne
        apply h
        simp only [Res.state_ok, reactiveGet]
        cases ht : s.target with
        | none => rfl
        | some w =>
          simp only [ht]
          rw [addDep_other_dep _ w _ d (fun e => hne e.symm)]
  | _ => first | exact absurd rfl h | (simp only [getProp] at h; split at h <;> exact absurd rfl h)

theorem resolve_changed (B : Builtins) (s : State) (v : Val) (ks : List String) (d : Nat)
    (h : ((resolve B s v ks).state.deps d).watchers ≠ (s.deps d).watchers) :
    ∃ pre k post a c, ks = pre ++ k :: post ∧ (resolve B s v pre).val? = some (.obj a) ∧
      lookup k (s.objs a).props = some (.accessor c) ∧ (s.cells c).dep = d := by
  induction ks generalizing s v with
  | nil => exact absurd rfl h
  | cons k ks ih =>
    by_cases hg : ((getProp B s v k).state.deps d).watchers = (s.deps d).watchers
    · have hf := getProp_frame B s v k
      unfold resolve at h
      cases hgp : getProp B s v k with
      | throw s1 =>
        rw [hgp] at h hg
        exact absurd hg h
      | ok y s1 =>
        rw [hgp] at h hg hf
        simp only [Res.state_ok] at hg hf h
        rw [← hg] at h
        obtain ⟨pre, k1, post, a, c, h1, h2, h3, h4⟩ := ih s1 y h
        refine ⟨k :: pre, k1, post, a, c, by rw [h1]; rfl, ?_, by rw [← hf.objs]; exact h3,
          by rw [← hf.cells]; exact h4⟩
        simp only [resolve, hgp]
        exact h2
    · obtain ⟨a, c, h1, h2, h3⟩ := getProp_changed B s v k d hg
      exact ⟨[], k, ks, a, c, rfl, by rw [h1]; rfl, h2, h3⟩

theorem newWatcher_spec (B : Builtins) (s : State) (vm : Val) (exp : String) (w : Nat)
    (s1 : State) (hnew : newWatcher B s vm exp = .ok w s1) :
    s1.trace = (getVMVal B s vm exp).state.trace ∧
      (getVMVal B s vm exp).val? = some (s1.watchers w).value ∧
      (s1.watchers w).vm = vm ∧ (s1.watchers w).exp = exp ∧
      ∀ d, (s1.deps d).watchers ≠ (s.deps d).watchers →
        ∃ pre k post a c, split exp = pre ++ k :: post ∧
          (resolve B s vm pre).val? = some (.obj a) ∧
          lookup k (s.objs a).props = some (.accessor c) ∧ (s.cells c).dep = d := by
  have hw : w = s.nextWatcher := (newWatcher_reads B s vm exp w s1 hnew).1
  subst hw
  unfold newWatcher Watcher.get getVMVal at hnew
  simp only [Function.update_same] at hnew
  have htr := resolve_trace_congr B (setTarget (allocWatcher s vm exp) (some s.nextWatcher)) s
    vm (split exp) rfl rfl rfl
  have hval := resolve_val_congr B (setTarget (allocWatcher s vm exp) (some s.nextWatcher)) s
    vm (split exp) rfl rfl
  have hf := resolve_frame B (setTarget (allocWatcher s vm exp) (some s.nextWatcher))
    vm (split exp)
  have hch := resolve_changed B (setTarget (allocWatcher s vm exp) (some s.nextWatcher))
    vm (split exp)
  cases hres : resolve B (setTarget (allocWatcher s vm exp) (some s.nextWatcher))
      vm (split exp) with
  | throw s2 => rw [hres] at hnew; cases hnew
  | ok x s2 =>
    rw [hres] at hnew htr hval hf hch
    simp only [Res.ok.injEq, true_and] at hnew
    subst hnew
    simp only [Res.state_ok] at htr hf hch
    refine ⟨htr, ?_, ?_, ?_, ?_⟩
    · unfold getVMVal
      rw [← hval]
      simp [Res.val?]
    · simp only [Function.update_same]
      rw [hf.vm]
      simp
    · simp only [Function.update_same]
      rw [hf.exp]
      simp
    · intro d hd
      obtain ⟨pre, k, post, a, c, h1, h2, h3, h4⟩ := hch d hd
      refine ⟨pre, k, post, a, c, h1, ?_, h3, h4⟩
      rw [← h2]
      exact (resolve_val_congr B (setTarget (allocWatcher s vm exp) (some s.nextWatcher)) s
        vm pre rfl rfl).symm

theorem setProp_cellDep (B : Builtins) (s : State) (v : Val) (k : String) (x : Val) :
    (setProp B s v k x).state.nextCell = s.nextCell ∧
      ∀ c, ((setProp B s v k x).state.cells c).dep = (s.cells c).dep := by
  unfold setProp
  split
  · exact ⟨rfl, fun _ => rfl⟩
  · exact ⟨rfl, fun _ => rfl⟩
  · split
    · rename_i c2 _
      exact reactiveSet_preserves B
        (fun t => t.nextCell = s.nextCell ∧ ∀ c, (t.cells c).dep = (s.cells c).dep)
        (fun t v k2 ht => by
          have hf := getProp_frame B t v k2
          exact ⟨hf.nextCell.trans ht.1, fun c1 => by rw [hf.cells]; exact ht.2 c1⟩)
        (fun t c3 x ht => by
          have hf := notify_frame B (setVal t c3 x) (t.cells c3).dep
          refine ⟨hf.nextCell.trans ht.1, fun c1 => ?_⟩
          show ((notify B (setVal t c3 x) (t.cells c3).dep).state.cells c1).dep = _
          rw [hf.cells, ← ht.2 c1]
          simp only [setVal, Function.update_apply]
          split
          · rename_i e; rw [e]
          · rfl)
        s c2 x ⟨rfl, fun _ => rfl⟩
    · exact ⟨rfl, fun _ => rfl⟩
    · exact ⟨rfl, fun _ => rfl⟩
  · exact ⟨rfl, fun _ => rfl⟩

theorem observe_cellDep (B : Builtins) (fuel : Nat) (s : State) (data : Val) (r : Res Unit)
    (ho : observe B fuel s data = some r) :
    s.nextCell ≤ r.state.nextCell ∧
      ∀ c, c < s.nextCell → (r.state.cells c).dep = (s.cells c).dep :=
  ((observe_preserves B
    (fun t => s.nextCell ≤ t.nextCell ∧ ∀ c, c < s.nextCell → (t.cells c).dep = (s.cells c).dep)
    (fun t v k ht => by
      have hf := getProp_frame B t v k
      exact ⟨by rw [hf.nextCell]; exact ht.1, fun c hc => by rw [hf.cells]; exact ht.2 c hc⟩)
    (fun _ ht => ht)
    (fun t a key val dep ht _ => by
      refine ⟨Nat.le_succ_of_le ht.1, fun c hc => ?_⟩
      have hne : c ≠ t.nextCell := by have := ht.1; omega
      simp only [defineAccessor, Function.update_apply, hne, if_false]
      exact ht.2 c hc)
    fuel).1 s data r ⟨Nat.le_refl _, fun _ _ => rfl⟩ ho).1

theorem exec_cellDep (B : Builtins) (s : State) (op : Op) (s1 : State)
    (he : exec B s op = some s1) :
    s.nextCell ≤ s1.nextCell ∧ ∀ c, c < s.nextCell → (s1.cells c).dep = (s.cells c).dep := by
  cases op with
  | observe fuel data =>
    simp only [exec, outcome, Option.map_eq_some'] at he
    obtain ⟨r, hr, rfl⟩ := he
    exact observe_cellDep B fuel s data r hr
  | watch vm exp =>
    simp only [exec, outcome, Option.map_some', Option.some.injEq] at he
    subst he
    have hf := get_frame B (allocWatcher s vm exp) s.nextWatcher
    simp only [newWatcher]
    cases hn : Watcher.get B (allocWatcher s vm exp) s.nextWatcher <;> rw [hn] at hf <;>
      exact ⟨Nat.le_of_eq hf.nextCell.symm, fun c _ => by
        simp only [Res.void, Res.state_ok, Res.state_throw] at hf ⊢
        rw [hf.cells]⟩
  | read v k1 =>
    simp only [exec, outcome, Option.map_some', Option.some.injEq] at he
    subst he
    have hf := getProp_frame B s v k1
    cases hn : getProp B s v k1 <;> rw [hn] at hf <;>
      exact ⟨Nat.le_of_eq hf.nextCell.symm, fun c _ => by
        simp only [Res.void, Res.state_ok, Res.state_throw] at hf ⊢
        rw [hf.cells]⟩
  | write v k1 x =>
    simp only [exec, outcome, Option.map_some', Option.some.injEq] at he
    subst he
    have := setProp_cellDep B s v k1 x
    exact ⟨Nat.le_of_eq this.1.symm, fun c _ => this.2 c⟩

theorem execAll_cellDep (B : Builtins) (s : State) (ops : List Op) (s1 : State)
    (he : execAll B s ops = some s1) :
    s.nextCell ≤ s1.nextCell ∧ ∀ c, c < s.nextCell → (s1.cells c).dep = (s.cells c).dep := by
  induction ops generalizing s with
  | nil => cases he; exact ⟨Nat.le_refl _, fun _ _ => rfl⟩
  | cons op ops ih =>
    simp only [execAll, Option.bind_eq_some] at he
    obtain ⟨s2, h2, h3⟩ := he
    obtain ⟨a1, a2⟩ := exec_cellDep B s op s2 h2
    obtain ⟨b1, b2⟩ := ih s2 h3
    exact ⟨Nat.le_trans a1 b1, fun c hc => (b2 c (by omega)).trans (a2 c hc)⟩

theorem logChange_updates (B : Builtins) (s : State) (c : Nat) (x : Val) :
    updates (logChange B s c x).state.trace = updates s.trace :=
  logChange_preserves B (fun t => updates t.trace = updates s.trace)
    (fun t v k h => (getProp_updates B t v k).trans h) s c x rfl

/-- The calls of `update` of a write: on the Observers in the list of the
cell's Subject as it is when line 30 has been run. -/
theorem setProp_updates (B : Builtins) (s : State) (a c : Nat) (k : String) (x : Val)
    (hslot : lookup k (s.objs a).props = some (.accessor c)) :
    ∃ U, updates (setProp B s (.obj a) k x).state.trace = updates s.trace ++ U ∧
      U <+: ((logChange B s c x).state.deps (s.cells c).dep).watchers ∧
      ((setProp B s (.obj a) k x).isOk = true →
        U = ((logChange B s c x).state.deps (s.cells c).dep).watchers) := by
  rw [setProp_accessor B s a c k x hslot]
  have hcb := logChange_updates B s c x
  cases hl : logChange B s c x with
  | ok u s1 =>
    rw [hl] at hcb
    rw [reactiveSet_ok B s c x s1 hl, ← hcb]
    obtain ⟨U, h1, h2, h3, -⟩ := notifyLoop_updates B (setVal s1 c x)
      ((setVal s1 c x).deps (s.cells c).dep).watchers
    exact ⟨U, h1, h2, h3⟩
  | throw s1 =>
    rw [hl] at hcb
    rw [reactiveSet_throw B s c x s1 hl]
    exact ⟨[], by simpa using hcb, List.nil_prefix, fun h => by cases h⟩

theorem observe_fuel_succ (B : Builtins) : ∀ fuel,
    (∀ s data r, observe B fuel s data = some r → observe B (fuel + 1) s data = some r) ∧
    (∀ s a ks r, observeKeys B fuel s a ks = some r →
      observeKeys B (fuel + 1) s a ks = some r) ∧
    (∀ s a key val r, defineReactive B fuel s a key val = some r →
      defineReactive B (fuel + 1) s a key val = some r) := by
  intro fuel
  induction fuel with
  | zero => refine ⟨?_, ?_, ?_⟩ <;> intros <;> simp_all [observe, observeKeys, defineReactive]
  | succ n ih =>
    obtain ⟨ihO, ihK, ihD⟩ := ih
    refine ⟨?_, ?_, ?_⟩
    · intro s data r h
      unfold observe at h ⊢
      split
      · rename_i hc
        simp only [hc, if_true] at h
        exact h
      · rename_i hc
        simp only [hc, if_false] at h
        cases data with
        | obj a => exact ihK _ _ _ _ h
        | _ => exact h
    · intro s a ks r h
      cases ks with
      | nil =>
        simp only [observeKeys] at h ⊢
        exact h
      | cons key ks =>
        simp only [observeKeys] at h ⊢
        cases hgp : getProp B s (.obj a) key with
        | throw s1 =>
          rw [hgp] at h
          exact h
        | ok val s1 =>
          rw [hgp] at h
          dsimp only at h ⊢
          cases hd : defineReactive B n s1 a key val with
          | none => rw [hd] at h; cases h
          | some r1 =>
            rw [hd] at h
            rw [ihD _ _ _ _ _ hd]
            cases r1 with
            | ok u s2 => exact ihK _ _ _ _ h
            | throw s2 => exact h
    · intro s a key val r h
      simp only [defineReactive] at h ⊢
      cases ho : observe B n (newDep s).2 val with
      | none => rw [ho] at h; cases h
      | some r1 =>
        rw [ho] at h
        rw [ihO _ _ _ ho]
        exact h

theorem observe_fuel_mono (B : Builtins) (fuel fuel1 : Nat) (hle : fuel ≤ fuel1) (s : State)
    (data : Val) (r : Res Unit) (h : observe B fuel s data = some r) :
    observe B fuel1 s data = some r := by
  induction hle with
  | refl => exact h
  | step _ ih => exact (observe_fuel_succ B _).1 _ _ _ ih

theorem observeKeys_fuel_mono (B : Builtins) (fuel fuel1 : Nat) (hle : fuel ≤ fuel1)
    (s : State) (a : Nat) (ks : List String) (r : Res Unit)
    (h : observeKeys B fuel s a ks = some r) : observeKeys B fuel1 s a ks = some r := by
  induction hle with
  | refl => exact h
  | step _ ih => exact (observe_fuel_succ B _).2.1 _ _ _ _ ih

theorem Props.keys_slots : ∀ ps : Props, keys ps.slots = ps.enumKeys
  | .nil => rfl
  | .prop k t rest => by simp [Props.slots, keys, Props.enumKeys, Props.keys_slots rest]
  | .hidden k v rest => by simp [Props.slots, keys, Props.enumKeys, Props.keys_slots rest]

theorem Props.enumKeys_subset : ∀ (ps : Props) (k : String), k ∈ ps.enumKeys → k ∈ ps.allKeys
  | .nil, _, h => by simp [Props.enumKeys] at h
  | .prop k1 t rest, k, h => by
    simp only [Props.enumKeys, Props.allKeys, List.mem_cons] at h ⊢
    exact h.imp id (Props.enumKeys_subset rest k)
  | .hidden k1 v rest, k, h => by
    simp only [Props.enumKeys, Props.allKeys, List.mem_cons] at h ⊢
    exact Or.inr (Props.enumKeys_subset rest k h)

theorem Props.own_key : ∀ (ps : Props) (k : String) (v : Val) (e : Bool),
    (k, v, e) ∈ ps.own → k ∈ ps.allKeys
  | .nil, _, _, _, h => by simp [Props.own] at h
  | .prop k1 t rest, k, v, e, h => by
    simp only [Props.own, Props.allKeys, List.mem_cons, Prod.mk.injEq] at h ⊢
    exact h.imp (fun h => h.1) (Props.own_key rest k v e)
  | .hidden k1 v1 rest, k, v, e, h => by
    simp only [Props.own, Props.allKeys, List.mem_cons, Prod.mk.injEq] at h ⊢
    exact h.imp (fun h => h.1) (Props.own_key rest k v e)

theorem Props.lookup_slots : ∀ (ps : Props) (k : String) (v : Val) (e : Bool),
    ps.allKeys.Nodup → (k, v, e) ∈ ps.own → lookup k ps.slots = some (.data v e)
  | .nil, _, _, _, _, h => by simp [Props.own] at h
  | .prop k1 t rest, k, v, e, hnd, h => by
    simp only [Props.allKeys, List.nodup_cons] at hnd
    simp only [Props.own, List.mem_cons, Prod.mk.injEq] at h
    simp only [Props.slots, lookup]
    rcases h with ⟨rfl, rfl, rfl⟩ | h
    · simp
    · have hne : k1 ≠ k := fun e1 => hnd.1 (e1 ▸ Props.own_key rest k v e h)
      simp only [hne, if_false]
      exact Props.lookup_slots rest k v e hnd.2 h
  | .hidden k1 v1 rest, k, v, e, hnd, h => by
    simp only [Props.allKeys, List.nodup_cons] at hnd
    simp only [Props.own, List.mem_cons, Prod.mk.injEq] at h
    simp only [Props.slots, lookup]
    rcases h with ⟨rfl, rfl, rfl⟩ | h
    · simp
    · have hne : k1 ≠ k := fun e1 => hnd.1 (e1 ▸ Props.own_key rest k v e h)
      simp only [hne, if_false]
      exact Props.lookup_slots rest k v e hnd.2 h

mutual

theorem Tree.entries_addr : ∀ (t : Tree) (a : Nat) (k : String) (v : Val) (e : Bool),
    (a, k, v, e) ∈ t.entries → a ∈ t.addrs
  | .leaf _, _, _, _, _, h => by simp [Tree.entries] at h
  | .node a1 ps, a, k, v, e, h => by
    simp only [Tree.entries] at h
    simp only [Tree.addrs, List.mem_cons]
    exact Props.entriesAt_addr ps a1 a k v e h

theorem Props.entriesAt_addr : ∀ (ps : Props) (a1 a : Nat) (k : String) (v : Val) (e : Bool),
    (a, k, v, e) ∈ ps.entriesAt a1 → a = a1 ∨ a ∈ ps.addrs
  | .nil, _, _, _, _, _, h => by simp [Props.entriesAt] at h
  | .prop k1 t rest, a1, a, k, v, e, h => by
    simp only [Props.entriesAt, List.mem_cons, List.mem_append, Prod.mk.injEq] at h
    simp only [Props.addrs, List.mem_append]
    rcases h with h | h | h
    · exact Or.inl h.1
    · exact Or.inr (Or.inl (Tree.entries_addr t a k v e h))
    · exact (Props.entriesAt_addr rest a1 a k v e h).imp id Or.inr
  | .hidden k1 v1 rest, a1, a, k, v, e, h => by
    simp only [Props.entriesAt, List.mem_cons, Prod.mk.injEq] at h
    simp only [Props.addrs]
    rcases h with h | h
    · exact Or.inl h.1
    · exact Props.entriesAt_addr rest a1 a k v e h
end

mutual

theorem Tree.holds_of_same : ∀ (t : Tree) (objs objs1 : Nat → Obj),
    (∀ a, a ∈ t.addrs → objs1 a = objs a) → t.Holds objs → t.Holds objs1
  | .leaf _, _, _, _, h => by simpa [Tree.Holds] using h
  | .node a ps, objs, objs1, hc, h => by
    simp only [Tree.Holds] at h ⊢
    simp only [Tree.addrs, List.mem_cons] at hc
    exact ⟨by rw [hc a (Or.inl rfl)]; exact h.1, h.2.1,
      Props.holdsAll_of_same ps objs objs1 (fun a1 h1 => hc a1 (Or.inr h1)) h.2.2⟩

theorem Props.holdsAll_of_same : ∀ (ps : Props) (objs objs1 : Nat → Obj),
    (∀ a, a ∈ ps.addrs → objs1 a = objs a) → ps.Holds objs → ps.Holds objs1
  | .nil, _, _, _, _ => by simp [Props.Holds]
  | .prop k t rest, objs, objs1, hc, h => by
    simp only [Props.Holds] at h ⊢
    simp only [Props.addrs, List.mem_append] at hc
    exact ⟨Tree.holds_of_same t objs objs1 (fun a1 h1 => hc a1 (Or.inl h1)) h.1,
      Props.holdsAll_of_same rest objs objs1 (fun a1 h1 => hc a1 (Or.inr h1)) h.2⟩
  | .hidden k v rest, objs, objs1, hc, h => by
    simp only [Props.Holds] at h ⊢
    simp only [Props.addrs] at hc
    exact Props.holdsAll_of_same rest objs objs1 hc h
end

theorem Props.own_entriesAt : ∀ (ps : Props) (a : Nat) (k : String) (v : Val) (e : Bool),
    (k, v, e) ∈ ps.own → (a, k, v, e) ∈ ps.entriesAt a
  | .nil, _, _, _, _, h => by simp [Props.own] at h
  | .prop k1 t rest, a, k, v, e, h => by
    simp only [Props.own, List.mem_cons, Prod.mk.injEq] at h
    simp only [Props.entriesAt, List.mem_cons, List.mem_append, Prod.mk.injEq]
    rcases h with h | h
    · exact Or.inl ⟨trivial, h⟩
    · exact Or.inr (Or.inr (Props.own_entriesAt rest a k v e h))
  | .hidden k1 v1 rest, a, k, v, e, h => by
    simp only [Props.own, List.mem_cons, Prod.mk.injEq] at h
    simp only [Props.entriesAt, List.mem_cons, Prod.mk.injEq]
    rcases h with h | h
    · exact Or.inl ⟨trivial, h⟩
    · exact Or.inr (Props.own_entriesAt rest a k v e h)

theorem Grows.same (s : State) : Grows s s where
  watchers := rfl
  target := rfl
  trace := rfl
  nextWatcher := rfl
  nextCell := Nat.le_refl _
  nextDep := Nat.le_refl _
  oldCells := fun _ _ => rfl
  oldDeps := fun _ _ => rfl
  newCellDep := fun c h1 h2 => absurd h1 (by omega)
  ownDep := fun c _ h1 h2 => absurd h1 (by omega)
  newDepEmpty := fun d h1 h2 => absurd h1 (by omega)

theorem Grows.then {s s1 s2 : State} (g : Grows s s1) (g1 : Grows s1 s2) : Grows s s2 where
  watchers := g1.watchers.trans g.watchers
  target := g1.target.trans g.target
  trace := g1.trace.trans g.trace
  nextWatcher := g1.nextWatcher.trans g.nextWatcher
  nextCell := Nat.le_trans g.nextCell g1.nextCell
  nextDep := Nat.le_trans g.nextDep g1.nextDep
  oldCells := fun c hc => (g1.oldCells c (by have := g.nextCell; omega)).trans (g.oldCells c hc)
  oldDeps := fun d hd => (g1.oldDeps d (by have := g.nextDep; omega)).trans (g.oldDeps d hd)
  newCellDep := fun c h1 h2 => by
    have hn := g1.nextDep
    have hn0 := g.nextDep
    by_cases hc : c < s1.nextCell
    · rw [g1.oldCells c hc]
      have := g.newCellDep c h1 hc
      omega
    · have := g1.newCellDep c (by omega) h2
      omega
  ownDep := fun c c1 h1 h2 h3 h4 he => by
    by_cases hc : c < s1.nextCell <;> by_cases hc1 : c1 < s1.nextCell
    · rw [g1.oldCells c hc, g1.oldCells c1 hc1] at he
      exact g.ownDep c c1 h1 hc h3 hc1 he
    · rw [g1.oldCells c hc] at he
      have := g.newCellDep c h1 hc
      have := g1.newCellDep c1 (by omega) h4
      omega
    · rw [g1.oldCells c1 hc1] at he
      have := g.newCellDep c1 h3 hc1
      have := g1.newCellDep c (by omega) h2
      omega
    · exact g1.ownDep c c1 (by omega) h2 (by omega) h4 he
  newDepEmpty := fun d h1 h2 => by
    by_cases hd : d < s1.nextDep
    · rw [g1.oldDeps d hd]
      exact g.newDepEmpty d h1 hd
    · exact g1.newDepEmpty d (by omega) h2

theorem Grows.define {s s2 : State} (g : Grows (newDep s).2 s2) (a : Nat) (k : String)
    (v : Val) : Grows s (defineAccessor s2 a k v s.nextDep) := by
  have hn1 : (newDep s).2.nextDep = s.nextDep + 1 := rfl
  have hc1 : (newDep s).2.nextCell = s.nextCell := rfl
  have gc := g.nextCell
  have gd := g.nextDep
  rw [hn1] at gd
  rw [hc1] at gc
  constructor
  · exact g.watchers
  · exact g.target
  · exact g.trace
  · exact g.nextWatcher
  · simp only [defineAccessor]; omega
  · simp only [defineAccessor]; omega
  · intro c hc
    have hne : c ≠ s2.nextCell := by omega
    simp only [defineAccessor, Function.update_apply, hne, if_false]
    exact g.oldCells c hc
  · intro d hd
    simp only [defineAccessor]
    rw [g.oldDeps d (by omega)]
    have hne : d ≠ s.nextDep := by omega
    simp [newDep, Function.update_apply, hne]
  · intro c h1 h2
    simp only [defineAccessor, Function.update_apply] at h2 ⊢
    split
    · simp only
      omega
    · have := g.newCellDep c h1 (by omega)
      omega
  · intro c c1 h1 h2 h3 h4 he
    simp only [defineAccessor, Function.update_apply] at h2 h4 he
    by_cases e : c = s2.nextCell <;> by_cases e1 : c1 = s2.nextCell
    · rw [e, e1]
    · simp only [e, e1, if_true, if_false] at he
      have := g.newCellDep c1 h3 (by omega)
      omega
    · simp only [e, e1, if_true, if_false] at he
      have := g.newCellDep c h1 (by omega)
      omega
    · simp only [e, e1, if_false] at he
      exact g.ownDep c c1 h1 (by omega) h3 (by omega) he
  · intro d h1 h2
    simp only [defineAccessor] at h2 ⊢
    by_cases hd : d = s.nextDep
    · rw [g.oldDeps d (by omega), hd]
      simp [newDep]
    · exact g.newDepEmpty d (by omega) h2

theorem observe_not_obj (B : Builtins) (fuel : Nat) (s : State) (v : Val)
    (hv : ∀ a, v ≠ .obj a) : observe B (fuel + 1) s v = some (.ok () s) := by
  cases v with
  | obj a => exact absurd rfl (hv a)
  | undefined => simp [observe, truthy]
  | null => simp [observe, truthy]
  | bool b => cases b <;> simp [observe, truthy, typeOf]
  | num n => simp [observe, typeOf]
  | str x => simp [observe, typeOf]
  | func n => simp [observe, typeOf]

theorem observe_obj (B : Builtins) (fuel : Nat) (s : State) (a : Nat) :
    observe B (fuel + 1) s (.obj a) = observeKeys B fuel s a (keys (s.objs a).props) := by
  simp [observe, truthy, typeOf]

theorem observeKeys_cons_data (B : Builtins) (fuel : Nat) (s s2 : State) (a : Nat)
    (k : String) (ks : List String) (v : Val) (e : Bool)
    (hl : lookup k (s.objs a).props = some (.data v e))
    (ho : observe B fuel (newDep s).2 v = some (.ok () s2)) :
    observeKeys B (fuel + 2) s a (k :: ks) =
      observeKeys B (fuel + 1) (defineAccessor s2 a k v s.nextDep) a ks := by
  have hd : defineReactive B (fuel + 1) s a k v =
      some (.ok () (defineAccessor s2 a k v s.nextDep)) := by
    simp only [defineReactive]
    rw [ho]
    rfl
  simp only [observeKeys, getProp, hl, hd]

theorem Instr.empty (s s1 : State) : Instr s s1 [] :=
  ⟨fun _ _ _ h => by simp at h, fun _ _ _ h => by simp at h,
    fun _ _ _ _ _ _ _ h => by simp at h⟩

mutual

theorem Tree.observe_ok (B : Builtins) : ∀ (t : Tree) (s : State) (fuel : Nat),
    t.size ≤ fuel → t.Holds s.objs → t.addrs.Nodup →
    ∃ s1, observe B fuel s t.val = some (.ok () s1) ∧ Grows s s1 ∧ Instr s s1 t.entries ∧
      ∀ a, a ∉ t.addrs → s1.objs a = s.objs a
  | .leaf v, s, fuel, hf, hh, _ => by
    simp only [Tree.size] at hf
    obtain ⟨f, rfl⟩ : ∃ f, fuel = f + 1 := ⟨fuel - 1, by omega⟩
    simp only [Tree.Holds] at hh
    exact ⟨s, observe_not_obj B f s v hh, Grows.same s, Instr.empty s s, fun _ _ => rfl⟩
  | .node a ps, s, fuel, hf, hh, hnd => by
    simp only [Tree.size] at hf
    obtain ⟨f, rfl⟩ : ∃ f, fuel = f + 1 := ⟨fuel - 1, by omega⟩
    simp only [Tree.Holds] at hh
    simp only [Tree.addrs, List.nodup_cons] at hnd
    obtain ⟨s1, h1, g, i, fr, -⟩ := Props.observeKeys_ok B ps a s f (by omega)
      (fun k v e hm => by rw [hh.1]; exact Props.lookup_slots ps k v e hh.2.1 hm)
      hh.2.1 hh.2.2 hnd.1 hnd.2
    refine ⟨s1, ?_, g, i, ?_⟩
    · simp only [Tree.val]
      rw [observe_obj, hh.1, Props.keys_slots]
      exact h1
    · intro a1 ha1
      simp only [Tree.addrs, List.mem_cons, not_or] at ha1
      exact fr a1 ha1.2 ha1.1

theorem Props.observeKeys_ok (B : Builtins) : ∀ (ps : Props) (a : Nat) (s : State)
    (fuel : Nat), ps.size ≤ fuel →
    (∀ k v e, (k, v, e) ∈ ps.own → lookup k (s.objs a).props = some (.data v e)) →
    ps.allKeys.Nodup → ps.Holds s.objs → a ∉ ps.addrs → ps.addrs.Nodup →
    ∃ s1, observeKeys B fuel s a ps.enumKeys = some (.ok () s1) ∧ Grows s s1 ∧
      Instr s s1 (ps.entriesAt a) ∧
      (∀ a1, a1 ∉ ps.addrs → a1 ≠ a → s1.objs a1 = s.objs a1) ∧
      (∀ k, k ∉ ps.enumKeys → lookup k (s1.objs a).props = lookup k (s.objs a).props)
  | .nil, a, s, fuel, hf, _, _, _, _, _ => by
    simp only [Props.size] at hf
    obtain ⟨f, rfl⟩ : ∃ f, fuel = f + 1 := ⟨fuel - 1, by omega⟩
    exact ⟨s, by simp [Props.enumKeys, observeKeys], Grows.same s, Instr.empty s s,
      fun _ _ _ => rfl, fun _ _ => rfl⟩
  | .hidden k v rest, a, s, fuel, hf, hown, hkeys, hh, ha, hnd => by
    simp only [Props.size] at hf
    simp only [Props.allKeys, List.nodup_cons] at hkeys
    simp only [Props.Holds] at hh
    simp only [Props.addrs] at ha hnd
    obtain ⟨s1, h1, g, i, fr, lk⟩ := Props.observeKeys_ok B rest a s fuel hf
      (fun k1 v1 e1 hm => hown k1 v1 e1 (by simp [Props.own, hm])) hkeys.2 hh ha hnd
    have hk : k ∉ rest.enumKeys := fun hm => hkeys.1 (Props.enumKeys_subset rest k hm)
    refine ⟨s1, by simpa [Props.enumKeys] using h1, g, ?_, by simpa [Props.addrs] using fr,
      by simpa [Props.enumKeys] using lk⟩
    constructor
    · intro a1 k1 v1 hm
      simp only [Props.entriesAt, List.mem_cons, Prod.mk.injEq, Bool.true_eq_false,
        and_false, false_or] at hm
      exact i.cell a1 k1 v1 hm
    · intro a1 k1 v1 hm
      simp only [Props.entriesAt, List.mem_cons, Prod.mk.injEq, and_true] at hm
      rcases hm with ⟨rfl, rfl, rfl⟩ | hm
      · rw [lk k1 hk]
        exact hown k1 v1 false (by simp [Props.own])
      · exact i.plain a1 k1 v1 hm
    · intro a1 k1 v1 a2 k2 v2 c hm1 hm2
      simp only [Props.entriesAt, List.mem_cons, Prod.mk.injEq, Bool.true_eq_false,
        and_false, false_or] at hm1 hm2
      exact i.distinct a1 k1 v1 a2 k2 v2 c hm1 hm2
  | .prop k t rest, a, s, fuel, hf, hown, hkeys, hh, ha, hnd => by
    simp only [Props.size] at hf
    simp only [Props.allKeys, List.nodup_cons] at hkeys
    simp only [Props.Holds] at hh
    simp only [Props.addrs, List.mem_append, not_or] at ha
    simp only [Props.addrs] at hnd
    have hndt : t.addrs.Nodup := (List.nodup_append.1 hnd).1
    have hndr : rest.addrs.Nodup := (List.nodup_append.1 hnd).2.1
    have hdisj : ∀ a1, a1 ∈ t.addrs → a1 ∉ rest.addrs := fun a1 h1 h2 =>
      (List.nodup_append.1 hnd).2.2 h1 h2
    obtain ⟨f, rfl⟩ : ∃ f, fuel = f + 2 := ⟨fuel - 2, by omega⟩
    have hl : lookup k (s.objs a).props = some (.data t.val true) :=
      hown k t.val true (by simp [Props.own])
    -- the subtree
    obtain ⟨s2, h2, g2, i2, fr2⟩ := Tree.observe_ok B t (newDep s).2 f (by omega) hh.1 hndt
    have hs2a : s2.objs a = s.objs a := fr2 a ha.1
    -- the remaining keys
    have hobjs3 : ∀ a1, a1 ≠ a → (defineAccessor s2 a k t.val s.nextDep).objs a1 = s2.objs a1 := by
      intro a1 h1
      simp [defineAccessor, Function.update_apply, h1]
    have hlook3 : ∀ k1, lookup k1 ((defineAccessor s2 a k t.val s.nextDep).objs a).props =
        if k1 = k then some (.accessor s2.nextCell) else lookup k1 (s.objs a).props := by
      intro k1
      simp only [defineAccessor, Function.update_same, lookup_setSlot, hs2a]
    obtain ⟨s4, h4, g4, i4, fr4, lk4⟩ := Props.observeKeys_ok B rest a
      (defineAccessor s2 a k t.val s.nextDep) (f + 1) (by omega)
      (fun k1 v1 e1 hm => by
        have hne : k1 ≠ k := fun e => hkeys.1 (e ▸ Props.own_key rest k1 v1 e1 hm)
        rw [hlook3, if_neg hne]
        exact hown k1 v1 e1 (by simp [Props.own, hm]))
      hkeys.2
      (Props.holdsAll_of_same rest s.objs _ (fun a1 h1 => by
        have hne : a1 ≠ a := fun e => ha.2 (e ▸ h1)
        rw [hobjs3 a1 hne]
        exact fr2 a1 (fun h => hdisj a1 h h1)) hh.2)
      ha.2 hndr
    have g3 : Grows s (defineAccessor s2 a k t.val s.nextDep) := g2.define a k t.val
    have g : Grows s s4 := g3.then g4
    have hk : k ∉ rest.enumKeys := fun hm => hkeys.1 (Props.enumKeys_subset rest k hm)
    have hc3 : (defineAccessor s2 a k t.val s.nextDep).nextCell = s2.nextCell + 1 := rfl
    have hc1 : (newDep s).2.nextCell = s.nextCell := rfl
    -- the cell of the property `k` itself
    have hhead : lookup k (s4.objs a).props = some (.accessor s2.nextCell) := by
      rw [lk4 k hk, hlook3, if_pos rfl]
    -- a property of the subtree keeps its slot and closure
    have hsub : ∀ a1 k1 v1 e1, (a1, k1, v1, e1) ∈ t.entries →
        s4.objs a1 = s2.objs a1 := by
      intro a1 k1 v1 e1 hm
      have hin := Tree.entries_addr t a1 k1 v1 e1 hm
      have hne : a1 ≠ a := fun e => ha.1 (e ▸ hin)
      rw [fr4 a1 (hdisj a1 hin) hne, hobjs3 a1 hne]
    have hcell3 : ∀ c, c < s2.nextCell →
        s4.cells c = s2.cells c := by
      intro c hc
      rw [g4.oldCells c (by omega)]
      have hne : c ≠ s2.nextCell := by omega
      simp [defineAccessor, Function.update_apply, hne]
    refine ⟨s4, ?_, g, ?_, ?_, ?_⟩
    · simp only [Props.enumKeys]
      rw [observeKeys_cons_data B f s s2 a k rest.enumKeys t.val true hl h2]
      exact h4
    · constructor
      · intro a1 k1 v1 hm
        simp only [Props.entriesAt, List.mem_cons, List.mem_append, Prod.mk.injEq,
          and_true] at hm
        rcases hm with ⟨rfl, rfl, rfl⟩ | hm | hm
        · refine ⟨s2.nextCell, ?_, ?_, hhead, ?_⟩
          · have := g2.nextCell; omega
          · have := g4.nextCell; omega
          · rw [g4.oldCells _ (by omega)]
            simp [defineAccessor]
        · obtain ⟨c, c1, c2, c3, c4⟩ := i2.cell a1 k1 v1 hm
          refine ⟨c, by omega, by have := g4.nextCell; omega, ?_, ?_⟩
          · rw [hsub a1 k1 v1 true hm]; exact c3
          · rw [hcell3 c c2]; exact c4
        · obtain ⟨c, c1, c2, c3, c4⟩ := i4.cell a1 k1 v1 hm
          exact ⟨c, by have := g2.nextCell; omega, c2, c3, c4⟩
      · intro a1 k1 v1 hm
        simp only [Props.entriesAt, List.mem_cons, List.mem_append, Prod.mk.injEq,
          Bool.false_eq_true, and_false, false_or] at hm
        rcases hm with hm | hm
        · rw [hsub a1 k1 v1 false hm]
          exact i2.plain a1 k1 v1 hm
        · exact i4.plain a1 k1 v1 hm
      · intro a1 k1 v1 a2 k2 v2 c hm1 hm2 hl1 hl2
        simp only [Props.entriesAt, List.mem_cons, List.mem_append, Prod.mk.injEq,
          and_true] at hm1 hm2
        -- the closure of each kind of property lies in its own range
        have hr1 : ∀ a0 k0 v0, (a0, k0, v0, true) ∈ t.entries →
            lookup k0 (s4.objs a0).props = some (.accessor c) → c < s2.nextCell := by
          intro a0 k0 v0 hm hl0
          obtain ⟨c0, _, c2, c3, _⟩ := i2.cell a0 k0 v0 hm
          rw [hsub a0 k0 v0 true hm, c3] at hl0
          cases hl0
          exact c2
        have hr2 : ∀ a0 k0 v0, (a0, k0, v0, true) ∈ rest.entriesAt a →
            lookup k0 (s4.objs a0).props = some (.accessor c) → s2.nextCell + 1 ≤ c := by
          intro a0 k0 v0 hm hl0
          obtain ⟨c0, c1, _, c3, _⟩ := i4.cell a0 k0 v0 hm
          rw [c3] at hl0
          cases hl0
          exact c1
        have hr0 : lookup k (s4.objs a).props = some (.accessor c) → c = s2.nextCell := by
          intro hl0
          rw [hhead] at hl0
          cases hl0
          rfl
        rcases hm1 with ⟨rfl, rfl, rfl⟩ | hm1 | hm1 <;> rcases hm2 with ⟨rfl, rfl, rfl⟩ | hm2 | hm2
        · exact ⟨rfl, rfl⟩
        · have := hr0 hl1; have := hr1 _ _ _ hm2 hl2; omega
        · have := hr0 hl1; have := hr2 _ _ _ hm2 hl2; omega
        · have := hr0 hl2; have := hr1 _ _ _ hm1 hl1; omega
        · rw [hsub a1 k1 v1 true hm1] at hl1
          rw [hsub a2 k2 v2 true hm2] at hl2
          exact i2.distinct a1 k1 v1 a2 k2 v2 c hm1 hm2 hl1 hl2
        · have := hr1 _ _ _ hm1 hl1; have := hr2 _ _ _ hm2 hl2; omega
        · have := hr0 hl2; have := hr2 _ _ _ hm1 hl1; omega
        · have := hr2 _ _ _ hm1 hl1; have := hr1 _ _ _ hm2 hl2; omega
        · exact i4.distinct a1 k1 v1 a2 k2 v2 c hm1 hm2 hl1 hl2
    · intro a1 h1 h2
      simp only [Props.addrs, List.mem_append, not_or] at h1
      rw [fr4 a1 h1.2 h2, hobjs3 a1 h2]
      exact fr2 a1 h1.1
    · intro k1 hk1
      simp only [Props.enumKeys, List.mem_cons, not_or] at hk1
      rw [lk4 k1 hk1.2, hlook3, if_neg hk1.1]
end

mutual

theorem Tree.holds_lookup : ∀ (t : Tree) (objs : Nat → Obj) (a : Nat) (k : String) (v : Val)
    (e : Bool), t.Holds objs → (a, k, v, e) ∈ t.entries →
    lookup k (objs a).props = some (.data v e)
  | .leaf _, _, _, _, _, _, _, h => by simp [Tree.entries] at h
  | .node a1 ps, objs, a, k, v, e, hh, h => by
    simp only [Tree.Holds] at hh
    simp only [Tree.entries] at h
    rcases Props.holdsAll_lookup ps objs a1 a k v e hh.2.2 h with ⟨h1, rfl⟩ | h1
    · rw [hh.1]
      exact Props.lookup_slots ps k v e hh.2.1 h1
    · exact h1

theorem Props.holdsAll_lookup : ∀ (ps : Props) (objs : Nat → Obj) (a1 a : Nat) (k : String)
    (v : Val) (e : Bool), ps.Holds objs → (a, k, v, e) ∈ ps.entriesAt a1 →
    ((k, v, e) ∈ ps.own ∧ a = a1) ∨ lookup k (objs a).props = some (.data v e)
  | .nil, _, _, _, _, _, _, _, h => by simp [Props.entriesAt] at h
  | .prop k1 t rest, objs, a1, a, k, v, e, hh, h => by
    simp only [Props.Holds] at hh
    simp only [Props.entriesAt, List.mem_cons, List.mem_append, Prod.mk.injEq] at h
    rcases h with ⟨rfl, rfl, rfl, rfl⟩ | h | h
    · exact Or.inl ⟨by simp [Props.own], rfl⟩
    · exact Or.inr (Tree.holds_lookup t objs a k v e hh.1 h)
    · rcases Props.holdsAll_lookup rest objs a1 a k v e hh.2 h with h1 | h1
      · exact Or.inl ⟨by simp [Props.own, h1.1], h1.2⟩
      · exact Or.inr h1
  | .hidden k1 v1 rest, objs, a1, a, k, v, e, hh, h => by
    simp only [Props.Holds] at hh
    simp only [Props.entriesAt, List.mem_cons, Prod.mk.injEq] at h
    rcases h with ⟨rfl, rfl, rfl, rfl⟩ | h
    · exact Or.inl ⟨by simp [Props.own], rfl⟩
    · rcases Props.holdsAll_lookup rest objs a1 a k v e hh h with h1 | h1
      · exact Or.inl ⟨by simp [Props.own, h1.1], h1.2⟩
      · exact Or.inr h1
end

theorem getProp_data (B : Builtins) (s : State) (a : Nat) (k : String) (v : Val) (e : Bool)
    (h : lookup k (s.objs a).props = some (.data v e)) :
    getProp B s (.obj a) k = .ok v s := by
  simp [getProp, h]

theorem treeNested_holds : treeNested.Holds heapNested := by
  simp [treeNested, Tree.Holds, Props.Holds, Props.slots, Props.allKeys, Tree.val, heapNested]

theorem treeList_holds : treeList.Holds heapList := by
  simp [treeList, Tree.Holds, Props.Holds, Props.slots, Props.allKeys, Tree.val, heapList]

theorem heapList_plain : Plain heapList := by
  intro a k c
  unfold heapList
  repeat' split
  all_goals simp only [lookup]
  all_goals (repeat' split)
  all_goals simp

/-- A tracked read of a cell whose Subject has no observer yet: the read
returns the stored value and the Subject's list becomes the installed
Observer alone; a write of the cell then calls `update` on that Observer. -/
theorem notify_updates_single (B : Builtins) (s : State) (d w : Nat)
    (hws : (s.deps d).watchers = [w]) :
    updates (notify B s d).state.trace = updates s.trace ++ [w] := by
  unfold notify
  rw [hws]
  obtain ⟨U, h1, h2, -, h4⟩ := notifyLoop_updates B s [w]
  rw [h1]
  have hU : U = [w] := by
    obtain ⟨r, hr⟩ := h2
    cases U with
    | nil => exact absurd rfl (h4 (by simp))
    | cons u U =>
      simp only [List.cons_append, List.cons.injEq, List.append_eq_nil] at hr
      rw [hr.1, hr.2.1]
  rw [hU]

/-- A tracked read of a cell whose Subject has no observer yet: the read
returns the stored value and the Subject's list becomes the installed
Observer alone; once the evaluation is over (`Dep.target` is `null` again) a
write of the cell whose line 30 returns calls `update` on that Observer. -/
theorem tracked_read_of_fresh_cell (B : Builtins) (s1 : State) (a c w : Nat) (k : String)
    (h : HeapOk s1) (hl : lookup k (s1.objs a).props = some (.accessor c))
    (hemp : (s1.deps (s1.cells c).dep).watchers = []) :
    ∃ s2, getProp B (setTarget s1 (some w)) (.obj a) k = .ok (s1.cells c).val s2 ∧
      (s2.deps (s1.cells c).dep).watchers = [w] ∧
      ∀ x, (logChange B (setTarget s2 none) c x).isOk = true →
        updates (setProp B (setTarget s2 none) (.obj a) k x).state.trace
          = updates s2.trace ++ [w] := by
  have hc : c < s1.nextCell := h.slotLt a k c hl
  have hd : (s1.cells c).dep < s1.nextDep := h.cellDepLt c hc
  have hnot : hasOwnProperty (s1.watchers w).depIds (s1.deps (s1.cells c).dep).id = false := by
    cases hown : hasOwnProperty (s1.watchers w).depIds (s1.deps (s1.cells c).dep).id with
    | false => rfl
    | true =>
      obtain ⟨p, hp, hid⟩ := (hasOwnProperty_iff _ _).1 hown
      obtain ⟨a1, a2, a3⟩ := h.idsOk w p hp
      have : p.2 = (s1.cells c).dep := h.idInj p.2 _ a1 hd (a2.trans hid)
      rw [this, hemp] at a3
      simp at a3
  have hws2 : ((reactiveGet (setTarget s1 (some w)) c).2.deps (s1.cells c).dep).watchers
      = [w] := by
    simp [reactiveGet, addDep, hnot, addSub, hemp]
  refine ⟨(reactiveGet (setTarget s1 (some w)) c).2, ?_, hws2, ?_⟩
  · rw [getProp_accessor B (setTarget s1 (some w)) a c k hl]
  · intro x hok
    have hl2 : lookup k ((setTarget (reactiveGet (setTarget s1 (some w)) c).2 none).objs
        a).props = some (.accessor c) := by
      simpa [reactiveGet, addDep, hnot, addSub] using hl
    have hcell : (setTarget (reactiveGet (setTarget s1 (some w)) c).2 none).cells
        = s1.cells := by
      simp [reactiveGet, addDep, hnot, addSub]
    rw [setProp_accessor B _ a c k x hl2]
    have hf := logChange_frame B (setTarget (reactiveGet (setTarget s1 (some w)) c).2 none) c x
    have hu := logChange_updates B (setTarget (reactiveGet (setTarget s1 (some w)) c).2 none)
      c x
    have hnt := (logChange_no_target B
      (setTarget (reactiveGet (setTarget s1 (some w)) c).2 none) c x rfl).1
    cases hlc : logChange B (setTarget (reactiveGet (setTarget s1 (some w)) c).2 none) c x with
    | throw s3 => rw [hlc] at hok; cases hok
    | ok u s3 =>
      rw [hlc] at hf hu hnt
      rw [reactiveSet_ok B _ c x s3 hlc, hcell]
      have hws3 : ((setVal s3 c x).deps (s1.cells c).dep).watchers = [w] := by
        have e : s3.deps = (reactiveGet (setTarget s1 (some w)) c).2.deps := hnt
        show (s3.deps (s1.cells c).dep).watchers = [w]
        rw [e]
        exact hws2
      rw [notify_updates_single B (setVal s3 c x) (s1.cells c).dep w hws3]
      have e2 : updates s3.trace
          = updates (reactiveGet (setTarget s1 (some w)) c).2.trace := hu
      show updates s3.trace ++ [w] = _
      rw [e2]

theorem logChange_subsOk (B : Builtins) (s : State) (c : Nat) (x : Val) (h : SubsOk s) :
    SubsOk (logChange B s c x).state :=
  logChange_preserves B SubsOk (fun t v k ht => getProp_subsOk B t v k ht) s c x h

theorem logChange_heapOk (B : Builtins) (s : State) (c : Nat) (x : Val) (h : HeapOk s) :
    HeapOk (logChange B s c x).state :=
  logChange_preserves B HeapOk (fun t v k ht => getProp_heapOk B t v k ht) s c x h

theorem newWatchers_ok_target (B : Builtins) (vm : Val) (exp : String) (n : Nat) :
    ∀ (s : State) (ws : List Nat) (s1 : State), (s.target = none ∨ 0 < n) →
      newWatchers B s vm exp n = .ok ws s1 → s1.target = none := by
  induction n with
  | zero =>
    intro s ws s1 h hn
    simp only [newWatchers, Res.ok.injEq] at hn
    rcases h with h | h
    · rw [← hn.2]; exact h
    · omega
  | succ n ih =>
    intro s ws s1 _ hn
    simp only [newWatchers] at hn
    split at hn
    · rename_i w t hw
      split at hn
      · rename_i ws2 t2 hws
        simp only [Res.ok.injEq] at hn
        rw [← hn.2]
        exact ih t ws2 t2 (Or.inl (newWatcher_ok_target B s vm exp w t hw)) hws
      · cases hn
    · cases hn

theorem resolve_isOk_iff (B : Builtins) (s : State) (v : Val) (ks : List String) :
    (resolve B s v ks).isOk = true ↔
      ∀ pre k post, ks = pre ++ k :: post →
        ∃ x s1, resolve B s v pre = .ok x s1 ∧ x ≠ .undefined ∧ x ≠ .null ∧
          builtinRaises B s1 x k = false := by
  induction ks using List.reverseRecOn with
  | nil =>
    constructor
    · intro _ pre k post h
      simp at h
    · intro _
      rfl
  | append_singleton l a ih =>
    rw [resolve_append]
    constructor
    · intro hok pre k post h
      cases hr : resolve B s v l with
      | throw s1 => rw [hr] at hok; cases hok
      | ok x s1 =>
        rw [hr] at hok
        simp only [] at hok
        rcases List.eq_nil_or_concat post with hp | ⟨post1, k2, hp⟩
        · subst hp
          obtain ⟨h1, h2⟩ := List.append_inj' h rfl
          simp only [List.cons.injEq, and_true] at h2
          subst h1
          subst h2
          exact ⟨x, s1, hr, (getProp_isOk B s1 x a).1 hok⟩
        · subst hp
          have h3 : l ++ [a] = (pre ++ k :: post1) ++ [k2] := by simpa using h
          obtain ⟨h1, -⟩ := List.append_inj' h3 rfl
          exact ih.1 (by rw [hr]; rfl) pre k post1 h1
    · intro H
      have hl := ih.2 (fun pre k post h => H pre k (post ++ [a]) (by simp [h]))
      obtain ⟨x, s1, hr, hc⟩ := H l a [] rfl
      rw [hr]
      exact (getProp_isOk B s1 x a).2 hc

theorem get_isOk (B : Builtins) (s : State) (w : Nat) :
    (Watcher.get B s w).isOk =
      (getVMVal B (setTarget s (some w)) (s.watchers w).vm (s.watchers w).exp).isOk := by
  unfold Watcher.get
  simp only []
  cases getVMVal B (setTarget s (some w)) (s.watchers w).vm (s.watchers w).exp <;> rfl

theorem newWatcher_isOk (B : Builtins) (s : State) (vm : Val) (exp : String) :
    (newWatcher B s vm exp).isOk =
      (getVMVal B (setTarget (allocWatcher s vm exp) (some s.nextWatcher)) vm exp).isOk := by
  have h := get_isOk B (allocWatcher s vm exp) s.nextWatcher
  simp only [allocWatcher, Function.update_same] at h
  unfold newWatcher
  simp only []
  rw [← h]
  cases Watcher.get B (allocWatcher s vm exp) s.nextWatcher <;> rfl

theorem update_isOk (B : Builtins) (s : State) (w : Nat) :
    (Watcher.update B s w).isOk = (Watcher.get B (log s (Event.update w)) w).isOk := by
  unfold Watcher.update Watcher.run
  cases Watcher.get B (log s (Event.update w)) w <;> rfl

/-- Line 30 at work on an array: root `{ list: [10, 20] }`, observed. The write
`root.list = 5` converts the array held by the cell to a string, which reads
the elements 0 and 1 through their accessors. -/
theorem array_conversion_reads_elements :
    (final listBuiltins heapList
      [.observe 12 (.obj 0), .write (.obj 0) "list" (.num 5)]).trace
      = [.read 0, .read 1] := by
  decide

/-! ## The claims -/


/-- C1, the claim fails for a value without a string conversion and for a key
that holds a dot. Root `{ msg: "hi" }`, observed, one Observer on `"msg"`: the
write `root.msg = { toString: 1 }` raises a `TypeError` on line 30 and the
callback is not called. Root `{ "a.b": "hi" }`, observed: the construction of
an Observer on `"a.b"` raises (the path is split at the dot, and `root.a` is
`undefined`), and the write `root["a.b"] = "bye"` calls no callback. -/
theorem first_write_without_callback :
    (setProp noBuiltins (final noBuiltins (withNoString heapMsg 9)
      [.observe 10 (.obj 0), .watch (.obj 0) "msg"]) (.obj 0) "msg" (.obj 9)).isOk = false ∧
    callbacks (final noBuiltins (withNoString heapMsg 9)
      [.observe 10 (.obj 0), .watch (.obj 0) "msg", .write (.obj 0) "msg" (.obj 9)]).trace
      = [] ∧
    (newWatcher noBuiltins (final noBuiltins heapDot [.observe 10 (.obj 0)])
      (.obj 0) "a.b").isOk = false ∧
    (setProp noBuiltins (final noBuiltins heapDot
      [.observe 10 (.obj 0), .watch (.obj 0) "a.b"]) (.obj 0) "a.b" (.str "bye")).isOk = true ∧
    callbacks (final noBuiltins heapDot
      [.observe 10 (.obj 0), .watch (.obj 0) "a.b",
       .write (.obj 0) "a.b" (.str "bye")]).trace = [] := by
  decide

/-- C1 as amended: on a root whose key `k`, which holds no dot, is a reactive
cell holding `v0`, with no observer yet on that cell, constructing one
Observer on the path `k` returns; a write `root.k = v` that returns then has
called the callback exactly once, with `(v, v0)`; and when `v0` and `v` are
`undefined`, `null`, booleans, numbers or strings the write returns, and adds
to the trace one `update`, one read of the cell and that callback. -/
theorem first_write_calls_back_once (B : Builtins) (s : State) (a c : Nat) (k : String)
    (v0 v : Val) (hk : '.' ∉ k.toList)
    (hslot : lookup k (s.objs a).props = some (.accessor c))
    (hval : (s.cells c).val = v0)
    (hsingle : (s.deps (s.cells c).dep).watchers = []) :
    ∃ s1, newWatcher B s (.obj a) k = .ok s.nextWatcher s1 ∧
      (∀ s2, setProp B s1 (.obj a) k v = .ok () s2 →
        callbacks s2.trace = callbacks s1.trace ++ [(s.nextWatcher, v, v0)]) ∧
      (v0.isPrimitive = true → v.isPrimitive = true →
        ∃ s2, setProp B s1 (.obj a) k v = .ok () s2 ∧
          s2.trace = s1.trace ++
            [Event.update s.nextWatcher, Event.read c, Event.callback s.nextWatcher v v0]) := by
  obtain ⟨s1, h1, hobjs, hcells, hws, hid, hw, -, htgt⟩ := newWatcher_single B s a c k hk hslot
  have hslot1 : lookup k (s1.objs a).props = some (.accessor c) := by rw [hobjs]; exact hslot
  have hws1 : (s1.deps (s1.cells c).dep).watchers = [s.nextWatcher] := by
    rw [hcells, hws, hsingle]; rfl
  refine ⟨s1, h1, ?_, ?_⟩
  · intro s2 hwrite
    rw [setProp_accessor B s1 a c k v hslot1] at hwrite
    have hf := logChange_frame B s1 c v
    have hcb := logChange_callbacks B s1 c v
    obtain ⟨hdeps, hwat⟩ := logChange_no_target B s1 c v htgt
    cases hlc : logChange B s1 c v with
    | throw t => rw [reactiveSet_throw B s1 c v t hlc] at hwrite; cases hwrite
    | ok u t =>
      rw [hlc] at hf hcb hdeps hwat
      have ho : t.objs = s1.objs := hf.objs
      have hc : t.cells = s1.cells := hf.cells
      have hd : t.deps = s1.deps := hdeps
      have hwt : t.watchers = s1.watchers := hwat
      obtain ⟨s3, h3, ht⟩ := notify_single B t a c s.nextWatcher k v hk
        (by rw [ho]; exact hslot1) (by rw [hc, hd]; exact hws1)
        (by rw [hwt, hw]) (by rw [hwt, hw])
        (by rw [hwt, hw, hd, hc, hcells, hid]; simp [hasOwnProperty])
      rw [reactiveSet_ok B s1 c v t hlc, ← hc, h3] at hwrite
      cases hwrite
      have hcb1 : callbacks t.trace = callbacks s1.trace := hcb
      rw [ht, callbacks_append, hcb1, hwt, hw, hval]
      rfl
  · intro hp0 hpv
    obtain ⟨s2, h2, ht⟩ := notify_single B s1 a c s.nextWatcher k v hk hslot1 hws1
      (by rw [hw]) (by rw [hw]) (by rw [hw, hcells, hid]; simp [hasOwnProperty])
    refine ⟨s2, ?_, ?_⟩
    · rw [setProp_primitive B s1 a c k v hslot1 (by rw [hcells, hval]; exact hp0) hpv]
      exact h2
    · rw [ht, hw, hval]

/-- C1 as amended, at the spec's example: root `{ msg: "hi" }`, observed, one
Observer on `"msg"`; writing `"bye"` returns and records exactly the pair
`("bye", "hi")`. -/
theorem first_write_calls_back_once_witness :
    ∃ s1, newWatcher noBuiltins (final noBuiltins heapMsg [.observe 10 (.obj 0)])
        (.obj 0) "msg" = .ok 0 s1 ∧
      ∃ s2, setProp noBuiltins s1 (.obj 0) "msg" (.str "bye") = .ok () s2 ∧
        s2.trace = s1.trace ++
          [Event.update 0, Event.read 0, Event.callback 0 (.str "bye") (.str "hi")] := by
  obtain ⟨s1, h1, -, h3⟩ := first_write_calls_back_once noBuiltins
    (final noBuiltins heapMsg [.observe 10 (.obj 0)]) 0 0
    "msg" (.str "hi") (.str "bye") (by decide) (by decide) (by decide) (by decide)
  exact ⟨s1, h1, h3 rfl rfl⟩

/-- C2: the code at the failing input. Root `{ a: 1 }`, observed, one
Observer on `"a"`, then `root.a = 2` and `root.a = 3`: the second callback
receives `(3, 1)`, the initial value as `oldValue`, not `(3, 2)`, because
`run` never stores the value it computed in `this.value`. -/
theorem second_write_passes_initial_value :
    callbacks (final noBuiltins heapA
      [.observe 10 (.obj 0), .watch (.obj 0) "a",
       .write (.obj 0) "a" (.num 2), .write (.obj 0) "a" (.num 3)]).trace
      = [(0, .num 2, .num 1), (0, .num 3, .num 1)] := by
  decide

/-- C3: the code at the failing input. Root `{ a: { b: 1 } }`, observed, one
Observer on `"a.b"`; `root.a.b = 2` calls back with 2, `root.a = { b: 5 }`
calls back with 5, and `root.a.b = 6`, a write to the new object, calls
nothing: the accessor `set` does not pass the new value to `observe`, so
the new object has no reactive cell. The write itself took place: `root.a.b`
reads 6 afterwards. -/
theorem write_to_replacing_object_is_silent :
    callbacks (final noBuiltins heapNested
      [.observe 10 (.obj 0), .watch (.obj 0) "a.b",
       .read (.obj 0) "a", .write (.obj 1) "b" (.num 2),
       .write (.obj 0) "a" (.obj 2),
       .read (.obj 0) "a", .write (.obj 2) "b" (.num 6)]).trace
      = [(0, .num 2, .num 1), (0, .num 5, .num 1)] ∧
    (getVMVal noBuiltins (final noBuiltins heapNested
      [.observe 10 (.obj 0), .watch (.obj 0) "a.b",
       .read (.obj 0) "a", .write (.obj 1) "b" (.num 2),
       .write (.obj 0) "a" (.obj 2),
       .read (.obj 0) "a", .write (.obj 2) "b" (.num 6)]) (.obj 0) "a.b").val? = some (.num 6) := by
  decide

/-- C4, the claim fails in its second half: on root `{ a: { b: 1 } }`, observed,
with one Observer on `"a.b"` (subscribed to the cell `a`), the write
`root.a = null` raises a `TypeError` in the Observer's re-evaluation and its
callback is called zero times, not once. -/
theorem subscribed_observer_not_called_when_write_raises :
    lookup "a" ((final noBuiltins heapNested
      [.observe 10 (.obj 0), .watch (.obj 0) "a.b"]).objs 0).props = some (.accessor 1) ∧
    0 ∈ ((final noBuiltins heapNested [.observe 10 (.obj 0), .watch (.obj 0) "a.b"]).deps
      ((final noBuiltins heapNested
        [.observe 10 (.obj 0), .watch (.obj 0) "a.b"]).cells 1).dep).watchers ∧
    (setProp noBuiltins (final noBuiltins heapNested
      [.observe 10 (.obj 0), .watch (.obj 0) "a.b"]) (.obj 0) "a" .null).isOk = false ∧
    cbCount 0 (setProp noBuiltins (final noBuiltins heapNested
      [.observe 10 (.obj 0), .watch (.obj 0) "a.b"]) (.obj 0) "a" .null).state.trace = 0 := by
  decide

/-- C4 as amended: in every reachable state no Subject's observer list
contains the same Observer twice; hence a single write to a cell calls the
callback of each Observer at most once, and exactly once for each subscribed
Observer when the write returns (no re-evaluation raises a `TypeError`). -/
theorem no_duplicate_subscription (B : Builtins) (s : State) (h : Reachable B s) :
    (∀ d, (s.deps d).watchers.Nodup) ∧
    ∀ a c k x w, lookup k (s.objs a).props = some (.accessor c) →
      cbCount w (setProp B s (.obj a) k x).state.trace ≤ cbCount w s.trace + 1 ∧
      ((setProp B s (.obj a) k x).isOk = true → w ∈ (s.deps (s.cells c).dep).watchers →
        cbCount w (setProp B s (.obj a) k x).state.trace = cbCount w s.trace + 1) := by
  have hs := h.subsOk
  refine ⟨hs.nodup, ?_⟩
  intro a c k x w hslot
  obtain ⟨L, hL, hpre, hok⟩ := setProp_callbacks B s a c k x hslot
  have hcount := cbCount_of_callbacks w _ _ L hL
  have hnd := (logChange_subsOk B s c x hs).nodup (s.cells c).dep
  constructor
  · rw [hcount]
    have h1 := hpre.sublist.count_le w
    have h2 := List.nodup_iff_count_le_one.1 hnd w
    omega
  · intro hk hmem
    rw [hcount, hok hk, List.count_eq_one_of_mem hnd
      (((logChange_frame B s c x).subs _).subset hmem)]

/-- C4 as amended, at root `{ msg: "hi" }` with one Observer on `"msg"`, which
has read the cell twice (construction and one re-evaluation): the list holds
it once and the write `root.msg = "bye"` calls its callback once. -/
theorem no_duplicate_subscription_witness :
    (∀ d, ((final noBuiltins heapMsg
      [.observe 10 (.obj 0), .watch (.obj 0) "msg", .write (.obj 0) "msg" (.str "x")]).deps
        d).watchers.Nodup) ∧
    cbCount 0 (setProp noBuiltins (final noBuiltins heapMsg
      [.observe 10 (.obj 0), .watch (.obj 0) "msg", .write (.obj 0) "msg" (.str "x")])
      (.obj 0) "msg" (.str "bye")).state.trace =
    cbCount 0 (final noBuiltins heapMsg
      [.observe 10 (.obj 0), .watch (.obj 0) "msg", .write (.obj 0) "msg" (.str "x")]).trace
      + 1 :=
  ⟨(no_duplicate_subscription noBuiltins _
      ⟨heapMsg, [.observe 10 (.obj 0), .watch (.obj 0) "msg", .write (.obj 0) "msg" (.str "x")],
        heapMsg_plain, rfl⟩).1,
   ((no_duplicate_subscription noBuiltins _
      ⟨heapMsg, [.observe 10 (.obj 0), .watch (.obj 0) "msg", .write (.obj 0) "msg" (.str "x")],
        heapMsg_plain, rfl⟩).2
      0 0 "msg" (.str "bye") 0 (by decide)).2 (by decide) (by decide)⟩

/-- C5, the claim fails: on root `{ a: { b: 1 } }`, observed, with two Observers
constructed on the path `"a.b"` (both subscribed to the cell `a`), the single
write `root.a = undefined` raises a `TypeError` in the first re-evaluation and
calls no callback at all. -/
theorem write_raising_calls_no_observer :
    ((final noBuiltins heapNested
      [.observe 10 (.obj 0), .watch (.obj 0) "a.b", .watch (.obj 0) "a.b"]).deps 0).watchers
      = [0, 1] ∧
    (setProp noBuiltins (final noBuiltins heapNested
      [.observe 10 (.obj 0), .watch (.obj 0) "a.b", .watch (.obj 0) "a.b"])
      (.obj 0) "a" .undefined).isOk = false ∧
    callbacks (setProp noBuiltins (final noBuiltins heapNested
      [.observe 10 (.obj 0), .watch (.obj 0) "a.b", .watch (.obj 0) "a.b"])
      (.obj 0) "a" .undefined).state.trace = [] := by
  decide

/-- C5 as amended: in a reachable state let `n` Observers be constructed one
after the other on the same root and path `P`, every construction returning
(at least one, or none with no Observer left installed in `Dep.target`), and
let `k` be a reactive cell on `P` (the property `k` of the object that a
prefix of `P` leads to). A single write to that cell that returns (no
re-evaluation raises a `TypeError`) calls the callbacks of the Observers
subscribed before, in their order, and then the callback of every new
Observer, in construction order. -/
theorem observers_called_in_construction_order (B : Builtins) (s : State)
    (h : Reachable B s) (vm : Val) (exp : String) (n : Nat) (ws : List Nat) (s1 : State)
    (hn : s.target = none ∨ 0 < n) (hnew : newWatchers B s vm exp n = .ok ws s1)
    (pre post : List String) (k : String) (a c : Nat)
    (hpath : split exp = pre ++ k :: post)
    (hpre : (resolve B s vm pre).val? = some (.obj a))
    (hslot : lookup k (s.objs a).props = some (.accessor c))
    (x : Val) (s2 : State) (hwrite : setProp B s1 (.obj a) k x = .ok () s2) :
    ws = List.range' s.nextWatcher n ∧
    ∃ L, callbacks s2.trace = callbacks s1.trace ++ L ∧
      L.map Prod.fst = (s.deps (s.cells c).dep).watchers ++ ws := by
  obtain ⟨h1, h2, h3, h4⟩ := newWatchers_subscribe B vm exp pre post k a c hpath n s ws s1
    h.subsOk h.heapOk hnew hpre hslot
  refine ⟨h4, ?_⟩
  obtain ⟨L, hL, -, hok⟩ := setProp_callbacks B s1 a c k x (by rw [h2]; exact hslot)
  rw [hwrite] at hL hok
  refine ⟨L, hL, ?_⟩
  rw [hok rfl, (logChange_no_target B s1 c x
    (newWatchers_ok_target B vm exp n s ws s1 hn hnew)).1, h3, h1]

/-- C5 as amended, at root `{ a: { b: 1 } }`, observed, with two Observers on
`"a.b"`: the write `root.a.b = 2` calls the callback of Observer 0, then that
of Observer 1. -/
theorem observers_called_in_construction_order_witness :
    [0, 1] = List.range' (final noBuiltins heapNested [.observe 10 (.obj 0)]).nextWatcher 2 ∧
    ∃ L, callbacks (setProp noBuiltins (final noBuiltins heapNested
        [.observe 10 (.obj 0), .watch (.obj 0) "a.b", .watch (.obj 0) "a.b"])
        (.obj 1) "b" (.num 2)).state.trace =
      callbacks (final noBuiltins heapNested
        [.observe 10 (.obj 0), .watch (.obj 0) "a.b", .watch (.obj 0) "a.b"]).trace ++ L ∧
      L.map Prod.fst =
        ((final noBuiltins heapNested [.observe 10 (.obj 0)]).deps
          ((final noBuiltins heapNested [.observe 10 (.obj 0)]).cells 0).dep).watchers ++ [0, 1] :=
  observers_called_in_construction_order noBuiltins
    (final noBuiltins heapNested [.observe 10 (.obj 0)])
    ⟨heapNested, [.observe 10 (.obj 0)], heapNested_plain, rfl⟩ (.obj 0) "a.b" 2 [0, 1]
    (final noBuiltins heapNested
      [.observe 10 (.obj 0), .watch (.obj 0) "a.b", .watch (.obj 0) "a.b"])
    (Or.inr (by decide)) rfl
    ["a"] [] "b" 1 0 (by decide) (by decide) (by decide) (.num 2) _ rfl

/-- C6, the claim fails: root `{ msg: "hi" }` is observed; an Observer is
constructed on the path `"a.b"` against the empty object at address 5, which
is not instrumented and has no property `a`: its evaluation reads no
reactive cell (the trace stays empty) and raises, leaving the Observer in
`Dep.target`. The plain read `root.msg` then subscribes it; after the plain
writes that build `{ a: { b: 7 } }` at address 5, the write `root.msg = "bye"`
calls its `update` and its callback, with `(7, undefined)`. -/
theorem observer_without_reads_is_notified :
    (final noBuiltins heapMsg [.observe 10 (.obj 0), .watch (.obj 5) "a.b"]).trace = [] ∧
    0 ∈ ((final noBuiltins heapMsg
      [.observe 10 (.obj 0), .watch (.obj 5) "a.b", .read (.obj 0) "msg"]).deps 0).watchers ∧
    Event.update 0 ∈ (final noBuiltins heapMsg
      [.observe 10 (.obj 0), .watch (.obj 5) "a.b", .read (.obj 0) "msg",
       .write (.obj 7) "b" (.num 7), .write (.obj 5) "a" (.obj 7),
       .write (.obj 0) "msg" (.str "bye")]).trace ∧
    callbacks (final noBuiltins heapMsg
      [.observe 10 (.obj 0), .watch (.obj 5) "a.b", .read (.obj 0) "msg",
       .write (.obj 7) "b" (.num 7), .write (.obj 5) "a" (.obj 7),
       .write (.obj 0) "msg" (.str "bye")]).trace = [(0, .num 7, .undefined)] := by
  decide

/-- C6 as amended: when the construction of an Observer returns and its
tracked evaluation read no reactive cell, then after every later sequence of
operations the Observer is in no Subject's observer list, and neither its
`update` nor its callback has ever been called. -/
theorem observer_without_reads_never_notified (B : Builtins) (s : State) (h : Reachable B s)
    (vm : Val) (exp : String) (w : Nat) (s1 : State)
    (hnew : newWatcher B s vm exp = .ok w s1)
    (hzero : ∀ c, Event.read c ∉ s1.trace.drop s.trace.length)
    (ops : List Op) (s2 : State) (hrun : execAll B s1 ops = some s2) :
    (∀ d, w ∉ (s2.deps d).watchers) ∧ Event.update w ∉ s2.trace ∧
      ∀ v o, Event.callback w v o ∉ s2.trace := by
  have hs := h.subsOk
  obtain ⟨hw, hnext, htarget, t, htr, hall, hnil⟩ := newWatcher_reads B s vm exp w s1 hnew
  have ht : t = [] := by
    cases t with
    | nil => rfl
    | cons e t =>
      obtain ⟨c, hc⟩ := hall e (List.mem_cons_self _ _)
      exact absurd (by rw [htr]; simp [hc]) (hzero c)
  subst ht
  simp only [List.append_nil] at htr
  have hu : Unsubscribed w s1 := by
    refine ⟨by rw [hnext, hw]; exact Nat.lt_succ_self _, by rw [htarget]; simp, ?_, ?_⟩
    · intro d hmem
      rw [hnil rfl] at hmem
      have := hs.subsLt d w hmem
      omega
    · intro e he hew
      rw [htr] at he
      have := hs.traceLt e he w hew
      omega
  have hu2 := execAll_unsubscribed B w s1 ops s2 hu hrun
  refine ⟨hu2.notIn, ?_, ?_⟩
  · intro hmem
    exact hu2.silent _ hmem rfl
  · intro v o hmem
    exact hu2.silent _ hmem rfl

/-- C6 as amended, at root `{ msg: "hi" }`, observed: an Observer on the path
`"x"` against the empty object at address 5 reads no cell and returns; after
`root.msg = "bye"` and a read of `root.msg` it is in no list and was never
called. -/
theorem observer_without_reads_never_notified_witness :
    (∀ d, 0 ∉ ((final noBuiltins heapMsg
      [.observe 10 (.obj 0), .watch (.obj 5) "x", .write (.obj 0) "msg" (.str "bye"),
       .read (.obj 0) "msg"]).deps d).watchers) ∧
    Event.update 0 ∉ (final noBuiltins heapMsg
      [.observe 10 (.obj 0), .watch (.obj 5) "x", .write (.obj 0) "msg" (.str "bye"),
       .read (.obj 0) "msg"]).trace ∧
    ∀ v o, Event.callback 0 v o ∉ (final noBuiltins heapMsg
      [.observe 10 (.obj 0), .watch (.obj 5) "x", .write (.obj 0) "msg" (.str "bye"),
       .read (.obj 0) "msg"]).trace :=
  observer_without_reads_never_notified noBuiltins
    (final noBuiltins heapMsg [.observe 10 (.obj 0)])
    ⟨heapMsg, [.observe 10 (.obj 0)], heapMsg_plain, rfl⟩ (.obj 5) "x" 0
    (final noBuiltins heapMsg [.observe 10 (.obj 0), .watch (.obj 5) "x"]) rfl
    (by
      intro c
      rw [show (final noBuiltins heapMsg [.observe 10 (.obj 0), .watch (.obj 5) "x"]).trace = []
        from by decide]
      simp)
    [.write (.obj 0) "msg" (.str "bye"), .read (.obj 0) "msg"] _ rfl

/-- C7, the claim fails for a value without a string conversion: root
`{ msg: "hi" }`, observed, one Observer on `"msg"`. The write
`root.msg = { toString: 1 }` raises a `TypeError` on line 30, before
`val = newVal`, and the read `root.msg` that follows returns `"hi"`. -/
theorem write_of_unconvertible_value_not_stored :
    (setProp noBuiltins (final noBuiltins (withNoString heapMsg 9)
      [.observe 10 (.obj 0), .watch (.obj 0) "msg"]) (.obj 0) "msg" (.obj 9)).isOk = false ∧
    (getProp noBuiltins (setProp noBuiltins (final noBuiltins (withNoString heapMsg 9)
      [.observe 10 (.obj 0), .watch (.obj 0) "msg"]) (.obj 0) "msg" (.obj 9)).state
      (.obj 0) "msg").val? = some (.str "hi") := by
  decide

/-- C7 as amended: when `k` is a reactive cell of the object `O` and line 30 of
the write `O.k = v` returns, which it does when the value held and `v` have a
string conversion, as `undefined`, `null`, booleans, numbers and strings have,
and whenever the write returns, then the write followed by the read `O.k`
returns `v`, in every state (whatever Observers are subscribed, and whether
the write's notification returned or raised). -/
theorem write_then_read (B : Builtins) (s : State) (a c : Nat) (k : String) (v : Val)
    (hslot : lookup k (s.objs a).props = some (.accessor c)) :
    ((logChange B s c v).isOk = true →
      ∃ s2, getProp B (setProp B s (.obj a) k v).state (.obj a) k = .ok v s2) ∧
    ((setProp B s (.obj a) k v).isOk = true → (logChange B s c v).isOk = true) ∧
    ((s.cells c).val.isPrimitive = true → v.isPrimitive = true →
      (logChange B s c v).isOk = true) := by
  refine ⟨?_, ?_, ?_⟩
  · intro hok
    have hf0 := logChange_frame B s c v
    cases hlc : logChange B s c v with
    | throw t => rw [hlc] at hok; cases hok
    | ok u t =>
      rw [hlc] at hf0
      have ho : t.objs = s.objs := hf0.objs
      have hf := notify_frame B (setVal t c v) (s.cells c).dep
      have hslot2 : lookup k ((notify B (setVal t c v) (s.cells c).dep).state.objs a).props =
          some (.accessor c) := by
        rw [hf.objs]
        show lookup k (t.objs a).props = _
        rw [ho]
        exact hslot
      have hg := getProp_accessor B (notify B (setVal t c v) (s.cells c).dep).state a c k
        hslot2
      rw [hf.cells] at hg
      have hv : ((setVal t c v).cells c).val = v := by simp [setVal]
      rw [hv] at hg
      rw [setProp_accessor B s a c k v hslot, reactiveSet_ok B s c v t hlc]
      exact ⟨_, hg⟩
  · intro hok
    rw [setProp_accessor B s a c k v hslot] at hok
    cases hlc : logChange B s c v with
    | throw t => rw [reactiveSet_throw B s c v t hlc] at hok; cases hok
    | ok u t => rfl
  · intro h0 hv
    rw [logChange_primitive B s c v h0 hv]
    rfl

/-- C7 as amended, at root `{ msg: "hi" }` with one Observer subscribed: after
`root.msg = "bye"` the read `root.msg` returns `"bye"`. -/
theorem write_then_read_witness :
    ∃ s2, getProp noBuiltins (setProp noBuiltins
      (final noBuiltins heapMsg [.observe 10 (.obj 0), .watch (.obj 0) "msg"])
      (.obj 0) "msg" (.str "bye")).state (.obj 0) "msg" = .ok (.str "bye") s2 :=
  (write_then_read noBuiltins
    (final noBuiltins heapMsg [.observe 10 (.obj 0), .watch (.obj 0) "msg"]) 0 0 "msg"
    (.str "bye") (by decide)).1 (by decide)

/-- C8, the claim fails when a re-evaluation raises and when the value has no
string conversion. On root `{ a: { b: 1 } }`, observed, with one Observer on
`"a.b"`, after `root.a = null` the cell `a` holds `null` and the Observer is
subscribed to it; writing `null` again raises in the re-evaluation and the
callback is not called. On root `{ a: o }` with `o = { toString: 1 }`, observed,
with one Observer on `"a"`, writing `o` again raises a `TypeError` on line 30:
`update` is not called. -/
theorem rewrite_same_value_without_callback :
    ((final noBuiltins heapNested
      [.observe 10 (.obj 0), .watch (.obj 0) "a.b", .write (.obj 0) "a" .null]).cells 1).val
      = .null ∧
    0 ∈ ((final noBuiltins heapNested
      [.observe 10 (.obj 0), .watch (.obj 0) "a.b", .write (.obj 0) "a" .null]).deps 0).watchers ∧
    callbacks (final noBuiltins heapNested
      [.observe 10 (.obj 0), .watch (.obj 0) "a.b", .write (.obj 0) "a" .null,
       .write (.obj 0) "a" .null]).trace = [] ∧
    ((final noBuiltins heapNoString
      [.observe 10 (.obj 0), .watch (.obj 0) "a"]).cells 1).val = .obj 1 ∧
    ((final noBuiltins heapNoString
      [.observe 10 (.obj 0), .watch (.obj 0) "a"]).deps 0).watchers = [0] ∧
    (setProp noBuiltins (final noBuiltins heapNoString
      [.observe 10 (.obj 0), .watch (.obj 0) "a"]) (.obj 0) "a" (.obj 1)).isOk = false ∧
    updates (final noBuiltins heapNoString
      [.observe 10 (.obj 0), .watch (.obj 0) "a", .write (.obj 0) "a" (.obj 1)]).trace = [] := by
  decide

/-- C8 as amended: a write to a reactive cell makes no comparison with the
current value. When line 30 of the write returns, which it does when the value
held and the written value have a string conversion, as `undefined`, `null`,
booleans, numbers and strings have, the write stores the written value and
notifies, also when the two are equal: `update` is called on the first
subscribed Observer, and when the write returns (no re-evaluation raises a
`TypeError`) the callbacks called are those of the subscribed Observers, in
the order of the list, followed by that of an Observer that line 30
subscribed, which needs an Observer left installed in `Dep.target`. -/
theorem write_has_no_dirty_check (B : Builtins) (s : State) (a c : Nat) (k : String) (x : Val)
    (hslot : lookup k (s.objs a).props = some (.accessor c)) :
    ((logChange B s c x).isOk = true →
      ((setProp B s (.obj a) k x).state.cells c).val = x ∧
      (∀ w ws, (s.deps (s.cells c).dep).watchers = w :: ws →
        Event.update w ∈ (setProp B s (.obj a) k x).state.trace) ∧
      ((setProp B s (.obj a) k x).isOk = true →
        ∃ L, callbacks (setProp B s (.obj a) k x).state.trace = callbacks s.trace ++ L ∧
          (s.deps (s.cells c).dep).watchers <+: L.map Prod.fst ∧
          (s.target = none → L.map Prod.fst = (s.deps (s.cells c).dep).watchers))) ∧
    ((s.cells c).val.isPrimitive = true → x.isPrimitive = true →
      (logChange B s c x).isOk = true) := by
  refine ⟨?_, ?_⟩
  · intro hlog
    have hf0 := logChange_frame B s c x
    cases hlc : logChange B s c x with
    | throw t => rw [hlc] at hlog; cases hlog
    | ok u t =>
      rw [hlc] at hf0
      have hset := setProp_accessor B s a c k x hslot
      rw [reactiveSet_ok B s c x t hlc] at hset
      refine ⟨?_, ?_, ?_⟩
      · rw [hset, (notify_frame B (setVal t c x) (s.cells c).dep).cells]
        simp [setVal]
      · intro w ws hws
        rw [hset]
        obtain ⟨r, hr⟩ := hf0.subs (s.cells c).dep
        rw [hws] at hr
        have hn : notify B (setVal t c x) (s.cells c).dep =
            notifyLoop B (setVal t c x) (w :: (ws ++ r)) := by
          unfold notify
          rw [show ((setVal t c x).deps (s.cells c).dep).watchers = w :: (ws ++ r) from
            (by simpa using hr.symm)]
        rw [hn]
        unfold notifyLoop
        have hu : Event.update w ∈ (Watcher.update B (setVal t c x) w).state.trace :=
          (run_frame B _ w).trace.subset (by simp)
        cases hup : Watcher.update B (setVal t c x) w with
        | ok u1 s1 =>
          rw [hup] at hu
          exact (notifyLoop_frame B s1 (ws ++ r)).trace.subset hu
        | throw s1 =>
          rw [hup] at hu
          exact hu
      · intro hk
        obtain ⟨L, hL, -, hok⟩ := setProp_callbacks B s a c k x hslot
        refine ⟨L, hL, ?_, ?_⟩
        · rw [hok hk]
          exact (logChange_frame B s c x).subs _
        · intro ht
          rw [hok hk, (logChange_no_target B s c x ht).1]
  · intro h0 hx
    rw [logChange_primitive B s c x h0 hx]
    rfl

/-- C8 as amended, at the spec's example: root `{ a: 1 }`, observed, one
Observer on `"a"`; writing `1` again stores `1` and calls the callback with
`(1, 1)`. -/
theorem write_has_no_dirty_check_witness :
    ((setProp noBuiltins (final noBuiltins heapA [.observe 10 (.obj 0), .watch (.obj 0) "a"])
      (.obj 0) "a" (.num 1)).state.cells 0).val = .num 1 ∧
    callbacks (setProp noBuiltins (final noBuiltins heapA
      [.observe 10 (.obj 0), .watch (.obj 0) "a"]) (.obj 0) "a" (.num 1)).state.trace
      = [(0, .num 1, .num 1)] :=
  ⟨((write_has_no_dirty_check noBuiltins
      (final noBuiltins heapA [.observe 10 (.obj 0), .watch (.obj 0) "a"]) 0 0 "a" (.num 1)
      (by decide)).1 (by decide)).1, by decide⟩

/-- C9, the claim fails: on the root `{}` the path `"a.b"` raises a `TypeError`,
`root.a` being `undefined`; `getVMVal` does not return. It does not return
either on the root `{ f: () => 1 }` and the path `"f.caller"`: the value
reached before `caller` is a function, and the read raises a `TypeError`. -/
theorem getVMVal_raises_on_absent_intermediate :
    (getVMVal noBuiltins (initState heapEmpty) (.obj 0) "a.b").isOk = false ∧
    (getVMVal strictBuiltins (initState heapFn) (.obj 0) "f").val? = some (.func 0) ∧
    (getVMVal strictBuiltins (initState heapFn) (.obj 0) "f.caller").isOk = false := by
  decide

/-- C9 as amended: `getVMVal` returns exactly when, for every segment of the
path, the value reached before it (the root itself for the first segment) is
neither `undefined` nor `null` and the read of the segment is not one that a
prototype or a primitive value answers with a `TypeError`; otherwise it
raises. `Watcher.get`, the construction of a `Watcher` and `update` return
exactly when their `getVMVal` returns: they pass the error on. When the value
reached before the last segment is an object that lacks it, and the
prototype yields `undefined`, the result is `undefined` and nothing is
raised. -/
theorem getVMVal_returns_iff (B : Builtins) (s : State) (vm : Val) (exp : String) :
    ((getVMVal B s vm exp).isOk = true ↔
      ∀ pre k post, split exp = pre ++ k :: post →
        ∃ v s1, resolve B s vm pre = .ok v s1 ∧ v ≠ .undefined ∧ v ≠ .null ∧
          builtinRaises B s1 v k = false) ∧
    (∀ w, (Watcher.get B s w).isOk =
      (getVMVal B (setTarget s (some w)) (s.watchers w).vm (s.watchers w).exp).isOk) ∧
    ((newWatcher B s vm exp).isOk =
      (getVMVal B (setTarget (allocWatcher s vm exp) (some s.nextWatcher)) vm exp).isOk) ∧
    (∀ w, (Watcher.update B s w).isOk =
      (getVMVal B (setTarget (log s (Event.update w)) (some w)) (s.watchers w).vm
        (s.watchers w).exp).isOk) ∧
    (∀ a s1, resolve B s vm (split exp).dropLast = .ok (.obj a) s1 →
      lookup ((split exp).getLastD "") (s1.objs a).props = none →
      B.inherited a ((split exp).getLastD "") = some .undefined →
      getVMVal B s vm exp = .ok .undefined s1) := by
  refine ⟨resolve_isOk_iff B s vm (split exp), fun w => get_isOk B s w,
    newWatcher_isOk B s vm exp,
    fun w => (update_isOk B s w).trans (get_isOk B (log s (Event.update w)) w), ?_⟩
  intro a s1 hr hl hi
  have hsplit := split_eq_prefix_last exp
  have hres : getVMVal B s vm exp =
      match resolve B s vm (split exp).dropLast with
      | .ok x s1 => getProp B s1 x ((split exp).getLastD "")
      | .throw s1 => .throw s1 := by
    unfold getVMVal
    have h := resolve_append B s vm (split exp).dropLast ((split exp).getLastD "")
    rw [← hsplit] at h
    exact h
  rw [hres, hr]
  simp only [getProp, hl, hi]

/-- C9 as amended, at root `{ a: { b: 1 } }`: the path `"a.b"` returns, `root`
and `root.a` being objects, and so does the path `"a.x"`, whose last segment
is absent from `root.a`: the result is `undefined`. -/
theorem getVMVal_returns_iff_witness :
    ((getVMVal noBuiltins (initState heapNested) (.obj 0) "a.b").isOk = true ↔
      ∀ pre k post, split "a.b" = pre ++ k :: post →
        ∃ v s1, resolve noBuiltins (initState heapNested) (.obj 0) pre = .ok v s1 ∧
          v ≠ .undefined ∧ v ≠ .null ∧ builtinRaises noBuiltins s1 v k = false) ∧
    getVMVal noBuiltins (initState heapNested) (.obj 0) "a.x"
      = .ok .undefined (initState heapNested) :=
  ⟨(getVMVal_returns_iff noBuiltins (initState heapNested) (.obj 0) "a.b").1,
   (getVMVal_returns_iff noBuiltins (initState heapNested) (.obj 0) "a.x").2.2.2.2 1
     (initState heapNested) rfl (by decide) rfl⟩

/-- C10, the claim fails: on the root `{ msg: "hi" }`, observed, constructing
an Observer on the path `"a.b"` against the empty object at address 5 raises
(`a` is absent), and `Dep.target` is left holding that Observer; the plain
read `root.msg` that follows subscribes it to the cell `msg`. -/
theorem target_left_installed_after_raise :
    (final noBuiltins heapMsg [.observe 10 (.obj 0), .watch (.obj 5) "a.b"]).target = some 0 ∧
    ((final noBuiltins heapMsg
      [.observe 10 (.obj 0), .watch (.obj 5) "a.b", .read (.obj 0) "msg"]).deps 0).watchers
      = [0] := by
  decide

/-- C10 as amended: after every call of `Watcher.get` that returns (so after
every Watcher construction and every update that returns), `Dep.target` is
`null`; hence in every state reached through operations none of which raised,
no Observer is installed, and a plain read of any property changes no
Subject's observer list and no Observer's subscribed-id set. -/
theorem target_null_after_returning_get (B : Builtins) :
    (∀ s w v s1, Watcher.get B s w = .ok v s1 → s1.target = none) ∧
    (∀ s vm exp w s1, newWatcher B s vm exp = .ok w s1 → s1.target = none) ∧
    (∀ s w s1, Watcher.update B s w = .ok () s1 → s1.target = none) ∧
    (∀ objs ops s, execAllOk B (initState objs) ops = some s →
      s.target = none ∧
      ∀ v k, (getProp B s v k).state.deps = s.deps ∧
        (getProp B s v k).state.watchers = s.watchers) :=
  ⟨get_ok_target B, newWatcher_ok_target B, update_ok_target B,
    fun _ ops s h =>
      ⟨execAllOk_target B _ ops s rfl h,
        fun v k => getProp_no_target B s v k (execAllOk_target B _ ops s rfl h)⟩⟩

/-- C10 as amended, at root `{ msg: "hi" }`: after `observe` and the
construction of an Observer on `"msg"`, both returning, `Dep.target` is `null`
and the read `root.msg` leaves the observer list of the cell as it was. -/
theorem target_null_after_returning_get_witness :
    (newWatcher noBuiltins (final noBuiltins heapMsg [.observe 10 (.obj 0)])
      (.obj 0) "msg").state.target = none ∧
    (final noBuiltins heapMsg [.observe 10 (.obj 0), .watch (.obj 0) "msg"]).target = none ∧
    (getProp noBuiltins (final noBuiltins heapMsg [.observe 10 (.obj 0), .watch (.obj 0) "msg"])
      (.obj 0) "msg").state.deps =
      (final noBuiltins heapMsg [.observe 10 (.obj 0), .watch (.obj 0) "msg"]).deps :=
  ⟨(target_null_after_returning_get noBuiltins).2.1
      (final noBuiltins heapMsg [.observe 10 (.obj 0)]) (.obj 0) "msg" 0 _ rfl,
    ((target_null_after_returning_get noBuiltins).2.2.2 heapMsg
      [.observe 10 (.obj 0), .watch (.obj 0) "msg"] _ rfl).1,
    (((target_null_after_returning_get noBuiltins).2.2.2 heapMsg
      [.observe 10 (.obj 0), .watch (.obj 0) "msg"] _ rfl).2 (.obj 0) "msg").1⟩

/-- C11, the claim fails for a written value without a string conversion: root
`{ a: { b: 1 } }`, observed, with one Observer on `"a.b"`, which the Subject of
the nested property `b` lists. The write `root.a.b = { toString: 1 }` raises a
`TypeError` on line 30 and does not reach `dep.notify()`: no `update` is
called. -/
theorem nested_write_without_notify :
    ((final noBuiltins (withNoString heapNested 9)
      [.observe 10 (.obj 0), .watch (.obj 0) "a.b"]).deps 1).watchers = [0] ∧
    ((final noBuiltins (withNoString heapNested 9)
      [.observe 10 (.obj 0), .watch (.obj 0) "a.b"]).cells 0).dep = 1 ∧
    lookup "b" ((final noBuiltins (withNoString heapNested 9)
      [.observe 10 (.obj 0), .watch (.obj 0) "a.b"]).objs 1).props = some (.accessor 0) ∧
    (setProp noBuiltins (final noBuiltins (withNoString heapNested 9)
      [.observe 10 (.obj 0), .watch (.obj 0) "a.b"]) (.obj 1) "b" (.obj 9)).isOk = false ∧
    updates (final noBuiltins (withNoString heapNested 9)
      [.observe 10 (.obj 0), .watch (.obj 0) "a.b", .write (.obj 1) "b" (.obj 9)]).trace
      = [] := by
  decide

/-- C11 as amended: on a finite tree-shaped object of plain data, `observe`
returns (within any bound of at least the size of the tree), and afterwards
every enumerable property of the root and of every nested object reached
through such properties is an accessor with a closure created by this call,
which holds the value the property had before and a Subject created by this
call, with no observer yet; reading the property returns the same value as
before; a write of it whose line 30 returns runs `notify` of that Subject on
the state with the value stored, and line 30 returns, changing nothing, when
the value held and the written value are `undefined`, `null`, booleans, numbers
or strings; and the properties of the tree have pairwise distinct Subjects.
The properties that are not enumerable are the data properties they were. -/
theorem observe_instruments_tree (B : Builtins) (s : State) (t : Tree) (fuel : Nat)
    (hfuel : t.size ≤ fuel) (hh : t.Holds s.objs) (hnd : t.addrs.Nodup) :
    ∃ s1, observe B fuel s t.val = some (.ok () s1) ∧
      (∀ a k v, (a, k, v, true) ∈ t.entries →
        ∃ c, lookup k (s1.objs a).props = some (.accessor c) ∧
          s.nextCell ≤ c ∧ (s1.cells c).val = v ∧
          s.nextDep ≤ (s1.cells c).dep ∧ (s1.deps (s1.cells c).dep).watchers = [] ∧
          (getProp B s (.obj a) k).val? = some v ∧
          (getProp B s1 (.obj a) k).val? = some v ∧
          (∀ x s2, logChange B s1 c x = .ok () s2 →
            setProp B s1 (.obj a) k x = notify B (setVal s2 c x) (s1.cells c).dep) ∧
          (v.isPrimitive = true → ∀ x, x.isPrimitive = true →
            setProp B s1 (.obj a) k x = notify B (setVal s1 c x) (s1.cells c).dep)) ∧
      (∀ a k v a1 k1 v1 c c1, (a, k, v, true) ∈ t.entries → (a1, k1, v1, true) ∈ t.entries →
        lookup k (s1.objs a).props = some (.accessor c) →
        lookup k1 (s1.objs a1).props = some (.accessor c1) →
        (s1.cells c).dep = (s1.cells c1).dep → a = a1 ∧ k = k1) ∧
      (∀ a k v, (a, k, v, false) ∈ t.entries →
        lookup k (s1.objs a).props = some (.data v false)) := by
  obtain ⟨s1, h1, g, i, -⟩ := Tree.observe_ok B t s fuel hfuel hh hnd
  refine ⟨s1, h1, ?_, ?_, i.plain⟩
  · intro a k v hm
    obtain ⟨c, c1, c2, c3, c4⟩ := i.cell a k v hm
    obtain ⟨d1, d2⟩ := g.newCellDep c c1 c2
    refine ⟨c, c3, c1, c4, d1, g.newDepEmpty _ d1 d2, ?_, ?_, ?_, ?_⟩
    · rw [getProp_data B s a k v true (Tree.holds_lookup t s.objs a k v true hh hm)]
      rfl
    · rw [getProp_accessor B s1 a c k c3, c4]
      rfl
    · intro x s2 hlog
      rw [setProp_accessor B s1 a c k x c3, reactiveSet_ok B s1 c x s2 hlog]
    · intro hv x hx
      exact setProp_primitive B s1 a c k x c3 (by rw [c4]; exact hv) hx
  · intro a k v a1 k1 v1 c c1 hm hm1 hl hl1 hd
    obtain ⟨c0, e1, e2, e3, -⟩ := i.cell a k v hm
    obtain ⟨c01, f1, f2, f3, -⟩ := i.cell a1 k1 v1 hm1
    rw [e3] at hl
    rw [f3] at hl1
    have hc : c0 = c := by
      simpa using hl
    have hc1 : c01 = c1 := by
      simpa using hl1
    subst hc
    subst hc1
    have hcc := g.ownDep c0 c01 e1 e2 f1 f2 hd
    subst hcc
    exact i.distinct a k v a1 k1 v1 c0 hm hm1 e3 f3

/-- C11 as amended, at root `{ a: { b: 1 } }`: `observe(root)` returns, and afterwards the
nested property `b` is a reactive cell that holds the value 1. -/
theorem observe_instruments_tree_witness :
    ∃ s1, observe noBuiltins 10 (initState heapNested) (.obj 0) = some (.ok () s1) ∧
      ∃ c, lookup "b" (s1.objs 1).props = some (.accessor c) ∧ (s1.cells c).val = .num 1 := by
  obtain ⟨s1, h1, h2, -⟩ := observe_instruments_tree noBuiltins (initState heapNested)
    treeNested 10 (by decide) treeNested_holds (by decide)
  obtain ⟨c, hc⟩ := h2 1 "b" (.num 1) (by decide)
  exact ⟨s1, h1, c, hc.1, hc.2.2.1⟩

/-- C12, the claim fails in its last part: root `{ a: { b: 1 } }` is observed, an
Observer 0 is constructed on `"a.b"` and then an Observer 1 on `"a"`, which
returns and is subscribed to the cell `a`. The later write `root.a = null`
calls `update` on Observer 0 only: its re-evaluation raises a `TypeError`,
which ends the `forEach` before Observer 1 is notified. -/
theorem later_write_does_not_reach_observer :
    ((final noBuiltins heapNested
      [.observe 10 (.obj 0), .watch (.obj 0) "a.b", .watch (.obj 0) "a"]).deps 0).watchers
      = [0, 1] ∧
    updates (setProp noBuiltins (final noBuiltins heapNested
      [.observe 10 (.obj 0), .watch (.obj 0) "a.b", .watch (.obj 0) "a"])
      (.obj 0) "a" .null).state.trace = [0] := by
  decide

/-- C12 as amended: when the construction of a Watcher on a reachable state
returns, it has performed one tracked evaluation and called no `update` and no
callback (the trace grew by the cell reads of one resolution of the path); the
Watcher's stored value is the value the path resolves to; it is appended
once to the list of the Subject of every reactive cell on the path (the
property `k` of the object a prefix of the path leads to) and the list of no
other Subject changes; and after any later operations, a write to such a cell
that returns (no `update` raises a `TypeError`) calls its `update`. -/
theorem construction_subscribes_to_path (B : Builtins) (s : State) (h : Reachable B s)
    (vm : Val) (exp : String) (w : Nat) (s1 : State)
    (hnew : newWatcher B s vm exp = .ok w s1) :
    s1.trace = (getVMVal B s vm exp).state.trace ∧
    updates s1.trace = updates s.trace ∧ callbacks s1.trace = callbacks s.trace ∧
    (getVMVal B s vm exp).val? = some (s1.watchers w).value ∧
    (∀ pre k post a c, split exp = pre ++ k :: post →
      (resolve B s vm pre).val? = some (.obj a) →
      lookup k (s.objs a).props = some (.accessor c) →
      (s1.deps (s.cells c).dep).watchers = (s.deps (s.cells c).dep).watchers ++ [w] ∧
      ∀ ops s2 x, execAll B s1 ops = some s2 →
        lookup k (s2.objs a).props = some (.accessor c) →
        (setProp B s2 (.obj a) k x).isOk = true →
        (updates s2.trace).count w <
          (updates (setProp B s2 (.obj a) k x).state.trace).count w) ∧
    (∀ d, (s1.deps d).watchers ≠ (s.deps d).watchers →
      ∃ pre k post a c, split exp = pre ++ k :: post ∧
        (resolve B s vm pre).val? = some (.obj a) ∧
        lookup k (s.objs a).props = some (.accessor c) ∧ (s.cells c).dep = d) := by
  obtain ⟨h1, h2, -, -, h5⟩ := newWatcher_spec B s vm exp w s1 hnew
  have hh := h.heapOk
  refine ⟨h1, ?_, ?_, h2, ?_, h5⟩
  · rw [h1]
    exact resolve_updates B s vm (split exp)
  · rw [h1]
    exact resolve_callbacks B s vm (split exp)
  · intro pre k post a c hpath hpre hslot
    have hsub := newWatcher_subscribes B s vm exp w s1 pre post k a c h.subsOk hh hnew hpath
      hpre hslot
    refine ⟨hsub, ?_⟩
    intro ops s2 x hrun hslot2 hok
    have hc : c < s.nextCell := hh.slotLt a k c hslot
    have hd : (s.cells c).dep < s.nextDep := hh.cellDepLt c hc
    obtain ⟨hcells1, hnd1⟩ : s1.cells = s.cells ∧ s1.nextDep = s.nextDep := by
      have := newWatcher_data B s vm exp
      have hn := (newWatcher_nextDep B s vm exp).1
      rw [hnew] at this hn
      exact ⟨this.2, hn⟩
    have hnc1 : s1.nextCell = s.nextCell := by
      have hf := get_frame B (allocWatcher s vm exp) s.nextWatcher
      unfold newWatcher at hnew
      simp only at hnew
      cases hg : Watcher.get B (allocWatcher s vm exp) s.nextWatcher with
      | throw t => rw [hg] at hnew; cases hnew
      | ok y t =>
        rw [hg] at hnew hf
        simp only [Res.ok.injEq] at hnew
        obtain ⟨-, rfl⟩ := hnew
        exact hf.nextCell
    obtain ⟨-, hdep2⟩ := execAll_cellDep B s1 ops s2 hrun
    obtain ⟨-, hret⟩ := execAll_retains B s1 ops s2 hrun
    have hmem : w ∈ (s2.deps (s2.cells c).dep).watchers := by
      rw [hdep2 c (by omega), hcells1]
      apply (hret _ (by omega)).subset
      rw [hsub]
      simp
    obtain ⟨U, hU, -, hall⟩ := setProp_updates B s2 a c k x hslot2
    rw [hU, hall hok, List.count_append]
    have := List.count_pos_iff.2 (((logChange_frame B s2 c x).subs _).subset hmem)
    omega

/-- C12 as amended, at root `{ a: { b: 1 } }`, observed: the construction of an
Observer on `"a.b"` stores the value 1, calls no callback, and appends the
Observer to the list of the Subject of the cell `b`. -/
theorem construction_subscribes_to_path_witness :
    (getVMVal noBuiltins (final noBuiltins heapNested [.observe 10 (.obj 0)]) (.obj 0)
      "a.b").val? = some ((final noBuiltins heapNested
        [.observe 10 (.obj 0), .watch (.obj 0) "a.b"]).watchers 0).value ∧
    callbacks (final noBuiltins heapNested
      [.observe 10 (.obj 0), .watch (.obj 0) "a.b"]).trace =
      callbacks (final noBuiltins heapNested [.observe 10 (.obj 0)]).trace ∧
    ((final noBuiltins heapNested [.observe 10 (.obj 0), .watch (.obj 0) "a.b"]).deps
      ((final noBuiltins heapNested [.observe 10 (.obj 0)]).cells 0).dep).watchers =
      ((final noBuiltins heapNested [.observe 10 (.obj 0)]).deps
        ((final noBuiltins heapNested [.observe 10 (.obj 0)]).cells 0).dep).watchers ++ [0] :=
  ⟨(construction_subscribes_to_path noBuiltins
      (final noBuiltins heapNested [.observe 10 (.obj 0)])
      ⟨heapNested, [.observe 10 (.obj 0)], heapNested_plain, rfl⟩ (.obj 0) "a.b" 0
      (final noBuiltins heapNested [.observe 10 (.obj 0), .watch (.obj 0) "a.b"]) rfl).2.2.2.1,
   (construction_subscribes_to_path noBuiltins
      (final noBuiltins heapNested [.observe 10 (.obj 0)])
      ⟨heapNested, [.observe 10 (.obj 0)], heapNested_plain, rfl⟩ (.obj 0) "a.b" 0
      (final noBuiltins heapNested [.observe 10 (.obj 0), .watch (.obj 0) "a.b"]) rfl).2.2.1,
   ((construction_subscribes_to_path noBuiltins
      (final noBuiltins heapNested [.observe 10 (.obj 0)])
      ⟨heapNested, [.observe 10 (.obj 0)], heapNested_plain, rfl⟩ (.obj 0) "a.b" 0
      (final noBuiltins heapNested [.observe 10 (.obj 0), .watch (.obj 0) "a.b"]) rfl).2.2.2.2.1
      ["a"] "b" [] 1 0 (by decide) (by decide) (by decide)).1⟩

/-- C13: for every value that is not an object reference (undefined, null, a
boolean, a number, a string, a function), `observe` returns without raising
and leaves the state as it is: no Subject is created and nothing changes. It
does so within any bound of at least one call. -/
theorem observe_non_object_is_noop (B : Builtins) (fuel : Nat) (s : State) (v : Val)
    (hv : ∀ a, v ≠ .obj a) : observe B (fuel + 1) s v = some (.ok () s) := by
  cases v with
  | obj a => exact absurd rfl (hv a)
  | undefined => simp [observe, truthy]
  | null => simp [observe, truthy]
  | bool b => cases b <;> simp [observe, truthy, typeOf]
  | num n => simp [observe, typeOf]
  | str x => simp [observe, typeOf]
  | func n => simp [observe, typeOf]

/-- C13 at the number 1: `observe(1)` returns and changes nothing. -/
theorem observe_non_object_is_noop_witness :
    observe noBuiltins 1 (initState heapA) (.num 1) = some (.ok () (initState heapA)) :=
  observe_non_object_is_noop noBuiltins 0 (initState heapA) (.num 1) (by intro a h; cases h)

/-- C14, the claim fails: root `{ list: [10, 20] }` (the array is the object 1
with the enumerable keys `"0"` and `"1"` and `length`, which is not
enumerable). After `observe(root)` the elements 0 and 1 of the array are
reactive cells, each with a Subject of its own; constructing an Observer on
`"list.0"` reads the element in a tracked evaluation and subscribes the
Observer to the element's Subject; the write `root.list[0] = 11` notifies it:
the callback is called with (11, 10). A write of the element notifies only
if its line 30 returns: `root.list[0] = { toString: 1 }` raises a `TypeError`
there and calls no `update`. -/
theorem array_elements_become_cells :
    lookup "0" ((final listBuiltins heapList [.observe 12 (.obj 0)]).objs 1).props
      = some (.accessor 0) ∧
    lookup "1" ((final listBuiltins heapList [.observe 12 (.obj 0)]).objs 1).props
      = some (.accessor 1) ∧
    ((final listBuiltins heapList [.observe 12 (.obj 0)]).cells 0).dep = 1 ∧
    ((final listBuiltins heapList [.observe 12 (.obj 0)]).cells 1).dep = 2 ∧
    ((final listBuiltins heapList [.observe 12 (.obj 0)]).deps 1).watchers = [] ∧
    ((final listBuiltins heapList
      [.observe 12 (.obj 0), .watch (.obj 0) "list.0"]).deps 1).watchers = [0] ∧
    callbacks (final listBuiltins heapList
      [.observe 12 (.obj 0), .watch (.obj 0) "list.0",
       .write (.obj 1) "0" (.num 11)]).trace = [(0, .num 11, .num 10)] ∧
    (setProp listBuiltins (final listBuiltins (withNoString heapList 9)
      [.observe 12 (.obj 0), .watch (.obj 0) "list.0"]) (.obj 1) "0" (.obj 9)).isOk = false ∧
    updates (final listBuiltins (withNoString heapList 9)
      [.observe 12 (.obj 0), .watch (.obj 0) "list.0",
       .write (.obj 1) "0" (.obj 9)]).trace = [] := by
  decide

/-- C14 as amended: `observe` makes no difference between an array and another
object. On a finite tree-shaped root of plain data, `observe` returns, and
every enumerable property of every object of the tree, so every element of
every array in it at any depth, is then a reactive cell that holds the
element, with a Subject created by this call; reading the element with an
Observer installed returns the element and registers the Observer with that
Subject, and once the evaluation is over a write of the element whose line 30
returns calls `update` on the Observer; line 30 returns when the element and
the written value are `undefined`, `null`, booleans, numbers or strings. The
properties that are not enumerable, such as `length`, are the data properties
they were. -/
theorem observe_tracks_array_elements (B : Builtins) (s : State) (hr : Reachable B s)
    (t : Tree) (fuel : Nat) (hfuel : t.size ≤ fuel) (hh : t.Holds s.objs)
    (hnd : t.addrs.Nodup) :
    ∃ s1, observe B fuel s t.val = some (.ok () s1) ∧
      (∀ a k v, (a, k, v, true) ∈ t.entries →
        ∃ c, lookup k (s1.objs a).props = some (.accessor c) ∧
          (s1.cells c).val = v ∧ s.nextDep ≤ (s1.cells c).dep ∧
          ∀ w, ∃ s2, getProp B (setTarget s1 (some w)) (.obj a) k = .ok v s2 ∧
            (s2.deps (s1.cells c).dep).watchers = [w] ∧
            (∀ x, (logChange B (setTarget s2 none) c x).isOk = true →
              updates (setProp B (setTarget s2 none) (.obj a) k x).state.trace
                = updates s2.trace ++ [w]) ∧
            (v.isPrimitive = true → ∀ x, x.isPrimitive = true →
              (logChange B (setTarget s2 none) c x).isOk = true)) ∧
      (∀ a k v, (a, k, v, false) ∈ t.entries →
        lookup k (s1.objs a).props = some (.data v false)) := by
  obtain ⟨s1, h1, g, i, -⟩ := Tree.observe_ok B t s fuel hfuel hh hnd
  have hok : HeapOk s1 := observe_heapOk B fuel s t.val (.ok () s1) hr.heapOk h1
  refine ⟨s1, h1, ?_, i.plain⟩
  intro a k v hm
  obtain ⟨c, c1, c2, c3, c4⟩ := i.cell a k v hm
  obtain ⟨d1, d2⟩ := g.newCellDep c c1 c2
  refine ⟨c, c3, c4, d1, ?_⟩
  intro w
  obtain ⟨s2, e1, e2, e3⟩ := tracked_read_of_fresh_cell B s1 a c w k hok c3
    (g.newDepEmpty _ d1 d2)
  have hf := getProp_frame B (setTarget s1 (some w)) (.obj a) k
  rw [e1] at hf
  have hc : s2.cells = s1.cells := hf.cells
  rw [c4] at e1
  refine ⟨s2, e1, e2, e3, ?_⟩
  intro hv x hx
  rw [logChange_primitive B (setTarget s2 none) c x
    (by show (s2.cells c).val.isPrimitive = true; rw [hc, c4]; exact hv) hx]
  rfl

/-- C14 as amended at root `{ list: [10, 20] }`: `observe(root)` returns, the
element 0 of the array is a reactive cell that holds 10, and `length` is the
data property it was. -/
theorem observe_tracks_array_elements_witness :
    ∃ s1, observe listBuiltins 12 (initState heapList) (.obj 0) = some (.ok () s1) ∧
      (∃ c, lookup "0" (s1.objs 1).props = some (.accessor c) ∧ (s1.cells c).val = .num 10) ∧
      lookup "length" (s1.objs 1).props = some (.data (.num 2) false) := by
  obtain ⟨s1, h1, h2, h3⟩ := observe_tracks_array_elements listBuiltins (initState heapList)
    ⟨heapList, [], heapList_plain, rfl⟩ treeList 12 (by decide) treeList_holds (by decide)
  obtain ⟨c, hc⟩ := h2 1 "0" (.num 10) (by decide)
  exact ⟨s1, h1, ⟨c, hc.1, hc.2.1⟩, h3 1 "length" (.num 2) (by decide)⟩

/-- C15, the claim fails for a further call of `observe`: root `{ a: 1 }` is
observed and an Observer is constructed on `"a"`; the property `a` is the
cell 0 with Subject 0, whose list holds the Observer. After a second
`observe(root)` the property `a` is the cell 1 with the new Subject 1, and the
write `root.a = 2` notifies Subject 1 only: the Observer's callback is not
called. -/
theorem second_observe_replaces_subject :
    lookup "a" ((final noBuiltins heapA
      [.observe 10 (.obj 0), .watch (.obj 0) "a"]).objs 0).props = some (.accessor 0) ∧
    ((final noBuiltins heapA [.observe 10 (.obj 0), .watch (.obj 0) "a"]).cells 0).dep = 0 ∧
    ((final noBuiltins heapA [.observe 10 (.obj 0), .watch (.obj 0) "a"]).deps 0).watchers
      = [0] ∧
    lookup "a" ((final noBuiltins heapA
      [.observe 10 (.obj 0), .watch (.obj 0) "a", .observe 10 (.obj 0)]).objs 0).props
      = some (.accessor 1) ∧
    ((final noBuiltins heapA
      [.observe 10 (.obj 0), .watch (.obj 0) "a", .observe 10 (.obj 0)]).cells 1).dep = 1 ∧
    callbacks (final noBuiltins heapA
      [.observe 10 (.obj 0), .watch (.obj 0) "a", .observe 10 (.obj 0),
       .write (.obj 0) "a" (.num 2)]).trace = [] := by
  decide

/-- C15 as amended: every reactive cell has one Subject, the one created when
the cell was instrumented, and no read, write, notification or Observer
construction replaces it: after any sequence of such operations the property
is the same cell with the same Subject, whose list still starts with the
Observers subscribed before; a write of the cell runs line 30 and then, unless
line 30 raised, `notify` of that Subject on the state with the value stored,
and a read with an Observer installed registers the Observer with that same
Subject. -/
theorem subject_never_replaced (B : Builtins) (s : State) (ops : List Op) (s1 : State)
    (hno : ∀ op ∈ ops, op.isObserve = false) (hrun : execAll B s ops = some s1)
    (a c : Nat) (k : String) (hslot : lookup k (s.objs a).props = some (.accessor c)) :
    lookup k (s1.objs a).props = some (.accessor c) ∧
    (s1.cells c).dep = (s.cells c).dep ∧
    (s.deps (s.cells c).dep).watchers <+: (s1.deps (s1.cells c).dep).watchers ∧
    (∀ x s2, logChange B s1 c x = .ok () s2 →
      setProp B s1 (.obj a) k x = notify B (setVal s2 c x) (s.cells c).dep) ∧
    (∀ x s2, logChange B s1 c x = .throw s2 → setProp B s1 (.obj a) k x = .throw s2) ∧
    (∀ w, s1.target = some w →
      (getProp B s1 (.obj a) k).state = addDep (log s1 (Event.read c)) w (s1.cells c).dep) := by
  obtain ⟨h1, h2, h3⟩ := execAll_keeps_accessor B s ops s1 hno hrun a c k hslot
  refine ⟨h1, h2 c, by rw [h2 c]; exact h3 _, ?_, ?_, ?_⟩
  · intro x s2 hlog
    rw [setProp_accessor B s1 a c k x h1, reactiveSet_ok B s1 c x s2 hlog, h2 c]
  · intro x s2 hlog
    rw [setProp_accessor B s1 a c k x h1, reactiveSet_throw B s1 c x s2 hlog]
  intro w hw
  rw [getProp_accessor B s1 a c k h1]
  simp [reactiveGet, hw]

/-- C15 as amended, at root `{ a: 1 }`, observed, with one Observer on `"a"`:
after the write `root.a = 2` and a read, the property `a` is still the cell 0
with the Subject 0. -/
theorem subject_never_replaced_witness :
    lookup "a" ((final noBuiltins heapA
      [.observe 10 (.obj 0), .watch (.obj 0) "a", .write (.obj 0) "a" (.num 2),
       .read (.obj 0) "a"]).objs 0).props = some (.accessor 0) ∧
    ((final noBuiltins heapA
      [.observe 10 (.obj 0), .watch (.obj 0) "a", .write (.obj 0) "a" (.num 2),
       .read (.obj 0) "a"]).cells 0).dep =
      ((final noBuiltins heapA [.observe 10 (.obj 0), .watch (.obj 0) "a"]).cells 0).dep :=
  ⟨(subject_never_replaced noBuiltins
      (final noBuiltins heapA [.observe 10 (.obj 0), .watch (.obj 0) "a"])
      [.write (.obj 0) "a" (.num 2), .read (.obj 0) "a"] _ (by decide) rfl 0 0 "a"
      (by decide)).1,
   (subject_never_replaced noBuiltins
      (final noBuiltins heapA [.observe 10 (.obj 0), .watch (.obj 0) "a"])
      [.write (.obj 0) "a" (.num 2), .read (.obj 0) "a"] _ (by decide) rfl 0 0 "a"
      (by decide)).2.1⟩

/-- C16: a read of a reactive cell returns, with the cell's stored value, and
leaves every object and the stored value of every cell as they were. With no
Observer installed it leaves every Subject and every Observer unchanged; with
the Observer `w` installed it changes at most the list of that cell's Subject
(whose id stays, and which only grows) and the `depIds` of `w` (whose other
fields stay). -/
theorem read_never_mutates_data (B : Builtins) (s : State) (a c : Nat) (k : String)
    (hslot : lookup k (s.objs a).props = some (.accessor c)) :
    ∃ s1, getProp B s (.obj a) k = .ok (s.cells c).val s1 ∧
      s1.objs = s.objs ∧ s1.cells = s.cells ∧
      (s.target = none → s1.deps = s.deps ∧ s1.watchers = s.watchers) ∧
      (∀ w, s.target = some w →
        (∀ d, d ≠ (s.cells c).dep → s1.deps d = s.deps d) ∧
        (s1.deps (s.cells c).dep).id = (s.deps (s.cells c).dep).id ∧
        (s.deps (s.cells c).dep).watchers <+: (s1.deps (s.cells c).dep).watchers ∧
        (∀ w1, w1 ≠ w → s1.watchers w1 = s.watchers w1) ∧
        (s1.watchers w).vm = (s.watchers w).vm ∧ (s1.watchers w).exp = (s.watchers w).exp ∧
        (s1.watchers w).value = (s.watchers w).value) := by
  refine ⟨(reactiveGet s c).2, getProp_accessor B s a c k hslot, (reactiveGet_frame s c).objs,
    (reactiveGet_frame s c).cells, ?_, ?_⟩
  · intro ht
    have := getProp_no_target B s (.obj a) k ht
    rw [getProp_accessor B s a c k hslot] at this
    exact this
  · intro w ht
    have hf := reactiveGet_frame s c
    refine ⟨?_, hf.depIdOf _, hf.subs _, ?_, hf.vm w, hf.exp w, hf.value w⟩
    · intro d hd
      simp only [reactiveGet, ht]
      exact addDep_other_dep _ w _ d hd
    · intro w1 hw1
      simp only [reactiveGet, ht]
      exact addDep_other_watcher _ w _ w1 hw1

/-- C16 at root `{ msg: "hi" }`, observed, with one Observer on `"msg"`: the
read `root.msg` returns `"hi"`. -/
theorem read_never_mutates_data_witness :
    ∃ s1, getProp noBuiltins (final noBuiltins heapMsg
        [.observe 10 (.obj 0), .watch (.obj 0) "msg"]) (.obj 0) "msg" = .ok (.str "hi") s1 :=
  (read_never_mutates_data noBuiltins (final noBuiltins heapMsg
    [.observe 10 (.obj 0), .watch (.obj 0) "msg"]) 0 0 "msg" (by decide)).imp
    (fun _ h => h.1)

/-- C17, the claim fails in its last part: root `{ a: { b: 1 } }` is observed, an
Observer is constructed on `"a.b"` and `root.a = null` is written; then a new
`Dep` is created and `addSub` is called twice on it with that Observer. The
list holds it twice, but `notify()` calls its `update` once only: the first
call raises a `TypeError` (`null.b`), which ends the `forEach`. -/
theorem update_called_once_when_it_raises :
    (((addSub (addSub (newDep (final noBuiltins heapNested
        [.observe 10 (.obj 0), .watch (.obj 0) "a.b", .write (.obj 0) "a" .null])).2
        2 0) 2 0).deps 2).watchers = [0, 0]) ∧
    (updates (notify noBuiltins (addSub (addSub (newDep (final noBuiltins heapNested
        [.observe 10 (.obj 0), .watch (.obj 0) "a.b", .write (.obj 0) "a" .null])).2
        2 0) 2 0) 2).state.trace).count 0 =
      (updates (final noBuiltins heapNested
        [.observe 10 (.obj 0), .watch (.obj 0) "a.b", .write (.obj 0) "a" .null]).trace).count 0
        + 1 := by
  decide

/-- C17 as amended: `addSub(w)` appends `w` at the end of the Subject's list
whether or not `w` is already present (the list grows by exactly one, its
earlier entries stay in order, no other Subject changes); after two calls
with the same `w`, not in the list before, a single `notify()` calls
`w.update` at least once and at most twice, and exactly twice when it returns
(the second call takes place only if the calls before it returned). -/
theorem addSub_appends_without_check (B : Builtins) (s : State) (d w : Nat) :
    ((addSub s d w).deps d).watchers = (s.deps d).watchers ++ [w] ∧
    (∀ d1, d1 ≠ d → (addSub s d w).deps d1 = s.deps d1) ∧
    ((addSub (addSub s d w) d w).deps d).watchers = (s.deps d).watchers ++ [w, w] ∧
    (w ∉ (s.deps d).watchers →
      (updates (notify B (addSub (addSub s d w) d w) d).state.trace).count w ≤
        (updates s.trace).count w + 2 ∧
      ((s.deps d).watchers = [] →
        (updates s.trace).count w + 1 ≤
          (updates (notify B (addSub (addSub s d w) d w) d).state.trace).count w) ∧
      ((notify B (addSub (addSub s d w) d w) d).isOk = true →
        (updates (notify B (addSub (addSub s d w) d w) d).state.trace).count w =
          (updates s.trace).count w + 2)) := by
  have h1 : ((addSub s d w).deps d).watchers = (s.deps d).watchers ++ [w] := by
    simp [addSub]
  have h2 : ((addSub (addSub s d w) d w).deps d).watchers = (s.deps d).watchers ++ [w, w] := by
    simp [addSub]
  refine ⟨h1, ?_, h2, ?_⟩
  · intro d1 hd
    simp [addSub, Function.update_apply, hd]
  · intro hnot
    obtain ⟨U, hU, hpre, hok, hne⟩ := notifyLoop_updates B (addSub (addSub s d w) d w)
      ((s.deps d).watchers ++ [w, w])
    have hn : notify B (addSub (addSub s d w) d w) d =
        notifyLoop B (addSub (addSub s d w) d w) ((s.deps d).watchers ++ [w, w]) := by
      unfold notify
      rw [h2]
    rw [hn]
    have htr : (addSub (addSub s d w) d w).trace = s.trace := rfl
    rw [htr] at hU
    rw [hU, List.count_append]
    have hc : ((s.deps d).watchers ++ [w, w]).count w = 2 := by
      rw [List.count_append, List.count_eq_zero_of_not_mem hnot]
      simp
    refine ⟨?_, ?_, ?_⟩
    · have := hpre.sublist.count_le w
      omega
    · intro hnil
      rw [hnil] at hpre hne
      have hU1 : U ≠ [] := hne (by simp)
      cases U with
      | nil => exact absurd rfl hU1
      | cons u U =>
        have : u = w := by
          obtain ⟨t, ht⟩ := hpre
          simp at ht
          exact ht.1
        subst this
        simp
    · intro hk
      rw [hok hk, hc]

/-- C17 as amended, at root `{ msg: "hi" }`, observed, with one Observer on
`"msg"` and a new `Dep` (the second one created, index 1): two calls of
`addSub` with the Observer give the list `[0, 0]` and `notify()` calls its
`update` twice. -/
theorem addSub_appends_without_check_witness :
    ((addSub (addSub (newDep (final noBuiltins heapMsg
      [.observe 10 (.obj 0), .watch (.obj 0) "msg"])).2 1 0) 1 0).deps 1).watchers =
      ((newDep (final noBuiltins heapMsg
        [.observe 10 (.obj 0), .watch (.obj 0) "msg"])).2.deps 1).watchers ++ [0, 0] ∧
    (updates (notify noBuiltins (addSub (addSub (newDep (final noBuiltins heapMsg
      [.observe 10 (.obj 0), .watch (.obj 0) "msg"])).2 1 0) 1 0) 1).state.trace).count 0 =
      (updates (newDep (final noBuiltins heapMsg
        [.observe 10 (.obj 0), .watch (.obj 0) "msg"])).2.trace).count 0 + 2 :=
  ⟨(addSub_appends_without_check noBuiltins (newDep (final noBuiltins heapMsg
      [.observe 10 (.obj 0), .watch (.obj 0) "msg"])).2 1 0).2.2.1,
   ((addSub_appends_without_check noBuiltins (newDep (final noBuiltins heapMsg
      [.observe 10 (.obj 0), .watch (.obj 0) "msg"])).2 1 0).2.2.2
      (by decide)).2.2 (by decide)⟩

/-- C18: no sequence of operations (reads, writes with their notifications and
re-evaluations, constructions, `observe`) removes an Observer from the list of
an existing Subject: the list as it was stays a prefix, in the same order, of
the list afterwards. So an Observer subscribed to a Subject stays subscribed,
also when the cell is no longer on its path, and a write to a cell of that
Subject that returns still calls its callback. -/
theorem stale_dependencies_retained (B : Builtins) (s : State) (ops : List Op) (s1 : State)
    (hrun : execAll B s ops = some s1) :
    (∀ d, d < s.nextDep → (s.deps d).watchers <+: (s1.deps d).watchers) ∧
    (∀ d w, d < s.nextDep → w ∈ (s.deps d).watchers → w ∈ (s1.deps d).watchers) ∧
    ∀ a c k x w, lookup k (s1.objs a).props = some (.accessor c) →
      w ∈ (s1.deps (s1.cells c).dep).watchers →
      (setProp B s1 (.obj a) k x).isOk = true →
      cbCount w s1.trace < cbCount w (setProp B s1 (.obj a) k x).state.trace := by
  obtain ⟨-, hpre⟩ := execAll_retains B s ops s1 hrun
  refine ⟨hpre, fun d w hd hw => (hpre d hd).subset hw, ?_⟩
  intro a c k x w hslot hw hok
  obtain ⟨L, hL, -, hall⟩ := setProp_callbacks B s1 a c k x hslot
  rw [cbCount_of_callbacks w _ _ L hL, hall hok]
  have := List.count_pos_iff.2 (((logChange_frame B s1 c x).subs _).subset hw)
  omega

/-- C18 at the spec's example: root `{ a: { b: 1 } }`, observed, one Observer on
`"a.b"`; after `root.a` is replaced by the object `{ b: 5 }` the Observer is still
in the list of the Subject of the old object's `b`, and the write of 9 to the
old object's `b` calls its callback. -/
theorem stale_dependencies_retained_witness :
    0 ∈ ((final noBuiltins heapNested
      [.observe 10 (.obj 0), .watch (.obj 0) "a.b", .write (.obj 0) "a" (.obj 2)]).deps
        1).watchers ∧
    cbCount 0 (final noBuiltins heapNested
      [.observe 10 (.obj 0), .watch (.obj 0) "a.b", .write (.obj 0) "a" (.obj 2)]).trace <
    cbCount 0 (setProp noBuiltins (final noBuiltins heapNested
      [.observe 10 (.obj 0), .watch (.obj 0) "a.b", .write (.obj 0) "a" (.obj 2)])
      (.obj 1) "b" (.num 9)).state.trace :=
  ⟨(stale_dependencies_retained noBuiltins
      (final noBuiltins heapNested [.observe 10 (.obj 0), .watch (.obj 0) "a.b"])
      [.write (.obj 0) "a" (.obj 2)] _ rfl).2.1 1 0 (by decide) (by decide),
   (stale_dependencies_retained noBuiltins
      (final noBuiltins heapNested [.observe 10 (.obj 0), .watch (.obj 0) "a.b"])
      [.write (.obj 0) "a" (.obj 2)] _ rfl).2.2 1 0 "b" (.num 9) 0 (by decide) (by decide)
      (by decide)⟩

/-- C19: in every reachable state distinct Subjects have distinct ids, and for
every Subject `d` and Observer `w`: `w` is in the list of `d` if and only if
`w.depIds` has the key `d.id`, and then `w.depIds[d.id]` is `d` itself. -/
theorem subscription_bookkeeping_consistent (B : Builtins) (s : State) (h : Reachable B s) :
    (∀ d d1, d < s.nextDep → d1 < s.nextDep → (s.deps d).id = (s.deps d1).id → d = d1) ∧
    ∀ w d, d < s.nextDep →
      (w ∈ (s.deps d).watchers ↔
        hasOwnProperty (s.watchers w).depIds (s.deps d).id = true) ∧
      (w ∈ (s.deps d).watchers → depAt (s.watchers w).depIds (s.deps d).id = some d) := by
  have hs := h.subsOk
  have hh := h.heapOk
  have key : ∀ w d, d < s.nextDep → ∀ p ∈ (s.watchers w).depIds, p.1 = (s.deps d).id →
      p.2 = d ∧ w ∈ (s.deps d).watchers := by
    intro w d hd p hp hid
    obtain ⟨a1, a2, a3⟩ := hh.idsOk w p hp
    have : p.2 = d := hh.idInj p.2 d a1 hd (a2.trans hid)
    rw [this] at a3
    exact ⟨this, a3⟩
  refine ⟨hh.idInj, ?_⟩
  intro w d hd
  constructor
  · constructor
    · exact hs.known d w
    · intro hown
      obtain ⟨p, hp, hid⟩ := (hasOwnProperty_iff _ _).1 hown
      exact (key w d hd p hp hid).2
  · intro hmem
    exact depAt_eq_some _ _ d (hs.known d w hmem) (fun p hp hid => (key w d hd p hp hid).1)

/-- C19 at root `{ a: { b: 1 } }`, observed, with two Observers on `"a.b"`, after a
write: the Observer 1 is in the list of the Subject 1 (that of `b`), and its
`depIds` holds that Subject under its id. -/
theorem subscription_bookkeeping_consistent_witness :
    (1 ∈ ((final noBuiltins heapNested
      [.observe 10 (.obj 0), .watch (.obj 0) "a.b", .watch (.obj 0) "a.b",
       .write (.obj 1) "b" (.num 2)]).deps 1).watchers ↔
      hasOwnProperty ((final noBuiltins heapNested
        [.observe 10 (.obj 0), .watch (.obj 0) "a.b", .watch (.obj 0) "a.b",
         .write (.obj 1) "b" (.num 2)]).watchers 1).depIds
        ((final noBuiltins heapNested
          [.observe 10 (.obj 0), .watch (.obj 0) "a.b", .watch (.obj 0) "a.b",
           .write (.obj 1) "b" (.num 2)]).deps 1).id = true) ∧
    depAt ((final noBuiltins heapNested
      [.observe 10 (.obj 0), .watch (.obj 0) "a.b", .watch (.obj 0) "a.b",
       .write (.obj 1) "b" (.num 2)]).watchers 1).depIds
      ((final noBuiltins heapNested
        [.observe 10 (.obj 0), .watch (.obj 0) "a.b", .watch (.obj 0) "a.b",
         .write (.obj 1) "b" (.num 2)]).deps 1).id = some 1 :=
  ⟨((subscription_bookkeeping_consistent noBuiltins _
      ⟨heapNested, [.observe 10 (.obj 0), .watch (.obj 0) "a.b", .watch (.obj 0) "a.b",
        .write (.obj 1) "b" (.num 2)], heapNested_plain, rfl⟩).2 1 1 (by decide)).1,
   ((subscription_bookkeeping_consistent noBuiltins _
      ⟨heapNested, [.observe 10 (.obj 0), .watch (.obj 0) "a.b", .watch (.obj 0) "a.b",
        .write (.obj 1) "b" (.num 2)], heapNested_plain, rfl⟩).2 1 1 (by decide)).2
      (by decide)⟩


end MyMVVM
